import Mathlib

/-!
# KGuillotineAllocator: a shallow embedding of `src/src/allocator.cpp`

The node store (`QVector<AllocationNode>`) is a `List AllocationNode`, handles
(`AllocationId`) are integers with `-1` as the null handle, and the two public
operations `Allocator::allocate` / `Allocator::deallocate` are state-passing
functions on `AllocatorPrivate`.  The `while` loops of `deallocate` are driven
by a fuel argument and return `none` when the fuel runs out.

`QRect` / `QSize` are Qt value types; they are represented by their
`x, y, width, height` (resp. `width, height`) as mathematical integers, with
`QRect::isEmpty`, `QRect::isNull`, `QRect::size`, `QRect::topLeft` and
`QRect::operator|` following Qt (for a rectangle of negative width or height,
which the allocator never builds, the normalisation of Qt 5 is used).  Integer
arithmetic is exact: signed overflow is undefined behaviour in the source and
lies outside the model.  Where the 32-bit range of `int` matters
(`std::numeric_limits<int>::max()` in `selectFreeNode`) it is a hypothesis,
`rectsInIntRange`.
-/

namespace KGuillotineAllocator

/-! ## Qt value types -/

/-- Qt::Orientation. -/
inductive Orientation where
  | Horizontal
  | Vertical
deriving DecidableEq, Repr

/-- QSize: a width and a height. -/
structure QSize where
  width : Int
  height : Int
deriving DecidableEq, Repr

/-- QSize::isEmpty: either dimension is smaller than one. -/
def QSize.isEmpty (s : QSize) : Bool := decide (s.width < 1) || decide (s.height < 1)

/-- QRect, as the arguments of the constructor `QRect(x, y, width, height)`. -/
structure QRect where
  x : Int
  y : Int
  width : Int
  height : Int
deriving DecidableEq, Repr

/-- The default-constructed `QRect()`: a null rectangle at the origin. -/
instance : Inhabited QRect := ⟨⟨0, 0, 0, 0⟩⟩

/-- QRect::size. -/
def QRect.size (r : QRect) : QSize := ⟨r.width, r.height⟩

/-- QRect::isEmpty: `x1 > x2 || y1 > y2`, i.e. width or height below one. -/
def QRect.isEmpty (r : QRect) : Bool := decide (r.width < 1) || decide (r.height < 1)

/-- QRect::isNull: width and height are both zero. -/
def QRect.isNull (r : QRect) : Bool := decide (r.width = 0) && decide (r.height = 0)

/-- The constructor `QRect(topLeft, size)`. -/
def QRect.ofTopLeft (x y : Int) (s : QSize) : QRect := ⟨x, y, s.width, s.height⟩

/-- Left edge used by `QRect::operator|` (a negative width is normalised). -/
def QRect.normLeft (r : QRect) : Int := if r.width < 0 then r.x + r.width - 1 else r.x

/-- Right edge (inclusive) used by `QRect::operator|`. -/
def QRect.normRight (r : QRect) : Int := if r.width < 0 then r.x else r.x + r.width - 1

/-- Top edge used by `QRect::operator|`. -/
def QRect.normTop (r : QRect) : Int := if r.height < 0 then r.y + r.height - 1 else r.y

/-- Bottom edge (inclusive) used by `QRect::operator|`. -/
def QRect.normBottom (r : QRect) : Int := if r.height < 0 then r.y else r.y + r.height - 1

/-- QRect::operator|: the bounding rectangle of the two rectangles; a null
operand yields the other operand. -/
def QRect.united (a b : QRect) : QRect :=
  if a.isNull then b
  else if b.isNull then a
  else
    let l := min a.normLeft b.normLeft
    let r := max a.normRight b.normRight
    let t := min a.normTop b.normTop
    let bt := max a.normBottom b.normBottom
    ⟨l, t, r - l + 1, bt - t + 1⟩

/-- Two rectangles share at least one pixel. -/
def QRect.overlaps (a b : QRect) : Bool :=
  decide (a.x < b.x + b.width) && decide (b.x < a.x + a.width) &&
  decide (a.y < b.y + b.height) && decide (b.y < a.y + a.height)

/-- The pixel `(px, py)` lies in the rectangle. -/
def QRect.containsPoint (r : QRect) (px py : Int) : Bool :=
  decide (r.x ≤ px) && decide (px < r.x + r.width) &&
  decide (r.y ≤ py) && decide (py < r.y + r.height)

/-! ## Handles and nodes -/

/-- AllocationId: an index into the node store. -/
abbrev AllocationId := Int

/-- AllocationId::null. -/
def AllocationId.null : AllocationId := -1

/-- AllocationNode::Kind. -/
inductive Kind where
  | Fork
  | Leaf
deriving DecidableEq, Repr

/-- AllocationNode::Status. -/
inductive Status where
  | Free
  | Occupied
  | Deleted
deriving DecidableEq, Repr

/-- AllocationNode. -/
structure AllocationNode where
  prevSibling : AllocationId
  nextSibling : AllocationId
  parent : AllocationId
  orientation : Orientation
  rect : QRect
  kind : Kind
  status : Status
deriving DecidableEq, Repr

/-- The value-initialised `AllocationNode{}` appended by `allocateNode`: null
links, a null rectangle, and the first enumerator of `Kind` and `Status`.  Its
orientation is never read before the slot is overwritten by `allocate`. -/
instance : Inhabited AllocationNode :=
  ⟨⟨AllocationId.null, AllocationId.null, AllocationId.null, Orientation.Horizontal,
    default, Kind.Fork, Status.Free⟩⟩

/-- Allocation: the rectangle and the handle handed to the caller (the
`transposed` field is never written by the allocator and is left out). -/
structure Allocation where
  rect : QRect
  id : AllocationId
deriving DecidableEq, Repr

/-- The default-constructed `Allocation{}`. -/
instance : Inhabited Allocation := ⟨⟨default, AllocationId.null⟩⟩

/-- Allocation::isNull. -/
def Allocation.isNull (a : Allocation) : Bool := decide (a.id = AllocationId.null)

/-- AllocatorPrivate: the node store and the canvas size. -/
structure AllocatorPrivate where
  nodes : List AllocationNode
  size : QSize
deriving DecidableEq, Repr

/-- Read `nodes[id]`.  An index outside the store (undefined behaviour in the
source) reads as the default node. -/
def getNode (nodes : List AllocationNode) (id : AllocationId) : AllocationNode :=
  if id < 0 then default else nodes.getD id.toNat default

/-- Write `nodes[id] = v`.  An index outside the store leaves it unchanged. -/
def setNode (nodes : List AllocationNode) (id : AllocationId) (v : AllocationNode) :
    List AllocationNode :=
  if id < 0 then nodes else nodes.set id.toNat v

/-! ## Node store -/

/-- AllocatorPrivate::allocateNode: the index of the first slot whose status is
`Deleted` (the slot itself is left as it is), else a fresh slot appended at the
end.  Returns the handle and the store. -/
def allocateNode (nodes : List AllocationNode) : AllocationId × List AllocationNode :=
  match nodes.findIdx? (fun n => decide (n.status = Status.Deleted)) with
  | some i => ((i : Int), nodes)
  | none => ((nodes.length : Int), nodes ++ [default])

/-- AllocatorPrivate::releaseNode. -/
def releaseNode (nodes : List AllocationNode) (nodeId : AllocationId) : List AllocationNode :=
  setNode nodes nodeId { getNode nodes nodeId with status := Status.Deleted }

/-- Allocator::Allocator: one free root leaf spanning the canvas. -/
def Allocator (size : QSize) : AllocatorPrivate :=
  { nodes := [{ prevSibling := AllocationId.null
                nextSibling := AllocationId.null
                parent := AllocationId.null
                orientation := Orientation.Horizontal
                rect := QRect.ofTopLeft 0 0 size
                kind := Kind.Leaf
                status := Status.Free }]
    size := size }

/-! ## Placement -/

/-- The constant `std::numeric_limits<int>::max()`. -/
def intMax : Int := 2147483647

/-- The body of the `for` loop of `selectFreeNode`, over the slots from
`nodeId` on, carrying `bestCandidate` and `bestScore`. -/
def selectLoop (size : QSize) :
    List AllocationNode → Int → AllocationId → Int → AllocationId
  | [], _, bestCandidate, _ => bestCandidate
  | n :: rest, nodeId, bestCandidate, bestScore =>
    if n.status ≠ Status.Free ∨ n.kind ≠ Kind.Leaf then
      selectLoop size rest (nodeId + 1) bestCandidate bestScore
    else
      let xDelta := n.rect.size.width - size.width
      let yDelta := n.rect.size.height - size.height
      if xDelta < 0 ∨ yDelta < 0 then
        selectLoop size rest (nodeId + 1) bestCandidate bestScore
      else
        let score := min xDelta yDelta
        if score < bestScore then
          selectLoop size rest (nodeId + 1) nodeId score
        else
          selectLoop size rest (nodeId + 1) bestCandidate bestScore

/-- AllocatorPrivate::selectFreeNode. -/
def selectFreeNode (d : AllocatorPrivate) (size : QSize) : AllocationId :=
  selectLoop size d.nodes 0 AllocationId.null intMax

/-- The static helper `flipOrientation`. -/
def flipOrientation (orientation : Orientation) : Orientation :=
  if orientation = Orientation.Horizontal then Orientation.Vertical else Orientation.Horizontal

/-- The static helper `guillotine`: allocated, leftover and split rectangle. -/
def guillotine (bounds : QRect) (size : QSize) (axis : Orientation) : QRect × QRect × QRect :=
  let allocatedRect := QRect.ofTopLeft bounds.x bounds.y size
  if axis = Orientation.Vertical then
    (allocatedRect,
     ⟨bounds.x, bounds.y + size.height, size.width, bounds.height - size.height⟩,
     ⟨bounds.x + size.width, bounds.y, bounds.width - size.width, bounds.height⟩)
  else
    (allocatedRect,
     ⟨bounds.x + size.width, bounds.y, bounds.width - size.width, size.height⟩,
     ⟨bounds.x, bounds.y + size.height, bounds.width, bounds.height - size.height⟩)

/-- The split path of `Allocator::allocate` (lines 173-228): the selected node
is not an exact fit. -/
def allocateSplit (d : AllocatorPrivate) (selectedId : AllocationId) (requestedSize : QSize) :
    Allocation × AllocatorPrivate :=
  let sel := getNode d.nodes selectedId
  let rects := guillotine sel.rect requestedSize sel.orientation
  let allocatedRect := rects.1
  let leftoverRect := rects.2.1
  let splitRect := rects.2.2
  let r1 := allocateNode d.nodes
  let allocatedId := r1.1
  let r2 := if !leftoverRect.isEmpty then allocateNode r1.2 else (AllocationId.null, r1.2)
  let leftoverId := r2.1
  let r3 := if !splitRect.isEmpty then allocateNode r2.2 else (AllocationId.null, r2.2)
  let splitId := r3.1
  let nodes4 := setNode r3.2 selectedId { getNode r3.2 selectedId with kind := Kind.Fork }
  let childOrientation := flipOrientation (getNode nodes4 selectedId).orientation
  let nodes5 := setNode nodes4 allocatedId
    { prevSibling := AllocationId.null
      nextSibling := leftoverId
      parent := selectedId
      orientation := childOrientation
      rect := allocatedRect
      kind := Kind.Leaf
      status := Status.Occupied }
  let nodes6 :=
    if leftoverId ≠ AllocationId.null then
      setNode nodes5 leftoverId
        { prevSibling := allocatedId
          nextSibling := AllocationId.null
          parent := selectedId
          orientation := childOrientation
          rect := leftoverRect
          kind := Kind.Leaf
          status := Status.Free }
    else nodes5
  let nodes7 :=
    if splitId ≠ AllocationId.null then
      let nodes7a := setNode nodes6 splitId
        { prevSibling := selectedId
          nextSibling := (getNode nodes6 selectedId).nextSibling
          parent := (getNode nodes6 selectedId).parent
          orientation := (getNode nodes6 selectedId).orientation
          rect := splitRect
          kind := Kind.Leaf
          status := Status.Free }
      setNode nodes7a selectedId { getNode nodes7a selectedId with nextSibling := splitId }
    else nodes6
  ({ rect := allocatedRect, id := allocatedId }, { d with nodes := nodes7 })

/-- Allocator::allocate: the allocation handed back and the state after. -/
def allocate (d : AllocatorPrivate) (requestedSize : QSize) : Allocation × AllocatorPrivate :=
  if requestedSize.isEmpty then (default, d)
  else
    let selectedId := selectFreeNode d requestedSize
    if selectedId = AllocationId.null then (default, d)
    else if (getNode d.nodes selectedId).rect.size = requestedSize then
      let nodes1 := setNode d.nodes selectedId
        { getNode d.nodes selectedId with status := Status.Occupied }
      ({ rect := (getNode nodes1 selectedId).rect, id := selectedId }, { d with nodes := nodes1 })
    else allocateSplit d selectedId requestedSize

/-! ## Coalescing -/

/-- The forward-merge `while` loop of `Allocator::deallocate` (lines 238-254). -/
def mergeNext : Nat → List AllocationNode → AllocationId → Option (List AllocationNode)
  | 0, _, _ => none
  | fuel + 1, nodes, nodeId =>
    let nextSibling := (getNode nodes nodeId).nextSibling
    if nextSibling = AllocationId.null then some nodes
    else if (getNode nodes nextSibling).kind ≠ Kind.Leaf ∨
        (getNode nodes nextSibling).status ≠ Status.Free then some nodes
    else
      let nodes1 := setNode nodes nodeId
        { getNode nodes nodeId with
          rect := (getNode nodes nodeId).rect.united (getNode nodes nextSibling).rect }
      let grandNextSibling := (getNode nodes1 nextSibling).nextSibling
      let nodes2 :=
        if grandNextSibling ≠ AllocationId.null then
          let nodes2a := setNode nodes1 grandNextSibling
            { getNode nodes1 grandNextSibling with prevSibling := nodeId }
          setNode nodes2a nodeId { getNode nodes2a nodeId with nextSibling := grandNextSibling }
        else nodes1
      mergeNext fuel (releaseNode nodes2 nextSibling) nodeId

/-- The backward-merge `while` loop of `Allocator::deallocate` (lines 258-274). -/
def mergePrev : Nat → List AllocationNode → AllocationId → Option (List AllocationNode)
  | 0, _, _ => none
  | fuel + 1, nodes, nodeId =>
    let prevSibling := (getNode nodes nodeId).prevSibling
    if prevSibling = AllocationId.null then some nodes
    else if (getNode nodes prevSibling).kind ≠ Kind.Leaf ∨
        (getNode nodes prevSibling).status ≠ Status.Free then some nodes
    else
      let nodes1 := setNode nodes nodeId
        { getNode nodes nodeId with
          rect := (getNode nodes nodeId).rect.united (getNode nodes prevSibling).rect }
      let grandPrevSibling := (getNode nodes1 prevSibling).prevSibling
      let nodes2 :=
        if grandPrevSibling ≠ AllocationId.null then
          let nodes2a := setNode nodes1 grandPrevSibling
            { getNode nodes1 grandPrevSibling with nextSibling := nodeId }
          setNode nodes2a nodeId { getNode nodes2a nodeId with prevSibling := grandPrevSibling }
        else nodes1
      mergePrev fuel (releaseNode nodes2 prevSibling) nodeId

/-- The outer `while (true)` loop of `Allocator::deallocate` (lines 235-292). -/
def deallocateLoop : Nat → List AllocationNode → AllocationId → Option (List AllocationNode)
  | 0, _, _ => none
  | fuel + 1, nodes, nodeId =>
    match mergeNext (fuel + 1) nodes nodeId with
    | none => none
    | some nodesA =>
      match mergePrev (fuel + 1) nodesA nodeId with
      | none => none
      | some nodesB =>
        if (getNode nodesB nodeId).parent = AllocationId.null ∨
            (getNode nodesB nodeId).prevSibling ≠ AllocationId.null ∨
            (getNode nodesB nodeId).nextSibling ≠ AllocationId.null then
          some nodesB
        else
          let parentId := (getNode nodesB nodeId).parent
          let nodesC := setNode nodesB parentId
            { getNode nodesB parentId with rect := (getNode nodesB nodeId).rect }
          let nodesD := setNode nodesC parentId { getNode nodesC parentId with kind := Kind.Leaf }
          let nodesE := setNode nodesD parentId
            { getNode nodesD parentId with status := Status.Free }
          deallocateLoop fuel (releaseNode nodesE nodeId) parentId

/-- Allocator::deallocate, with `fuel` bounding the iterations of each loop;
`none` means the fuel ran out. -/
def deallocate (fuel : Nat) (d : AllocatorPrivate) (nodeId : AllocationId) :
    Option AllocatorPrivate :=
  let nodes0 := setNode d.nodes nodeId { getNode d.nodes nodeId with status := Status.Free }
  (deallocateLoop fuel nodes0 nodeId).map (fun nodes => { d with nodes := nodes })

/-! ## Vocabulary of the specification -/

/-- A node is eligible for a request: a free leaf at least as wide and as high
as the requested size. -/
def eligible (size : QSize) (n : AllocationNode) : Prop :=
  n.kind = Kind.Leaf ∧ n.status = Status.Free ∧
    size.width ≤ n.rect.width ∧ size.height ≤ n.rect.height

instance (size : QSize) (n : AllocationNode) : Decidable (eligible size n) := by
  unfold eligible; infer_instance

/-- The best-fit score: the smaller residual dimension. -/
def score (size : QSize) (n : AllocationNode) : Int :=
  min (n.rect.width - size.width) (n.rect.height - size.height)

/-- Every rectangle of the store has a width and a height that fit an `int`. -/
def rectsInIntRange (d : AllocatorPrivate) : Prop :=
  ∀ n ∈ d.nodes, n.rect.width ≤ intMax ∧ n.rect.height ≤ intMax

instance (d : AllocatorPrivate) : Decidable (rectsInIntRange d) := by
  unfold rectsInIntRange; infer_instance

/-- The number of slots whose status is not `Deleted`. -/
def nonDeletedCount (nodes : List AllocationNode) : Nat :=
  nodes.countP (fun n => decide (n.status ≠ Status.Deleted))

/-- The rectangles of the leaves that are not `Deleted`, in handle order. -/
def leafRects (nodes : List AllocationNode) : List QRect :=
  (nodes.filter (fun n => decide (n.kind = Kind.Leaf) && decide (n.status ≠ Status.Deleted))).map
    (fun n => n.rect)

/-- Some rectangle of the list contains the pixel. -/
def coversPoint (rects : List QRect) (px py : Int) : Bool :=
  rects.any (fun r => r.containsPoint px py)

/-- No two rectangles at different positions of the list overlap. -/
def pairwiseDisjoint : List QRect → Bool
  | [] => true
  | r :: rest => rest.all (fun q => !r.overlaps q) && pairwiseDisjoint rest

/-! ## A client of the allocator -/

/-- A call made by a client. -/
inductive Op where
  | allocate (size : QSize)
  | deallocate (id : AllocationId)
deriving DecidableEq, Repr

/-- The allocator together with the caller's record of the allocations that
are live: returned non-null by `allocate` and not yet handed to `deallocate`. -/
structure Client where
  d : AllocatorPrivate
  live : List Allocation
deriving DecidableEq, Repr

/-- A client holding a freshly constructed allocator. -/
def Client.fresh (size : QSize) : Client := { d := Allocator size, live := [] }

/-- One call.  A `deallocate` of an id that is not live violates the
precondition of `Allocator::deallocate` and is rejected with `none`, as is a
`deallocate` that runs out of fuel. -/
def Client.step (fuel : Nat) (c : Client) : Op → Option Client
  | Op.allocate size =>
    let r := allocate c.d size
    some { d := r.2, live := if r.1.isNull then c.live else c.live ++ [r.1] }
  | Op.deallocate id =>
    if c.live.any (fun a => decide (a.id = id)) then
      (deallocate fuel c.d id).map
        (fun d => { d := d, live := c.live.eraseP (fun a => decide (a.id = id)) })
    else none

/-- A sequence of calls, each `deallocate` being checked against the live
allocations. -/
def Client.run (fuel : Nat) : Client → List Op → Option Client
  | c, [] => some c
  | c, op :: ops =>
    match c.step fuel op with
    | none => none
    | some c1 => Client.run fuel c1 ops

/-- The round trip on a fresh allocator: `allocate(s1)`, `allocate(s2)`,
`deallocate(a2.id)`, `deallocate(a1.id)`; the two allocations and the final
state. -/
def roundTrip (fuel : Nat) (size s1 s2 : QSize) :
    Option (Allocation × Allocation × AllocatorPrivate) :=
  let r1 := allocate (Allocator size) s1
  let r2 := allocate r1.2 s2
  match deallocate fuel r2.2 r2.1.id with
  | none => none
  | some d3 => (deallocate fuel d3 r1.1.id).map (fun d4 => (r1.1, r2.1, d4))

/-! ## Further vocabulary: handles, rectangles, reachable states -/

/-- The handle refers to a slot of the store. -/
def InRange (nodes : List AllocationNode) (id : AllocationId) : Prop :=
  0 ≤ id ∧ id.toNat < nodes.length

instance (nodes : List AllocationNode) (id : AllocationId) : Decidable (InRange nodes id) := by
  unfold InRange; infer_instance

/-- The three handles obtained from the node store on the split path of
`Allocator::allocate` (lines 177-181): `allocatedId`, `leftoverId`, `splitId`. -/
def allocateSplitIds (d : AllocatorPrivate) (selectedId : AllocationId) (requestedSize : QSize) :
    AllocationId × AllocationId × AllocationId :=
  let sel := getNode d.nodes selectedId
  let rects := guillotine sel.rect requestedSize sel.orientation
  let r1 := allocateNode d.nodes
  let r2 := if !rects.2.1.isEmpty then allocateNode r1.2 else (AllocationId.null, r1.2)
  let r3 := if !rects.2.2.isEmpty then allocateNode r2.2 else (AllocationId.null, r2.2)
  (r1.1, r2.1, r3.1)

/-- The area of a rectangle of non-negative width and height. -/
def QRect.area (r : QRect) : Int := r.width * r.height

/-- The rectangle `r` lies inside the rectangle `b`. -/
def QRect.within (r b : QRect) : Prop :=
  b.x ≤ r.x ∧ r.x + r.width ≤ b.x + b.width ∧ b.y ≤ r.y ∧ r.y + r.height ≤ b.y + b.height

instance (r b : QRect) : Decidable (r.within b) := by
  unfold QRect.within; infer_instance

/-- The states a client can reach from a freshly constructed allocator by
valid calls: `allocate` with any size, and `deallocate` with the id of a live
allocation. -/
inductive Reachable (size : QSize) : Client → Prop where
  | fresh : Reachable size (Client.fresh size)
  | step (fuel : Nat) (c c1 : Client) (op : Op) :
      Reachable size c → Client.step fuel c op = some c1 → Reachable size c1

/-- The loop of `Window::reload` in the demo: one `allocate` per requested
size on the same allocator, keeping the allocations that are not null. -/
def allocateAll : AllocatorPrivate → List QSize → AllocatorPrivate × List Allocation
  | d, [] => (d, [])
  | d, s :: rest =>
    let r := allocate d s
    let t := allocateAll r.2 rest
    (t.1, if r.1.isNull then t.2 else r.1 :: t.2)

/-- The node store on the split path of `Allocator::allocate` right after the
calls of `allocateNode` (line 181), before any node is written. -/
def allocateSplitStore (d : AllocatorPrivate) (selectedId : AllocationId)
    (requestedSize : QSize) : List AllocationNode :=
  let sel := getNode d.nodes selectedId
  let rects := guillotine sel.rect requestedSize sel.orientation
  let r1 := allocateNode d.nodes
  let r2 := if !rects.2.1.isEmpty then allocateNode r1.2 else (AllocationId.null, r1.2)
  let r3 := if !rects.2.2.isEmpty then allocateNode r2.2 else (AllocationId.null, r2.2)
  r3.2

/-- The node written for the allocated rectangle (lines 186-195). -/
def allocatedNode (d : AllocatorPrivate) (selectedId : AllocationId) (requestedSize : QSize) :
    AllocationNode :=
  { prevSibling := AllocationId.null
    nextSibling := (allocateSplitIds d selectedId requestedSize).2.1
    parent := selectedId
    orientation := flipOrientation (getNode d.nodes selectedId).orientation
    rect := (guillotine (getNode d.nodes selectedId).rect requestedSize
      (getNode d.nodes selectedId).orientation).1
    kind := Kind.Leaf
    status := Status.Occupied }

/-- The node written for the leftover rectangle (lines 200-209). -/
def leftoverNode (d : AllocatorPrivate) (selectedId : AllocationId) (requestedSize : QSize) :
    AllocationNode :=
  { prevSibling := (allocateSplitIds d selectedId requestedSize).1
    nextSibling := AllocationId.null
    parent := selectedId
    orientation := flipOrientation (getNode d.nodes selectedId).orientation
    rect := (guillotine (getNode d.nodes selectedId).rect requestedSize
      (getNode d.nodes selectedId).orientation).2.1
    kind := Kind.Leaf
    status := Status.Free }

/-- The node written for the split rectangle (lines 215-224). -/
def splitNode (d : AllocatorPrivate) (selectedId : AllocationId) (requestedSize : QSize) :
    AllocationNode :=
  { prevSibling := selectedId
    nextSibling := (getNode d.nodes selectedId).nextSibling
    parent := (getNode d.nodes selectedId).parent
    orientation := (getNode d.nodes selectedId).orientation
    rect := (guillotine (getNode d.nodes selectedId).rect requestedSize
      (getNode d.nodes selectedId).orientation).2.2
    kind := Kind.Leaf
    status := Status.Free }

/-- The selected node after the split: a Fork, followed by the split node when
one is created (lines 183 and 225). -/
def forkedNode (d : AllocatorPrivate) (selectedId : AllocationId) (requestedSize : QSize) :
    AllocationNode :=
  { getNode d.nodes selectedId with
    kind := Kind.Fork
    nextSibling :=
      if (allocateSplitIds d selectedId requestedSize).2.2 ≠ AllocationId.null then
        (allocateSplitIds d selectedId requestedSize).2.2
      else (getNode d.nodes selectedId).nextSibling }

/-- One iteration of the forward-merge loop of `Allocator::deallocate` (lines
245-253): the store after the current node has absorbed its next sibling. -/
def mergeNextStep (nodes : List AllocationNode) (nodeId : AllocationId) : List AllocationNode :=
  let nextSibling := (getNode nodes nodeId).nextSibling
  let nodes1 := setNode nodes nodeId
    { getNode nodes nodeId with
      rect := (getNode nodes nodeId).rect.united (getNode nodes nextSibling).rect }
  let grandNextSibling := (getNode nodes1 nextSibling).nextSibling
  let nodes2 :=
    if grandNextSibling ≠ AllocationId.null then
      let nodes2a := setNode nodes1 grandNextSibling
        { getNode nodes1 grandNextSibling with prevSibling := nodeId }
      setNode nodes2a nodeId { getNode nodes2a nodeId with nextSibling := grandNextSibling }
    else nodes1
  releaseNode nodes2 nextSibling

/-- One iteration of the backward-merge loop of `Allocator::deallocate` (lines
265-273). -/
def mergePrevStep (nodes : List AllocationNode) (nodeId : AllocationId) : List AllocationNode :=
  let prevSibling := (getNode nodes nodeId).prevSibling
  let nodes1 := setNode nodes nodeId
    { getNode nodes nodeId with
      rect := (getNode nodes nodeId).rect.united (getNode nodes prevSibling).rect }
  let grandPrevSibling := (getNode nodes1 prevSibling).prevSibling
  let nodes2 :=
    if grandPrevSibling ≠ AllocationId.null then
      let nodes2a := setNode nodes1 grandPrevSibling
        { getNode nodes1 grandPrevSibling with nextSibling := nodeId }
      setNode nodes2a nodeId { getNode nodes2a nodeId with prevSibling := grandPrevSibling }
    else nodes1
  releaseNode nodes2 prevSibling

/-- The parent collapse of `Allocator::deallocate` (lines 285-290): the store
after the parent has taken over the rectangle of its only child. -/
def collapseStep (nodes : List AllocationNode) (nodeId : AllocationId) : List AllocationNode :=
  let parentId := (getNode nodes nodeId).parent
  let nodesC := setNode nodes parentId
    { getNode nodes parentId with rect := (getNode nodes nodeId).rect }
  let nodesD := setNode nodesC parentId { getNode nodesC parentId with kind := Kind.Leaf }
  let nodesE := setNode nodesD parentId { getNode nodesD parentId with status := Status.Free }
  releaseNode nodesE nodeId

/-- The forward-merge loop goes on: the next sibling exists and is a free leaf. -/
def canMergeNext (nodes : List AllocationNode) (nodeId : AllocationId) : Prop :=
  (getNode nodes nodeId).nextSibling ≠ AllocationId.null ∧
  (getNode nodes (getNode nodes nodeId).nextSibling).kind = Kind.Leaf ∧
  (getNode nodes (getNode nodes nodeId).nextSibling).status = Status.Free

instance (nodes : List AllocationNode) (nodeId : AllocationId) :
    Decidable (canMergeNext nodes nodeId) := by
  unfold canMergeNext; infer_instance

/-- The backward-merge loop goes on: the previous sibling exists and is a free
leaf. -/
def canMergePrev (nodes : List AllocationNode) (nodeId : AllocationId) : Prop :=
  (getNode nodes nodeId).prevSibling ≠ AllocationId.null ∧
  (getNode nodes (getNode nodes nodeId).prevSibling).kind = Kind.Leaf ∧
  (getNode nodes (getNode nodes nodeId).prevSibling).status = Status.Free

instance (nodes : List AllocationNode) (nodeId : AllocationId) :
    Decidable (canMergePrev nodes nodeId) := by
  unfold canMergePrev; infer_instance

/-- The outer loop of `Allocator::deallocate` stops (line 277): the node is a
root or still has a sibling link. -/
def stopsAt (nodes : List AllocationNode) (nodeId : AllocationId) : Prop :=
  (getNode nodes nodeId).parent = AllocationId.null ∨
  (getNode nodes nodeId).prevSibling ≠ AllocationId.null ∨
  (getNode nodes nodeId).nextSibling ≠ AllocationId.null

instance (nodes : List AllocationNode) (nodeId : AllocationId) :
    Decidable (stopsAt nodes nodeId) := by
  unfold stopsAt; infer_instance

/-- The node with another rectangle. -/
def AllocationNode.withRect (n : AllocationNode) (r : QRect) : AllocationNode :=
  { n with rect := r }

/-- The node with another previous sibling. -/
def AllocationNode.withPrev (n : AllocationNode) (p : AllocationId) : AllocationNode :=
  { n with prevSibling := p }

/-- The node with another next sibling. -/
def AllocationNode.withNext (n : AllocationNode) (p : AllocationId) : AllocationNode :=
  { n with nextSibling := p }

/-- The node with another kind. -/
def AllocationNode.withKind (n : AllocationNode) (k : Kind) : AllocationNode :=
  { n with kind := k }

/-- The node with another status. -/
def AllocationNode.withStatus (n : AllocationNode) (s : Status) : AllocationNode :=
  { n with status := s }

/-- The assignment `nodes[id].field = value`: read the slot, change it, write
it back. -/
def updNode (nodes : List AllocationNode) (id : AllocationId)
    (f : AllocationNode → AllocationNode) : List AllocationNode :=
  setNode nodes id (f (getNode nodes id))

/-- The rectangle has a width and a height of at least one and lies inside the
canvas `(0, 0, canvas.width, canvas.height)`. -/
def validRect (canvas : QSize) (r : QRect) : Prop :=
  1 ≤ r.width ∧ 1 ≤ r.height ∧ 0 ≤ r.x ∧ 0 ≤ r.y ∧
    r.x + r.width ≤ canvas.width ∧ r.y + r.height ≤ canvas.height

instance (canvas : QSize) (r : QRect) : Decidable (validRect canvas r) := by
  unfold validRect; infer_instance

/-- Every slot of the store holds a valid rectangle. -/
def rectsValid (canvas : QSize) (nodes : List AllocationNode) : Prop :=
  ∀ j : Int, InRange nodes j → validRect canvas (getNode nodes j).rect

/-- The number of slots whose status is `Free`. -/
def freeCount (nodes : List AllocationNode) : Nat :=
  nodes.countP (fun n => decide (n.status = Status.Free))

/-- Within one call of `deallocate` the store `l` has evolved from `l0`: the
slots are the same, no parent has changed, and a sibling link that was set is
still set. -/
def Evolves (l0 l : List AllocationNode) : Prop :=
  l.length = l0.length ∧
  ∀ j : Int, (getNode l j).parent = (getNode l0 j).parent ∧
    ((getNode l0 j).prevSibling ≠ AllocationId.null →
      (getNode l j).prevSibling ≠ AllocationId.null) ∧
    ((getNode l0 j).nextSibling ≠ AllocationId.null →
      (getNode l j).nextSibling ≠ AllocationId.null)

/-- Every free leaf is a root or has a sibling link: the outer loop of
`deallocate` would stop at it. -/
def freeLeavesStop (l : List AllocationNode) : Prop :=
  ∀ j : Int, (getNode l j).kind = Kind.Leaf → (getNode l j).status = Status.Free → stopsAt l j

/-- The function `rank` decreases along the parent links between slots at which
the outer loop of `deallocate` would not stop. -/
def rankDecreases (rank : Int → Nat) (l : List AllocationNode) : Prop :=
  ∀ j : Int, ¬ stopsAt l j → ¬ stopsAt l (getNode l j).parent →
    rank (getNode l j).parent < rank j

/-- An example of a reachable state: the 3x3 allocator after `allocate(1,1)`,
with the one live allocation. -/
def exampleClient : Client :=
  { d := (allocate (Allocator ⟨3, 3⟩) ⟨1, 1⟩).2
    live := [(allocate (Allocator ⟨3, 3⟩) ⟨1, 1⟩).1] }

/-- The root is kept: slot 0 is in use, has neither a parent nor a previous
sibling and spans the canvas, and no other slot is without parent and without
previous sibling. -/
def rootKept (size : QSize) (nodes : List AllocationNode) : Prop :=
  InRange nodes 0 ∧ (getNode nodes 0).status ≠ Status.Deleted ∧
  (getNode nodes 0).parent = AllocationId.null ∧
  (getNode nodes 0).prevSibling = AllocationId.null ∧
  (getNode nodes 0).rect = QRect.ofTopLeft 0 0 size ∧
  ∀ j : Int, InRange nodes j → (getNode nodes j).parent = AllocationId.null →
    (getNode nodes j).prevSibling = AllocationId.null → j = 0

/-- The slot `j` holds a leaf that is not Deleted and whose rectangle contains
the pixel `(px, py)`. -/
def leafCovers (nodes : List AllocationNode) (j : Int) (px py : Int) : Prop :=
  InRange nodes j ∧ (getNode nodes j).kind = Kind.Leaf ∧
  (getNode nodes j).status ≠ Status.Deleted ∧
  (getNode nodes j).rect.containsPoint px py = true

/-- The state of an allocator used for allocation only, with the allocations
`live` it has returned: no slot is Deleted, every rectangle is valid, every
pixel of the canvas lies in the rectangle of exactly one leaf, and the
occupied leaves are the returned allocations, each returned once. -/
def partitioned (d : AllocatorPrivate) (live : List Allocation) : Prop :=
  (∀ j : Int, InRange d.nodes j → (getNode d.nodes j).status ≠ Status.Deleted) ∧
  rectsValid d.size d.nodes ∧
  (∀ px py : Int, (QRect.ofTopLeft 0 0 d.size).containsPoint px py = true →
    ∃ j : Int, leafCovers d.nodes j px py) ∧
  (∀ (px py : Int) (i j : Int), leafCovers d.nodes i px py → leafCovers d.nodes j px py →
    i = j) ∧
  (∀ a ∈ live, InRange d.nodes a.id ∧ (getNode d.nodes a.id).kind = Kind.Leaf ∧
    (getNode d.nodes a.id).status = Status.Occupied ∧ (getNode d.nodes a.id).rect = a.rect) ∧
  (∀ j : Int, InRange d.nodes j → (getNode d.nodes j).kind = Kind.Leaf →
    (getNode d.nodes j).status = Status.Occupied → ∃ a ∈ live, a.id = j) ∧
  (live.map (fun a => a.id)).Nodup

/-- The sizes requested by `Window::reload` in the demo, on its 800x800
canvas. -/
def demoSizes : List QSize := [⟨100, 40⟩, ⟨60, 300⟩, ⟨250, 270⟩, ⟨300, 20⟩]

/-! ## Lemmas on the node store and on placement -/

/-- The loop of `selectFreeNode` either keeps the incoming candidate, when no
slot beats the incoming best score, or returns the first slot of minimal score. -/
theorem selectLoop_spec (size : QSize) (l : List AllocationNode) :
    ∀ (i bc bs : Int),
      (selectLoop size l i bc bs = bc ∧ ∀ n ∈ l, eligible size n → bs ≤ score size n) ∨
      (∃ (k : Nat) (n : AllocationNode), l[k]? = some n ∧
        selectLoop size l i bc bs = i + k ∧ eligible size n ∧ score size n < bs ∧
        (∀ (j : Nat) (m : AllocationNode), l[j]? = some m → eligible size m →
          score size n ≤ score size m) ∧
        (∀ (j : Nat) (m : AllocationNode), j < k → l[j]? = some m → eligible size m →
          score size n < score size m)) := by
  induction l with
  | nil => intro i bc bs; left; simp [selectLoop]
  | cons a rest ih =>
    intro i bc bs
    by_cases hel : eligible size a
    · by_cases hlt : score size a < bs
      · have hstep : selectLoop size (a :: rest) i bc bs =
            selectLoop size rest (i + 1) i (score size a) := by
          obtain ⟨h1, h2, h3, h4⟩ := hel
          have hx : ¬ (a.rect.size.width - size.width < 0) := by simp [QRect.size]; omega
          have hy : ¬ (a.rect.size.height - size.height < 0) := by simp [QRect.size]; omega
          simp only [selectLoop]
          rw [if_neg (by simp [h1, h2]), if_neg (by simp only [not_or]; exact ⟨hx, hy⟩)]
          rw [if_pos (by simpa [score, QRect.size] using hlt)]
          rfl
        rw [hstep]
        rcases ih (i + 1) i (score size a) with ⟨hr, hall⟩ | ⟨k, n, hk, hr, hn, hs, hmin, hfirst⟩
        · right
          refine ⟨0, a, by simp, by simp [hr], hel, hlt, ?_, ?_⟩
          · intro j m hj hm
            cases j with
            | zero => simp at hj; subst hj; exact le_refl _
            | succ j =>
              simp at hj
              exact hall m (List.getElem?_mem hj) hm
          · intro j m hj; omega
        · right
          refine ⟨k + 1, n, by simpa using hk, by rw [hr]; push_cast; ring, hn,
            lt_trans hs hlt, ?_, ?_⟩
          · intro j m hj hm
            cases j with
            | zero => simp at hj; subst hj; exact le_of_lt hs
            | succ j => simp at hj; exact hmin j m hj hm
          · intro j m hjk hj hm
            cases j with
            | zero => simp at hj; subst hj; exact hs
            | succ j => simp at hj; exact hfirst j m (by omega) hj hm
      · have hstep : selectLoop size (a :: rest) i bc bs =
            selectLoop size rest (i + 1) bc bs := by
          obtain ⟨h1, h2, h3, h4⟩ := hel
          have hx : ¬ (a.rect.size.width - size.width < 0) := by simp [QRect.size]; omega
          have hy : ¬ (a.rect.size.height - size.height < 0) := by simp [QRect.size]; omega
          simp only [selectLoop]
          rw [if_neg (by simp [h1, h2]), if_neg (by simp only [not_or]; exact ⟨hx, hy⟩)]
          rw [if_neg (by simpa [score, QRect.size] using hlt)]
        rw [hstep]
        rcases ih (i + 1) bc bs with ⟨hr, hall⟩ | ⟨k, n, hk, hr, hn, hs, hmin, hfirst⟩
        · left
          refine ⟨hr, ?_⟩
          intro n hn hel2
          rcases List.mem_cons.mp hn with h | h
          · subst h; exact not_lt.mp hlt
          · exact hall n h hel2
        · right
          refine ⟨k + 1, n, by simpa using hk, by rw [hr]; push_cast; ring, hn, hs, ?_, ?_⟩
          · intro j m hj hm
            cases j with
            | zero => simp at hj; subst hj; exact le_trans (le_of_lt hs) (not_lt.mp hlt)
            | succ j => simp at hj; exact hmin j m hj hm
          · intro j m hjk hj hm
            cases j with
            | zero => simp at hj; subst hj; exact lt_of_lt_of_le hs (not_lt.mp hlt)
            | succ j => simp at hj; exact hfirst j m (by omega) hj hm
    · have hstep : selectLoop size (a :: rest) i bc bs =
          selectLoop size rest (i + 1) bc bs := by
        simp only [selectLoop]
        by_cases hc : a.status ≠ Status.Free ∨ a.kind ≠ Kind.Leaf
        · rw [if_pos hc]
        · rw [if_neg hc]
          have hd : a.rect.size.width - size.width < 0 ∨ a.rect.size.height - size.height < 0 := by
            by_contra hcon
            apply hel
            simp only [not_or, not_not, ne_eq] at hc hcon
            simp only [QRect.size] at hcon
            exact ⟨hc.2, hc.1, by omega, by omega⟩
          rw [if_pos hd]
      rw [hstep]
      rcases ih (i + 1) bc bs with ⟨hr, hall⟩ | ⟨k, n, hk, hr, hn, hs, hmin, hfirst⟩
      · left
        refine ⟨hr, ?_⟩
        intro n hn hel2
        rcases List.mem_cons.mp hn with h | h
        · subst h; exact absurd hel2 hel
        · exact hall n h hel2
      · right
        refine ⟨k + 1, n, by simpa using hk, by rw [hr]; push_cast; ring, hn, hs, ?_, ?_⟩
        · intro j m hj hm
          cases j with
          | zero => simp at hj; subst hj; exact absurd hm hel
          | succ j => simp at hj; exact hmin j m hj hm
        · intro j m hjk hj hm
          cases j with
          | zero => simp at hj; subst hj; exact absurd hm hel
          | succ j => simp at hj; exact hfirst j m (by omega) hj hm

/-- Reading a slot that exists. -/
theorem getNode_natCast (nodes : List AllocationNode) (k : Nat) (n : AllocationNode)
    (h : nodes[k]? = some n) : getNode nodes (k : Int) = n := by
  have h0 : ¬ ((k : Int) < 0) := by omega
  unfold getNode
  rw [if_neg h0]
  simp [List.getD, h]

/-- Reading back a slot just written. -/
theorem getNode_setNode_self (nodes : List AllocationNode) (k : Nat) (v : AllocationNode)
    (h : k < nodes.length) : getNode (setNode nodes (k : Int) v) (k : Int) = v := by
  have h0 : ¬ ((k : Int) < 0) := by omega
  unfold getNode setNode
  rw [if_neg h0, if_neg h0]
  simp [List.getD, h]

/-- The handle returned by `allocateNode` is never null. -/
theorem allocateNode_id_nonneg (nodes : List AllocationNode) : 0 ≤ (allocateNode nodes).1 := by
  unfold allocateNode
  split <;> simp

/-- The allocated rectangle of `guillotine` is top-left aligned in both orientations. -/
theorem guillotine_allocatedRect (bounds : QRect) (size : QSize) (axis : Orientation) :
    (guillotine bounds size axis).1 = QRect.ofTopLeft bounds.x bounds.y size := by
  unfold guillotine
  split <;> rfl

/-- The split path hands back the first handle obtained from the node store. -/
theorem allocateSplit_id (d : AllocatorPrivate) (s : AllocationId) (size : QSize) :
    (allocateSplit d s size).1.id = (allocateNode d.nodes).1 := rfl

/-- The split path hands back the allocated rectangle of the cut. -/
theorem allocateSplit_rect (d : AllocatorPrivate) (s : AllocationId) (size : QSize) :
    (allocateSplit d s size).1.rect =
      QRect.ofTopLeft (getNode d.nodes s).rect.x (getNode d.nodes s).rect.y size := by
  show (guillotine _ _ _).1 = _
  rw [guillotine_allocatedRect]

/-- An empty request takes the first early return. -/
theorem allocate_of_isEmpty (d : AllocatorPrivate) (size : QSize) (h : size.isEmpty = true) :
    allocate d size = (default, d) := by
  unfold allocate
  rw [if_pos h]

/-- A request without a selected node takes an early return. -/
theorem allocate_of_select_null (d : AllocatorPrivate) (size : QSize)
    (h : selectFreeNode d size = AllocationId.null) : allocate d size = (default, d) := by
  unfold allocate
  split
  · rfl
  · simp only [h, if_true]

/-- A non-empty request with a selected node yields a non-null handle. -/
theorem allocate_id_ne_null (d : AllocatorPrivate) (size : QSize)
    (he : size.isEmpty = false) (h : selectFreeNode d size ≠ AllocationId.null) :
    (allocate d size).1.id ≠ AllocationId.null := by
  unfold allocate
  rw [if_neg (by simp [he])]
  simp only [if_neg h]
  split
  · exact h
  · rw [allocateSplit_id]
    have h0 : (0 : Int) ≤ (allocateNode d.nodes).1 := allocateNode_id_nonneg d.nodes
    intro hc
    rw [hc] at h0
    exact absurd h0 (by decide)

/-- A non-empty size has both dimensions at least one. -/
theorem isEmpty_false_iff (size : QSize) :
    size.isEmpty = false ↔ 1 ≤ size.width ∧ 1 ≤ size.height := by
  unfold QSize.isEmpty
  simp

/-- For a non-empty request every score stays below the initial best score. -/
theorem score_lt_intMax (d : AllocatorPrivate) (size : QSize) (hr : rectsInIntRange d)
    (he : size.isEmpty = false) (n : AllocationNode) (hn : n ∈ d.nodes) :
    score size n < intMax := by
  have h1 := (isEmpty_false_iff size).mp he
  have h2 := hr n hn
  unfold score
  have : min (n.rect.width - size.width) (n.rect.height - size.height) ≤
      n.rect.width - size.width := min_le_left _ _
  omega

/-- The result of `selectFreeNode`: null when no node is eligible, else the first
eligible slot of minimal score. -/
theorem selectFreeNode_spec (d : AllocatorPrivate) (size : QSize) (hr : rectsInIntRange d)
    (he : size.isEmpty = false) :
    (selectFreeNode d size = AllocationId.null ∧ ∀ n ∈ d.nodes, ¬ eligible size n) ∨
    (∃ (k : Nat) (n : AllocationNode), d.nodes[k]? = some n ∧
      selectFreeNode d size = (k : Int) ∧ eligible size n ∧
      (∀ (j : Nat) (m : AllocationNode), d.nodes[j]? = some m → eligible size m →
        score size n ≤ score size m) ∧
      (∀ (j : Nat) (m : AllocationNode), j < k → d.nodes[j]? = some m → eligible size m →
        score size n < score size m)) := by
  unfold selectFreeNode
  rcases selectLoop_spec size d.nodes 0 AllocationId.null intMax with
    ⟨hr1, hall⟩ | ⟨k, n, hk, hr1, hn, _, hmin, hfirst⟩
  · left
    refine ⟨hr1, ?_⟩
    intro n hn hel
    have h1 := hall n hn hel
    have h2 := score_lt_intMax d size hr he n hn
    omega
  · right
    exact ⟨k, n, hk, by rw [hr1]; simp, hn, hmin, hfirst⟩

/-- Writing a slot given by a natural number. -/
theorem setNode_natCast (nodes : List AllocationNode) (k : Nat) (v : AllocationNode) :
    setNode nodes (k : Int) v = nodes.set k v := by
  have h0 : ¬ ((k : Int) < 0) := by omega
  unfold setNode
  rw [if_neg h0]
  simp

/-- Reading back a slot just written, for `List.set`. -/
theorem getNode_set_self (nodes : List AllocationNode) (k : Nat) (v : AllocationNode)
    (h : k < nodes.length) : getNode (nodes.set k v) (k : Int) = v := by
  rw [← setNode_natCast]
  exact getNode_setNode_self nodes k v h

/-- Overwriting a slot with a node of the same predicate value keeps the count. -/
theorem countP_set_same (p : AllocationNode → Bool) (l : List AllocationNode) :
    ∀ (i : Nat) (old v : AllocationNode), l[i]? = some old → p v = p old →
      (l.set i v).countP p = l.countP p := by
  induction l with
  | nil => intro i old v h; simp at h
  | cons a rest ih =>
    intro i old v h hp
    cases i with
    | zero =>
      simp at h
      subst h
      simp [List.countP_cons, hp]
    | succ i =>
      simp at h
      simp [List.countP_cons, ih i old v h hp]

/-- An eligible node has a non-negative score. -/
theorem eligible_score_nonneg (size : QSize) (n : AllocationNode) (h : eligible size n) :
    0 ≤ score size n := by
  obtain ⟨_, _, h3, h4⟩ := h
  unfold score
  exact le_min (by omega) (by omega)

/-- The exact-fit path of `allocate`. -/
theorem allocate_exact (d : AllocatorPrivate) (size : QSize) (k : Nat) (n : AllocationNode)
    (he : size.isEmpty = false) (hk : d.nodes[k]? = some n)
    (hsel : selectFreeNode d size = (k : Int)) (hsz : n.rect.size = size) :
    allocate d size =
      ({ rect := n.rect, id := (k : Int) },
       { d with nodes := d.nodes.set k { n with status := Status.Occupied } }) := by
  have hlen : k < d.nodes.length := by
    rcases Nat.lt_or_ge k d.nodes.length with h | h
    · exact h
    · rw [List.getElem?_eq_none h] at hk; cases hk
  have hnn : ((k : Int) = AllocationId.null) = False := by
    apply eq_false
    intro hc
    have h0 : (0 : Int) ≤ (k : Int) := by omega
    rw [hc] at h0
    exact absurd h0 (by decide)
  unfold allocate
  rw [if_neg (by simp [he])]
  simp only [hsel, hnn, if_false, getNode_natCast d.nodes k n hk, hsz, if_true,
    setNode_natCast, getNode_set_self d.nodes k _ hlen]

/-- C4. For every allocator state whose rectangle sizes fit an `int` and every
requested size, `allocate` returns a null allocation (id = -1, `isNull()` true)
if and only if the request is empty (width <= 0 or height <= 0) or no node that
is a Leaf with status Free has rect width >= w and rect height >= h. -/
theorem allocate_null_iff (d : AllocatorPrivate) (size : QSize) (hr : rectsInIntRange d) :
    ((allocate d size).1.id = AllocationId.null ↔
      ((size.width ≤ 0 ∨ size.height ≤ 0) ∨
        ¬ ∃ n ∈ d.nodes, n.kind = Kind.Leaf ∧ n.status = Status.Free ∧
            size.width ≤ n.rect.width ∧ size.height ≤ n.rect.height)) ∧
    ((allocate d size).1.isNull = true ↔ (allocate d size).1.id = -1) := by
  refine ⟨?_, by simp [Allocation.isNull, AllocationId.null]⟩
  cases he : size.isEmpty with
  | true =>
    rw [allocate_of_isEmpty d size he]
    have h1 : size.width ≤ 0 ∨ size.height ≤ 0 := by
      unfold QSize.isEmpty at he
      simp at he
      omega
    exact ⟨fun _ => Or.inl h1, fun _ => rfl⟩
  | false =>
    have hpos := (isEmpty_false_iff size).mp he
    rcases selectFreeNode_spec d size hr he with ⟨hnull, hnone⟩ | ⟨k, n, hk, hsel, hn, _, _⟩
    · rw [allocate_of_select_null d size hnull]
      refine ⟨fun _ => Or.inr ?_, fun _ => rfl⟩
      rintro ⟨n, hn, hel⟩
      exact hnone n hn hel
    · have hne : selectFreeNode d size ≠ AllocationId.null := by
        rw [hsel]
        intro hc
        have h0 : (0 : Int) ≤ (k : Int) := by omega
        rw [hc] at h0
        exact absurd h0 (by decide)
      constructor
      · intro h
        exact absurd h (allocate_id_ne_null d size he hne)
      · rintro (h | h)
        · omega
        · exact absurd ⟨n, List.getElem?_mem hk, hn⟩ h

/-- C5. A failed `allocate` is atomic: whenever `allocate` returns a null
allocation, the state after the call (the whole node store, slot by slot, and
the canvas size) is the state before the call. -/
theorem allocate_null_atomic (d : AllocatorPrivate) (size : QSize)
    (h : (allocate d size).1.isNull = true) : (allocate d size).2 = d := by
  cases he : size.isEmpty with
  | true => rw [allocate_of_isEmpty d size he]
  | false =>
    by_cases hs : selectFreeNode d size = AllocationId.null
    · rw [allocate_of_select_null d size hs]
    · have := allocate_id_ne_null d size he hs
      simp [Allocation.isNull] at h
      exact absurd h this

/-- C8. Best fit with deterministic tie-break: for every node store whose
rectangle sizes fit an `int` and every non-empty request, if some node is
eligible then `selectFreeNode` returns the handle `k` of an eligible node of
minimum score, no eligible node of the same score has a smaller handle, and
`allocate` returns a non-null allocation whose rect has its top-left corner at
that node's top-left corner; if no node is eligible `selectFreeNode` returns
null. -/
theorem selectFreeNode_best_fit (d : AllocatorPrivate) (size : QSize)
    (hr : rectsInIntRange d) (he : size.isEmpty = false) :
    ((∃ n ∈ d.nodes, eligible size n) →
      ∃ (k : Nat) (n : AllocationNode), d.nodes[k]? = some n ∧
        selectFreeNode d size = (k : Int) ∧ eligible size n ∧
        (∀ (j : Nat) (m : AllocationNode), d.nodes[j]? = some m → eligible size m →
          score size n ≤ score size m) ∧
        (∀ (j : Nat) (m : AllocationNode), d.nodes[j]? = some m → eligible size m →
          score size m = score size n → k ≤ j) ∧
        (allocate d size).1.isNull = false ∧
        (allocate d size).1.rect.x = n.rect.x ∧ (allocate d size).1.rect.y = n.rect.y) ∧
    ((¬ ∃ n ∈ d.nodes, eligible size n) → selectFreeNode d size = AllocationId.null) := by
  rcases selectFreeNode_spec d size hr he with
    ⟨hnull, hnone⟩ | ⟨k, n, hk, hsel, hn, hmin, hfirst⟩
  · refine ⟨?_, fun _ => hnull⟩
    rintro ⟨n, hn, hel⟩
    exact absurd hel (hnone n hn)
  · refine ⟨fun _ => ⟨k, n, hk, hsel, hn, hmin, ?_, ?_, ?_⟩, ?_⟩
    · intro j m hj hm hs
      by_contra hc
      have := hfirst j m (by omega) hj hm
      omega
    · have hne : selectFreeNode d size ≠ AllocationId.null := by
        rw [hsel]
        intro hc
        have h0 : (0 : Int) ≤ (k : Int) := by omega
        rw [hc] at h0
        exact absurd h0 (by decide)
      have := allocate_id_ne_null d size he hne
      simp [Allocation.isNull, this]
    · by_cases hsz : n.rect.size = size
      · rw [allocate_exact d size k n he hk hsel hsz]
        exact ⟨rfl, rfl⟩
      · have hnn : ((k : Int) = AllocationId.null) = False := by
          apply eq_false
          intro hc
          have h0 : (0 : Int) ≤ (k : Int) := by omega
          rw [hc] at h0
          exact absurd h0 (by decide)
        unfold allocate
        rw [if_neg (by simp [he])]
        simp only [hsel, hnn, if_false, getNode_natCast d.nodes k n hk, if_neg hsz,
          allocateSplit_rect]
        exact ⟨rfl, rfl⟩
    · intro hc
      exact absurd ⟨n, List.getElem?_mem hk, hn⟩ hc

/-- C9 (as amended). For every state whose rectangle sizes fit an `int` and
every non-empty request that equals the rect size of a Free Leaf `i`, provided
every eligible node with a lower handle and score 0 also has exactly the
requested size, `allocate` creates no node: it returns a Free Leaf `s` of the
requested size, the store afterwards is the store before with the status of
`s` set to Occupied, and the number of slots and of non-Deleted slots is
unchanged. -/
theorem allocate_exact_fit_of_first (d : AllocatorPrivate) (size : QSize)
    (hr : rectsInIntRange d) (he : size.isEmpty = false)
    (i : Nat) (e : AllocationNode) (hi : d.nodes[i]? = some e)
    (hleaf : e.kind = Kind.Leaf) (hfree : e.status = Status.Free) (hsz : e.rect.size = size)
    (hlow : ∀ (j : Nat) (m : AllocationNode), j < i → d.nodes[j]? = some m →
      eligible size m → score size m = 0 → m.rect.size = size) :
    ∃ (s : Nat) (n : AllocationNode), d.nodes[s]? = some n ∧
      n.kind = Kind.Leaf ∧ n.status = Status.Free ∧ n.rect.size = size ∧
      (allocate d size).1 = { rect := n.rect, id := (s : Int) } ∧
      (allocate d size).2 =
        { d with nodes := d.nodes.set s { n with status := Status.Occupied } } ∧
      (allocate d size).2.nodes.length = d.nodes.length ∧
      nonDeletedCount (allocate d size).2.nodes = nonDeletedCount d.nodes := by
  have hw : e.rect.width = size.width := by rw [← hsz]; rfl
  have hh : e.rect.height = size.height := by rw [← hsz]; rfl
  have hel : eligible size e := ⟨hleaf, hfree, by omega, by omega⟩
  have hse : score size e = 0 := by unfold score; rw [hw, hh]; simp
  rcases selectFreeNode_spec d size hr he with
    ⟨_, hnone⟩ | ⟨k, n, hk, hsel, hn, hmin, hfirst⟩
  · exact absurd hel (hnone e (List.getElem?_mem hi))
  · have h0 : score size n = 0 := by
      have h1 := hmin i e hi hel
      have h2 := eligible_score_nonneg size n hn
      omega
    have hnsz : n.rect.size = size := by
      rcases Nat.lt_trichotomy k i with hlt | heq | hgt
      · exact hlow k n hlt hk hn h0
      · subst heq
        rw [hi] at hk
        cases hk
        exact hsz
      · have := hfirst i e hgt hi hel
        omega
    have hall := allocate_exact d size k n he hk hsel hnsz
    refine ⟨k, n, hk, hn.1, hn.2.1, hnsz, by rw [hall], by rw [hall], by rw [hall]; simp, ?_⟩
    rw [hall]
    unfold nonDeletedCount
    apply countP_set_same _ _ k n _ hk
    simp [hn.2.1]

/-! ## The theorems at concrete inputs -/

/-- C4 at the oversized request of the specification: (150,50) on a fresh
100x100 canvas returns the null allocation. -/
theorem allocate_null_iff_witness :
    rectsInIntRange (Allocator ⟨100, 100⟩) ∧
    (allocate (Allocator ⟨100, 100⟩) ⟨150, 50⟩).1.id = AllocationId.null :=
  ⟨by decide,
   (allocate_null_iff (Allocator ⟨100, 100⟩) ⟨150, 50⟩ (by decide)).1.mpr
     (Or.inr (by decide))⟩

/-- C5 at the oversized request of the specification: the fresh 100x100
allocator is unchanged by the failed request (150,50). -/
theorem allocate_null_atomic_witness :
    (allocate (Allocator ⟨100, 100⟩) ⟨150, 50⟩).1.isNull = true ∧
    (allocate (Allocator ⟨100, 100⟩) ⟨150, 50⟩).2 = Allocator ⟨100, 100⟩ :=
  ⟨by decide, allocate_null_atomic (Allocator ⟨100, 100⟩) ⟨150, 50⟩ (by decide)⟩

/-- C8 on a 20x20 canvas after allocate(5,13), for the request (10,4): the free
leaves 2 = (5,0,15,13) and 3 = (0,13,20,7) have the scores 5 and 3. -/
theorem selectFreeNode_best_fit_witness :
    rectsInIntRange (allocate (Allocator ⟨20, 20⟩) ⟨5, 13⟩).2 ∧
    QSize.isEmpty ⟨10, 4⟩ = false ∧
    (((∃ n ∈ (allocate (Allocator ⟨20, 20⟩) ⟨5, 13⟩).2.nodes, eligible ⟨10, 4⟩ n) →
      ∃ (k : Nat) (n : AllocationNode),
        (allocate (Allocator ⟨20, 20⟩) ⟨5, 13⟩).2.nodes[k]? = some n ∧
        selectFreeNode (allocate (Allocator ⟨20, 20⟩) ⟨5, 13⟩).2 ⟨10, 4⟩ = (k : Int) ∧
        eligible ⟨10, 4⟩ n ∧
        (∀ (j : Nat) (m : AllocationNode),
          (allocate (Allocator ⟨20, 20⟩) ⟨5, 13⟩).2.nodes[j]? = some m → eligible ⟨10, 4⟩ m →
          score ⟨10, 4⟩ n ≤ score ⟨10, 4⟩ m) ∧
        (∀ (j : Nat) (m : AllocationNode),
          (allocate (Allocator ⟨20, 20⟩) ⟨5, 13⟩).2.nodes[j]? = some m → eligible ⟨10, 4⟩ m →
          score ⟨10, 4⟩ m = score ⟨10, 4⟩ n → k ≤ j) ∧
        (allocate (allocate (Allocator ⟨20, 20⟩) ⟨5, 13⟩).2 ⟨10, 4⟩).1.isNull = false ∧
        (allocate (allocate (Allocator ⟨20, 20⟩) ⟨5, 13⟩).2 ⟨10, 4⟩).1.rect.x = n.rect.x ∧
        (allocate (allocate (Allocator ⟨20, 20⟩) ⟨5, 13⟩).2 ⟨10, 4⟩).1.rect.y = n.rect.y) ∧
     ((¬ ∃ n ∈ (allocate (Allocator ⟨20, 20⟩) ⟨5, 13⟩).2.nodes, eligible ⟨10, 4⟩ n) →
        selectFreeNode (allocate (Allocator ⟨20, 20⟩) ⟨5, 13⟩).2 ⟨10, 4⟩ =
          AllocationId.null)) :=
  ⟨by decide, by decide,
   selectFreeNode_best_fit (allocate (Allocator ⟨20, 20⟩) ⟨5, 13⟩).2 ⟨10, 4⟩
     (by decide) (by decide)⟩

/-- The instance of the specification: of two free leaves with scores 5 and 3
the one with score 3 is selected, and with equal scores (5 and 5 for the
request (10,2)) the lower handle is selected. -/
theorem selectFreeNode_scores_5_and_3 :
    score ⟨10, 4⟩ (getNode (allocate (Allocator ⟨20, 20⟩) ⟨5, 13⟩).2.nodes 2) = 5 ∧
    score ⟨10, 4⟩ (getNode (allocate (Allocator ⟨20, 20⟩) ⟨5, 13⟩).2.nodes 3) = 3 ∧
    selectFreeNode (allocate (Allocator ⟨20, 20⟩) ⟨5, 13⟩).2 ⟨10, 4⟩ = 3 ∧
    score ⟨10, 2⟩ (getNode (allocate (Allocator ⟨20, 20⟩) ⟨5, 13⟩).2.nodes 2) = 5 ∧
    score ⟨10, 2⟩ (getNode (allocate (Allocator ⟨20, 20⟩) ⟨5, 13⟩).2.nodes 3) = 5 ∧
    selectFreeNode (allocate (Allocator ⟨20, 20⟩) ⟨5, 13⟩).2 ⟨10, 2⟩ = 2 := by
  decide

/-- C9 (as amended) on a 3x3 canvas after allocate(1,2) and allocate(1,1), for
the request (2,2): node 2 is the Free leaf (1,0,2,2) and no eligible node has a
lower handle, so the call only flips node 2 to Occupied. -/
theorem allocate_exact_fit_of_first_witness :
    ∃ (s : Nat) (n : AllocationNode),
      (allocate (allocate (Allocator ⟨3, 3⟩) ⟨1, 2⟩).2 ⟨1, 1⟩).2.nodes[s]? = some n ∧
      n.kind = Kind.Leaf ∧ n.status = Status.Free ∧ n.rect.size = ⟨2, 2⟩ ∧
      (allocate (allocate (allocate (Allocator ⟨3, 3⟩) ⟨1, 2⟩).2 ⟨1, 1⟩).2 ⟨2, 2⟩).1 =
        { rect := n.rect, id := (s : Int) } ∧
      (allocate (allocate (allocate (Allocator ⟨3, 3⟩) ⟨1, 2⟩).2 ⟨1, 1⟩).2 ⟨2, 2⟩).2 =
        { (allocate (allocate (Allocator ⟨3, 3⟩) ⟨1, 2⟩).2 ⟨1, 1⟩).2 with
          nodes := (allocate (allocate (Allocator ⟨3, 3⟩) ⟨1, 2⟩).2 ⟨1, 1⟩).2.nodes.set s
            { n with status := Status.Occupied } } ∧
      (allocate (allocate (allocate (Allocator ⟨3, 3⟩) ⟨1, 2⟩).2 ⟨1, 1⟩).2 ⟨2, 2⟩).2.nodes.length =
        (allocate (allocate (Allocator ⟨3, 3⟩) ⟨1, 2⟩).2 ⟨1, 1⟩).2.nodes.length ∧
      nonDeletedCount
          (allocate (allocate (allocate (Allocator ⟨3, 3⟩) ⟨1, 2⟩).2 ⟨1, 1⟩).2 ⟨2, 2⟩).2.nodes =
        nonDeletedCount (allocate (allocate (Allocator ⟨3, 3⟩) ⟨1, 2⟩).2 ⟨1, 1⟩).2.nodes :=
  allocate_exact_fit_of_first (allocate (allocate (Allocator ⟨3, 3⟩) ⟨1, 2⟩).2 ⟨1, 1⟩).2 ⟨2, 2⟩
    (by decide) (by decide) 2
    ⟨1, -1, 0, Orientation.Vertical, ⟨1, 0, 2, 2⟩, Kind.Leaf, Status.Free⟩
    (by decide) rfl rfl rfl
    (by
      intro j m hj hm hel _
      have hcases : j = 0 ∨ j = 1 := by omega
      rcases hcases with h | h
      · subst h
        have h0 : (allocate (allocate (Allocator ⟨3, 3⟩) ⟨1, 2⟩).2 ⟨1, 1⟩).2.nodes[0]? =
            some ⟨-1, 3, -1, Orientation.Horizontal, ⟨0, 0, 3, 3⟩, Kind.Fork, Status.Free⟩ := by
          decide
        rw [h0] at hm
        cases hm
        exact absurd hel (by decide)
      · subst h
        have h1 : (allocate (allocate (Allocator ⟨3, 3⟩) ⟨1, 2⟩).2 ⟨1, 1⟩).2.nodes[1]? =
            some ⟨-1, 2, 0, Orientation.Vertical, ⟨0, 0, 1, 2⟩, Kind.Leaf, Status.Occupied⟩ := by
          decide
        rw [h1] at hm
        cases hm
        exact absurd hel (by decide))

/-! ## Behaviour of the code on concrete call sequences -/

/-- C1 (violated by the code). On a 3x3 canvas the valid sequence
allocate(1,1) = id 1, deallocate(1), allocate(1,2) = id 2, allocate(1,1) = id 4,
deallocate(4), allocate(3,3) = id 1 ends with two live allocations, (0,1,1,2)
for id 2 and (0,0,3,3) for id 1, and these two rectangles overlap. -/
theorem live_allocations_overlap :
    (Client.run 8 (Client.fresh ⟨3, 3⟩)
        [Op.allocate ⟨1, 1⟩, Op.deallocate 1, Op.allocate ⟨1, 2⟩, Op.allocate ⟨1, 1⟩,
          Op.deallocate 4, Op.allocate ⟨3, 3⟩]).map (fun c => c.live) =
      some [⟨⟨0, 1, 1, 2⟩, 2⟩, ⟨⟨0, 0, 3, 3⟩, 1⟩] ∧
    pairwiseDisjoint [⟨0, 1, 1, 2⟩, ⟨0, 0, 3, 3⟩] = false := by
  decide

/-- C2 (violated by the code). On a 3x3 canvas, after allocate(1,1) = id 1,
deallocate(1) and allocate(1,1) the leaves that are not Deleted have the
rectangles (1,0,2,1) and (0,1,3,2): the pixel (0,0) of the canvas, which lies in
the rectangle just handed out, is covered by no leaf. -/
theorem leaves_do_not_cover_canvas :
    (Client.run 8 (Client.fresh ⟨3, 3⟩)
        [Op.allocate ⟨1, 1⟩, Op.deallocate 1, Op.allocate ⟨1, 1⟩]).map
        (fun c => (leafRects c.d.nodes, c.live)) =
      some ([⟨1, 0, 2, 1⟩, ⟨0, 1, 3, 2⟩], [⟨⟨0, 0, 1, 1⟩, 2⟩]) ∧
    QRect.containsPoint (QRect.ofTopLeft 0 0 ⟨3, 3⟩) 0 0 = true ∧
    coversPoint [⟨1, 0, 2, 1⟩, ⟨0, 1, 3, 2⟩] 0 0 = false := by
  decide

/-- C3 (violated by the code). On a 3x3 canvas, after allocate(1,1) = id 1 and
deallocate(1), the call allocate(1,1) returns the non-null allocation with rect
(0,0,1,1) and id 2, but immediately after the call node 2 is a Free leaf with
rect (1,0,2,1): the slot was handed out a second time, for the split node. -/
theorem returned_handle_names_free_split_node :
    (Client.run 8 (Client.fresh ⟨3, 3⟩) [Op.allocate ⟨1, 1⟩, Op.deallocate 1]).map
        (fun c => ((allocate c.d ⟨1, 1⟩).1,
          getNode (allocate c.d ⟨1, 1⟩).2.nodes (allocate c.d ⟨1, 1⟩).1.id)) =
      some (⟨⟨0, 0, 1, 1⟩, 2⟩,
        { prevSibling := 1, nextSibling := 2, parent := 0,
          orientation := Orientation.Vertical, rect := ⟨1, 0, 2, 1⟩,
          kind := Kind.Leaf, status := Status.Free }) := by
  decide

/-- C6 (violated by the code). On a 3x3 canvas with s1 = s2 = (1,1) both
allocations succeed (ids 1 and 4), and after deallocate(4), deallocate(1) the
root is still a Fork; the free space is the two leaves (0,0,3,1) and (0,1,3,2),
and the first of them keeps a next-sibling link to the Deleted slot 5. -/
theorem round_trip_leaves_fork_root :
    roundTrip 8 ⟨3, 3⟩ ⟨1, 1⟩ ⟨1, 1⟩ =
      some (⟨⟨0, 0, 1, 1⟩, 1⟩, ⟨⟨1, 0, 1, 1⟩, 4⟩,
        { nodes :=
            [⟨-1, 3, -1, Orientation.Horizontal, ⟨0, 0, 3, 3⟩, Kind.Fork, Status.Free⟩,
             ⟨-1, 5, 0, Orientation.Vertical, ⟨0, 0, 3, 1⟩, Kind.Leaf, Status.Free⟩,
             ⟨1, 5, 0, Orientation.Vertical, ⟨1, 0, 2, 1⟩, Kind.Leaf, Status.Deleted⟩,
             ⟨0, -1, -1, Orientation.Horizontal, ⟨0, 1, 3, 2⟩, Kind.Leaf, Status.Free⟩,
             ⟨-1, -1, 2, Orientation.Horizontal, ⟨1, 0, 1, 1⟩, Kind.Leaf, Status.Deleted⟩,
             ⟨1, -1, 0, Orientation.Vertical, ⟨2, 0, 1, 1⟩, Kind.Leaf, Status.Deleted⟩]
          size := ⟨3, 3⟩ }) := by
  decide

/-- C7 (violated by the code). On a 3x3 canvas, after allocate(1,1) = id 1 and
deallocate(1) no allocation is live, yet the root is a Fork, the leaves that are
not Deleted are (0,0,3,1) and (0,1,3,2), and a following allocate(3,3) returns
the null allocation. -/
theorem no_live_allocation_yet_canvas_split :
    (Client.run 8 (Client.fresh ⟨3, 3⟩) [Op.allocate ⟨1, 1⟩, Op.deallocate 1]).map
        (fun c => (c.live, (getNode c.d.nodes 0).kind, leafRects c.d.nodes,
          (allocate c.d ⟨3, 3⟩).1.isNull)) =
      some ([], Kind.Fork, [⟨0, 0, 3, 1⟩, ⟨0, 1, 3, 2⟩], true) := by
  decide

/-- C9 (counterexample). On a 3x3 canvas, after allocate(1,2) and allocate(1,1)
node 5 is a Free leaf of rect (1,2,2,1), so the request (2,1) equals the size of
an existing Free leaf; but `selectFreeNode` picks node 2, the Free leaf (1,0,2,2)
with the same score 0 and a lower handle, and `allocate` splits it, returning
the new node 6: the store grows from 6 to 8 slots, none of them Deleted. -/
theorem exact_size_request_splits_other_leaf :
    (Client.run 8 (Client.fresh ⟨3, 3⟩) [Op.allocate ⟨1, 2⟩, Op.allocate ⟨1, 1⟩]).map
        (fun c => (getNode c.d.nodes 5, selectFreeNode c.d ⟨2, 1⟩,
          (allocate c.d ⟨2, 1⟩).1)) =
      some (⟨4, -1, 3, Orientation.Vertical, ⟨1, 2, 2, 1⟩, Kind.Leaf, Status.Free⟩, 2,
        ⟨⟨1, 0, 2, 1⟩, 6⟩) ∧
    (Client.run 8 (Client.fresh ⟨3, 3⟩) [Op.allocate ⟨1, 2⟩, Op.allocate ⟨1, 1⟩]).map
        (fun c => (nonDeletedCount c.d.nodes, c.d.nodes.length,
          nonDeletedCount (allocate c.d ⟨2, 1⟩).2.nodes,
          (allocate c.d ⟨2, 1⟩).2.nodes.length)) =
      some (6, 6, 8, 8) := by
  decide

/-- C10 (counterexample). On a fresh 100x100 allocator, after allocate(40,40)
the call allocate(60,100) returns the null allocation. -/
theorem scenario_second_allocate_is_null :
    (allocate (allocate (Allocator ⟨100, 100⟩) ⟨40, 40⟩).2 ⟨60, 100⟩).1.isNull = true := by
  decide

/-- C10 (as amended). On a fresh 100x100 allocator allocate(40,40) returns the
non-null allocation with rect (0,0,40,40) and id 1; the free leaves are then
(40,0,60,40) and (0,40,100,60), so allocate(60,100) issued immediately
afterwards returns the null allocation and leaves the state unchanged, whereas
allocate(60,40) returns the non-null rect (40,0,60,40), which does not overlap
the first. -/
theorem scenario_100x100 :
    (allocate (Allocator ⟨100, 100⟩) ⟨40, 40⟩).1 = ⟨⟨0, 0, 40, 40⟩, 1⟩ ∧
    (allocate (Allocator ⟨100, 100⟩) ⟨40, 40⟩).1.isNull = false ∧
    leafRects (allocate (Allocator ⟨100, 100⟩) ⟨40, 40⟩).2.nodes =
      [⟨0, 0, 40, 40⟩, ⟨40, 0, 60, 40⟩, ⟨0, 40, 100, 60⟩] ∧
    allocate (allocate (Allocator ⟨100, 100⟩) ⟨40, 40⟩).2 ⟨60, 100⟩ =
      (default, (allocate (Allocator ⟨100, 100⟩) ⟨40, 40⟩).2) ∧
    (allocate (allocate (Allocator ⟨100, 100⟩) ⟨40, 40⟩).2 ⟨60, 40⟩).1 =
      ⟨⟨40, 0, 60, 40⟩, 2⟩ ∧
    QRect.overlaps ⟨40, 0, 60, 40⟩ ⟨0, 0, 40, 40⟩ = false := by
  decide

/-! ## Exact fit, the guillotine cut, and the sibling links -/

/-- Reading a slot other than the one written. -/
theorem getNode_set_ne (nodes : List AllocationNode) (k : Nat) (v : AllocationNode)
    (j : AllocationId) (h : j ≠ (k : Int)) : getNode (nodes.set k v) j = getNode nodes j := by
  unfold getNode
  by_cases hj : j < 0
  · rw [if_pos hj, if_pos hj]
  · rw [if_neg hj, if_neg hj]
    have hne : k ≠ j.toNat := by
      intro hc
      apply h
      have h0 : (0 : Int) ≤ j := not_lt.mp hj
      rw [hc]
      exact (Int.toNat_of_nonneg h0).symm
    simp [List.getD, List.getElem?_set_ne hne]

/-- C11. Exact fit of the selected leaf: for every node store and every
non-empty request, if the node `s` chosen by `selectFreeNode` has a rect size
equal to the request, then `allocate` returns the allocation with the rect of
`s` and the id `s`, and the state after the call differs from the state before
only in the status of `s`, which is Occupied: the number of slots and the
canvas size are the same, and every other slot reads as before. -/
theorem allocate_exact_fit_selected (d : AllocatorPrivate) (size : QSize)
    (he : size.isEmpty = false)
    (hsz : (getNode d.nodes (selectFreeNode d size)).rect.size = size) :
    (allocate d size).1 =
      { rect := (getNode d.nodes (selectFreeNode d size)).rect, id := selectFreeNode d size } ∧
    getNode (allocate d size).2.nodes (selectFreeNode d size) =
      { getNode d.nodes (selectFreeNode d size) with status := Status.Occupied } ∧
    (allocate d size).2.nodes.length = d.nodes.length ∧
    (allocate d size).2.size = d.size ∧
    (∀ j : AllocationId, j ≠ selectFreeNode d size →
      getNode (allocate d size).2.nodes j = getNode d.nodes j) := by
  have hpos := (isEmpty_false_iff size).mp he
  rcases selectLoop_spec size d.nodes 0 AllocationId.null intMax with
    ⟨hnull, _⟩ | ⟨k, n, hk, hsel, _⟩
  · exfalso
    have h1 : selectFreeNode d size = AllocationId.null := hnull
    rw [h1] at hsz
    have h2 : size.width = 0 := by rw [← hsz]; rfl
    omega
  · have hsel1 : selectFreeNode d size = (k : Int) := by
      show selectLoop size d.nodes 0 AllocationId.null intMax = (k : Int)
      rw [hsel]; simp
    have hlen : k < d.nodes.length := by
      rcases Nat.lt_or_ge k d.nodes.length with h | h
      · exact h
      · rw [List.getElem?_eq_none h] at hk; cases hk
    rw [hsel1] at hsz ⊢
    rw [getNode_natCast d.nodes k n hk] at hsz ⊢
    rw [allocate_exact d size k n he hk hsel1 hsz]
    refine ⟨rfl, ?_, by simp, rfl, ?_⟩
    · exact getNode_set_self d.nodes k _ hlen
    · intro j hj
      exact getNode_set_ne d.nodes k _ j hj

/-- C11 on a 3x3 canvas after allocate(1,1): the request (2,1) selects node 2,
the free leaf (1,0,2,1), which fits exactly. -/
theorem allocate_exact_fit_selected_witness :
    (allocate (allocate (Allocator ⟨3, 3⟩) ⟨1, 1⟩).2 ⟨2, 1⟩).1 =
      { rect := (getNode (allocate (Allocator ⟨3, 3⟩) ⟨1, 1⟩).2.nodes
          (selectFreeNode (allocate (Allocator ⟨3, 3⟩) ⟨1, 1⟩).2 ⟨2, 1⟩)).rect,
        id := selectFreeNode (allocate (Allocator ⟨3, 3⟩) ⟨1, 1⟩).2 ⟨2, 1⟩ } ∧
    getNode (allocate (allocate (Allocator ⟨3, 3⟩) ⟨1, 1⟩).2 ⟨2, 1⟩).2.nodes
        (selectFreeNode (allocate (Allocator ⟨3, 3⟩) ⟨1, 1⟩).2 ⟨2, 1⟩) =
      { getNode (allocate (Allocator ⟨3, 3⟩) ⟨1, 1⟩).2.nodes
          (selectFreeNode (allocate (Allocator ⟨3, 3⟩) ⟨1, 1⟩).2 ⟨2, 1⟩) with
        status := Status.Occupied } ∧
    (allocate (allocate (Allocator ⟨3, 3⟩) ⟨1, 1⟩).2 ⟨2, 1⟩).2.nodes.length =
      (allocate (Allocator ⟨3, 3⟩) ⟨1, 1⟩).2.nodes.length ∧
    (allocate (allocate (Allocator ⟨3, 3⟩) ⟨1, 1⟩).2 ⟨2, 1⟩).2.size =
      (allocate (Allocator ⟨3, 3⟩) ⟨1, 1⟩).2.size ∧
    (∀ j : AllocationId, j ≠ selectFreeNode (allocate (Allocator ⟨3, 3⟩) ⟨1, 1⟩).2 ⟨2, 1⟩ →
      getNode (allocate (allocate (Allocator ⟨3, 3⟩) ⟨1, 1⟩).2 ⟨2, 1⟩).2.nodes j =
        getNode (allocate (Allocator ⟨3, 3⟩) ⟨1, 1⟩).2.nodes j) :=
  allocate_exact_fit_selected (allocate (Allocator ⟨3, 3⟩) ⟨1, 1⟩).2 ⟨2, 1⟩
    (by decide) (by decide)

/-- C17. The guillotine cut partitions the chosen rectangle: for every
rectangle `bounds`, every size with 1 <= w <= W and 1 <= h <= H and both
orientations, the allocated rectangle is (x,y,w,h), the three rectangles lie
inside `bounds`, no two of them overlap, their areas sum to W*H, and every
point of `bounds` lies in exactly one of them. -/
theorem guillotine_partition (bounds : QRect) (size : QSize) (axis : Orientation)
    (hw1 : 1 ≤ size.width) (hw2 : size.width ≤ bounds.width)
    (hh1 : 1 ≤ size.height) (hh2 : size.height ≤ bounds.height) :
    (guillotine bounds size axis).1 = ⟨bounds.x, bounds.y, size.width, size.height⟩ ∧
    (guillotine bounds size axis).1.within bounds ∧
    (guillotine bounds size axis).2.1.within bounds ∧
    (guillotine bounds size axis).2.2.within bounds ∧
    (guillotine bounds size axis).1.overlaps (guillotine bounds size axis).2.1 = false ∧
    (guillotine bounds size axis).1.overlaps (guillotine bounds size axis).2.2 = false ∧
    (guillotine bounds size axis).2.1.overlaps (guillotine bounds size axis).2.2 = false ∧
    (guillotine bounds size axis).1.area + (guillotine bounds size axis).2.1.area +
      (guillotine bounds size axis).2.2.area = bounds.width * bounds.height ∧
    (∀ px py : Int, bounds.containsPoint px py = true →
      ((guillotine bounds size axis).1.containsPoint px py = true ∧
        (guillotine bounds size axis).2.1.containsPoint px py = false ∧
        (guillotine bounds size axis).2.2.containsPoint px py = false) ∨
      ((guillotine bounds size axis).1.containsPoint px py = false ∧
        (guillotine bounds size axis).2.1.containsPoint px py = true ∧
        (guillotine bounds size axis).2.2.containsPoint px py = false) ∨
      ((guillotine bounds size axis).1.containsPoint px py = false ∧
        (guillotine bounds size axis).2.1.containsPoint px py = false ∧
        (guillotine bounds size axis).2.2.containsPoint px py = true)) := by
  cases axis
  · refine ⟨rfl, ?_, ?_, ?_, ?_, ?_, ?_, ?_, ?_⟩
    · simp [guillotine, QRect.within, QRect.ofTopLeft]; omega
    · simp [guillotine, QRect.within]; omega
    · simp [guillotine, QRect.within]; omega
    · simp [guillotine, QRect.overlaps, QRect.ofTopLeft]
    · simp [guillotine, QRect.overlaps, QRect.ofTopLeft]
    · simp [guillotine, QRect.overlaps]
    · simp [guillotine, QRect.area, QRect.ofTopLeft]; ring
    · intro px py hp
      simp only [QRect.containsPoint, Bool.and_eq_true, decide_eq_true_eq] at hp
      simp only [guillotine, QRect.containsPoint, QRect.ofTopLeft, Bool.and_eq_true,
        decide_eq_true_eq, Bool.and_eq_false_iff, decide_eq_false_iff_not, if_false,
        reduceCtorEq]
      omega
  · refine ⟨rfl, ?_, ?_, ?_, ?_, ?_, ?_, ?_, ?_⟩
    · simp [guillotine, QRect.within, QRect.ofTopLeft]; omega
    · simp [guillotine, QRect.within]; omega
    · simp [guillotine, QRect.within]; omega
    · simp [guillotine, QRect.overlaps, QRect.ofTopLeft]
    · simp [guillotine, QRect.overlaps, QRect.ofTopLeft]
    · simp [guillotine, QRect.overlaps]
    · simp [guillotine, QRect.area, QRect.ofTopLeft]; ring
    · intro px py hp
      simp only [QRect.containsPoint, Bool.and_eq_true, decide_eq_true_eq] at hp
      simp only [guillotine, QRect.containsPoint, QRect.ofTopLeft, Bool.and_eq_true,
        decide_eq_true_eq, Bool.and_eq_false_iff, decide_eq_false_iff_not, if_true]
      omega

/-- C17 on the root of a 100x100 canvas, for the size (40,40) and a
horizontal cut. -/
theorem guillotine_partition_witness :
    (guillotine ⟨0, 0, 100, 100⟩ ⟨40, 40⟩ Orientation.Horizontal).1 = ⟨0, 0, 40, 40⟩ ∧
    (guillotine ⟨0, 0, 100, 100⟩ ⟨40, 40⟩ Orientation.Horizontal).2.1 = ⟨40, 0, 60, 40⟩ ∧
    (guillotine ⟨0, 0, 100, 100⟩ ⟨40, 40⟩ Orientation.Horizontal).2.2 = ⟨0, 40, 100, 60⟩ ∧
    (guillotine ⟨0, 0, 100, 100⟩ ⟨40, 40⟩ Orientation.Horizontal).1.area +
      (guillotine ⟨0, 0, 100, 100⟩ ⟨40, 40⟩ Orientation.Horizontal).2.1.area +
      (guillotine ⟨0, 0, 100, 100⟩ ⟨40, 40⟩ Orientation.Horizontal).2.2.area = 100 * 100 :=
  ⟨by decide, by decide, by decide,
   (guillotine_partition ⟨0, 0, 100, 100⟩ ⟨40, 40⟩ Orientation.Horizontal
     (by decide) (by decide) (by decide) (by decide)).2.2.2.2.2.2.2.1⟩

/-- C12 (counterexample). On a 3x3 canvas, after the single call allocate(1,1)
the nodes 0 (the root, now a Fork) and 3 (the split strip (0,1,3,2)) are both
not Deleted and both have parent = null; and after allocate(3,1) = id 1,
allocate(3,2) = id 2, deallocate(1) the root is a Free leaf whose rect is
(0,0,3,1), not the canvas. -/
theorem two_nodes_without_parent :
    (Client.run 8 (Client.fresh ⟨3, 3⟩) [Op.allocate ⟨1, 1⟩]).map
        (fun c => (getNode c.d.nodes 0, getNode c.d.nodes 3)) =
      some (⟨-1, 3, -1, Orientation.Horizontal, ⟨0, 0, 3, 3⟩, Kind.Fork, Status.Free⟩,
        ⟨0, -1, -1, Orientation.Horizontal, ⟨0, 1, 3, 2⟩, Kind.Leaf, Status.Free⟩) ∧
    (Client.run 8 (Client.fresh ⟨3, 3⟩)
        [Op.allocate ⟨3, 1⟩, Op.allocate ⟨3, 2⟩, Op.deallocate 1]).map
        (fun c => c.d.nodes) =
      some [⟨-1, 2, -1, Orientation.Horizontal, ⟨0, 0, 3, 1⟩, Kind.Leaf, Status.Free⟩,
        ⟨-1, -1, 0, Orientation.Vertical, ⟨0, 0, 3, 1⟩, Kind.Leaf, Status.Deleted⟩,
        ⟨0, -1, -1, Orientation.Horizontal, ⟨0, 1, 3, 2⟩, Kind.Leaf, Status.Occupied⟩] := by
  decide

/-- C13 (violated by the code). On a 4x4 canvas, after allocate(2,2) = id 1,
allocate(2,2) = id 2 and deallocate(1), node 1 is a Free leaf whose next sibling
is node 2.  The call allocate(1,1) splits node 1 and splices the split node 6
in after it: afterwards nodes[6].nextSibling = 2, but nodes[2].prevSibling is
still 1, not 6. -/
theorem spliced_split_node_not_linked_back :
    (Client.run 8 (Client.fresh ⟨4, 4⟩)
        [Op.allocate ⟨2, 2⟩, Op.allocate ⟨2, 2⟩, Op.deallocate 1]).map
        (fun c => (selectFreeNode c.d ⟨1, 1⟩, (getNode c.d.nodes 1).nextSibling,
          (getNode c.d.nodes 2).prevSibling)) = some (1, 2, 1) ∧
    (Client.run 8 (Client.fresh ⟨4, 4⟩)
        [Op.allocate ⟨2, 2⟩, Op.allocate ⟨2, 2⟩, Op.deallocate 1, Op.allocate ⟨1, 1⟩]).map
        (fun c => ((getNode c.d.nodes 1).nextSibling, getNode c.d.nodes 6,
          getNode c.d.nodes 2)) =
      some (6,
        ⟨1, 2, 0, Orientation.Vertical, ⟨1, 0, 1, 2⟩, Kind.Leaf, Status.Free⟩,
        ⟨1, -1, 0, Orientation.Vertical, ⟨2, 0, 2, 2⟩, Kind.Leaf, Status.Occupied⟩) := by
  decide

/-- C14 (violated by the code). On a 3x3 canvas, after allocate(1,1) = id 1 the
leftover node 2 is the last sibling (its nextSibling is null); deallocate(1)
merges node 1 with node 2 and releases node 2, but afterwards node 1, a Free
leaf, still has nextSibling = 2, a slot whose status is Deleted. -/
theorem merged_node_links_deleted_sibling :
    (Client.run 8 (Client.fresh ⟨3, 3⟩) [Op.allocate ⟨1, 1⟩]).map
        (fun c => (getNode c.d.nodes 1, getNode c.d.nodes 2)) =
      some (⟨-1, 2, 0, Orientation.Vertical, ⟨0, 0, 1, 1⟩, Kind.Leaf, Status.Occupied⟩,
        ⟨1, -1, 0, Orientation.Vertical, ⟨1, 0, 2, 1⟩, Kind.Leaf, Status.Free⟩) ∧
    (Client.run 8 (Client.fresh ⟨3, 3⟩) [Op.allocate ⟨1, 1⟩, Op.deallocate 1]).map
        (fun c => (getNode c.d.nodes 1, getNode c.d.nodes 2)) =
      some (⟨-1, 2, 0, Orientation.Vertical, ⟨0, 0, 3, 1⟩, Kind.Leaf, Status.Free⟩,
        ⟨1, -1, 0, Orientation.Vertical, ⟨1, 0, 2, 1⟩, Kind.Leaf, Status.Deleted⟩) := by
  decide

/-- C15 (violated by the code). On a 3x3 canvas, after allocate(1,1) = id 1 and
deallocate(1) slot 2 is Deleted; the call allocate(1,1) selects node 1, which is
not an exact fit, and obtains the handle 2 for the allocated node and the same
handle 2 for the split node (no leftover node is created). -/
theorem split_reuses_one_slot_twice :
    (Client.run 8 (Client.fresh ⟨3, 3⟩) [Op.allocate ⟨1, 1⟩, Op.deallocate 1]).map
        (fun c => (selectFreeNode c.d ⟨1, 1⟩, (getNode c.d.nodes 1).rect,
          (getNode c.d.nodes 2).status,
          allocateSplitIds c.d (selectFreeNode c.d ⟨1, 1⟩) ⟨1, 1⟩)) =
      some (1, ⟨0, 0, 3, 1⟩, Status.Deleted, (2, -1, 2)) := by
  decide

/-- C16 (violated by the code). On a 2x2 canvas, after allocate(2,1) and deallocate(1) the
call allocate(1,1) splits the root (0,0,2,2); the leftover rectangle (1,0,1,1)
and the split rectangle (0,1,2,1) are both non-empty, but the three handles
obtained from the node store are (1,1,1), so the leftover node is overwritten
by the split node: after the call the returned allocation names slot 1, slot 1
holds the split node, and the only leaf that is not Deleted is (0,1,2,1).  No
leftover node exists although the leftover rectangle is non-empty. -/
theorem nonempty_leftover_not_created :
    (Client.run 8 (Client.fresh ⟨2, 2⟩) [Op.allocate ⟨2, 1⟩, Op.deallocate 1]).map
        (fun c => (selectFreeNode c.d ⟨1, 1⟩,
          (guillotine (getNode c.d.nodes 0).rect ⟨1, 1⟩ (getNode c.d.nodes 0).orientation).2.1,
          (guillotine (getNode c.d.nodes 0).rect ⟨1, 1⟩
            (getNode c.d.nodes 0).orientation).2.1.isEmpty,
          allocateSplitIds c.d 0 ⟨1, 1⟩)) =
      some (0, ⟨1, 0, 1, 1⟩, false, (1, 1, 1)) ∧
    (Client.run 8 (Client.fresh ⟨2, 2⟩)
        [Op.allocate ⟨2, 1⟩, Op.deallocate 1, Op.allocate ⟨1, 1⟩]).map
        (fun c => (c.live, c.d.nodes, leafRects c.d.nodes)) =
      some ([⟨⟨0, 0, 1, 1⟩, 1⟩],
        [⟨-1, 1, -1, Orientation.Horizontal, ⟨0, 0, 2, 2⟩, Kind.Fork, Status.Free⟩,
         ⟨0, 2, -1, Orientation.Horizontal, ⟨0, 1, 2, 1⟩, Kind.Leaf, Status.Free⟩,
         ⟨0, -1, -1, Orientation.Horizontal, ⟨0, 1, 2, 1⟩, Kind.Leaf, Status.Deleted⟩],
        [⟨0, 1, 2, 1⟩]) := by
  constructor <;> decide

/-! ## Reading and writing slots -/

/-- Validity of a handle as two integer inequalities. -/
theorem inRange_iff (l : List AllocationNode) (j : Int) :
    InRange l j ↔ (0 : Int) ≤ j ∧ j < (l.length : Int) := by
  unfold InRange
  constructor
  · rintro ⟨h0, h1⟩
    have h0i : (0 : Int) ≤ j := h0
    exact ⟨h0i, by omega⟩
  · rintro ⟨h0, h1⟩
    exact ⟨h0, by omega⟩

/-- A natural number below the length is a valid handle. -/
theorem inRange_natCast (l : List AllocationNode) (k : Nat) (h : k < l.length) :
    InRange l (k : Int) := by
  rw [inRange_iff]
  omega

/-- A handle outside the store reads as the default node. -/
theorem getNode_of_not_inRange (l : List AllocationNode) (j : Int)
    (h : ¬ InRange l j) : getNode l j = default := by
  unfold getNode
  by_cases hj : j < 0
  · rw [if_pos hj]
  · rw [if_neg hj]
    have h0 : (0 : Int) ≤ j := not_lt.mp hj
    have h1 : l.length ≤ j.toNat := by
      by_contra hc
      exact h ⟨h0, by omega⟩
    simp [List.getD, List.getElem?_eq_none h1]

/-- Writing a slot keeps the number of slots. -/
theorem length_setNode (l : List AllocationNode) (id : Int) (v : AllocationNode) :
    (setNode l id v).length = l.length := by
  unfold setNode
  split <;> simp

/-- Writing a slot keeps the set of valid handles. -/
theorem inRange_setNode (l : List AllocationNode) (id : Int) (v : AllocationNode)
    (j : Int) : InRange (setNode l id v) j ↔ InRange l j := by
  unfold InRange
  rw [length_setNode]

/-- Reading after a write: the written value at the written slot, when that
slot exists, and the old content elsewhere. -/
theorem getNode_setNode (l : List AllocationNode) (id : Int) (v : AllocationNode)
    (j : Int) :
    getNode (setNode l id v) j = if j = id ∧ InRange l id then v else getNode l j := by
  by_cases hr : InRange l id
  · obtain ⟨h0, h1⟩ := hr
    have hid : id = ((id.toNat : Nat) : Int) := (Int.toNat_of_nonneg h0).symm
    by_cases hj : j = id
    · subst hj
      rw [if_pos ⟨rfl, h0, h1⟩, hid]
      exact getNode_setNode_self l j.toNat v h1
    · rw [if_neg (fun hc => hj hc.1), hid, setNode_natCast]
      apply getNode_set_ne
      rw [← hid]
      exact hj
  · rw [if_neg (fun hc => hr hc.2)]
    have hsame : setNode l id v = l := by
      unfold setNode
      by_cases hneg : id < 0
      · rw [if_pos hneg]
      · rw [if_neg hneg]
        have h0 : (0 : Int) ≤ id := not_lt.mp hneg
        apply List.set_eq_of_length_le
        by_contra hc
        exact hr ⟨h0, by omega⟩
    rw [hsame]

/-- A slot of the store is a member of the list. -/
theorem getNode_mem (l : List AllocationNode) (j : Int) (h : InRange l j) :
    getNode l j ∈ l := by
  obtain ⟨h0, h1⟩ := h
  have hj : ¬ (j < 0) := not_lt.mpr h0
  unfold getNode
  rw [if_neg hj]
  simp only [List.getD_eq_getElem?_getD, List.getElem?_eq_getElem h1, Option.getD_some]
  exact List.getElem_mem h1

/-- A member of the list is the content of some slot. -/
theorem exists_inRange_of_mem (l : List AllocationNode) (n : AllocationNode) (h : n ∈ l) :
    ∃ j : Int, InRange l j ∧ getNode l j = n := by
  obtain ⟨k, hk⟩ := List.getElem?_of_mem h
  have hlen : k < l.length := by
    rcases Nat.lt_or_ge k l.length with h1 | h1
    · exact h1
    · rw [List.getElem?_eq_none h1] at hk; cases hk
  exact ⟨(k : Int), inRange_natCast l k hlen, getNode_natCast l k n hk⟩

/-- Appending a default slot does not change what any handle reads. -/
theorem getNode_append_default (l : List AllocationNode) (j : Int) :
    getNode (l ++ [default]) j = getNode l j := by
  unfold getNode
  by_cases hj : j < 0
  · rw [if_pos hj, if_pos hj]
  · rw [if_neg hj, if_neg hj]
    simp only [List.getD_eq_getElem?_getD]
    rcases Nat.lt_trichotomy j.toNat l.length with h | h | h
    · rw [List.getElem?_append_left h]
    · rw [List.getElem?_append_right (le_of_eq h.symm), List.getElem?_eq_none (le_of_eq h.symm)]
      simp [h]
    · rw [List.getElem?_eq_none (by simp only [List.length_append, List.length_singleton]; omega),
        List.getElem?_eq_none (le_of_lt h)]

/-- The valid handles after appending one slot. -/
theorem inRange_append_one (l : List AllocationNode) (x : AllocationNode) (j : Int) :
    InRange (l ++ [x]) j ↔ InRange l j ∨ j = (l.length : Int) := by
  rw [inRange_iff, inRange_iff]
  simp only [List.length_append, List.length_singleton]
  omega

/-- The outcome of `allocateNode`: the handle is not null, every handle reads
as before, the valid handles are the old ones and the new handle, and the new
handle, if it was valid before, named a Deleted slot. -/
theorem allocateNode_spec (l : List AllocationNode) :
    (0 : Int) ≤ (allocateNode l).1 ∧
    (∀ j : Int, getNode (allocateNode l).2 j = getNode l j) ∧
    (∀ j : Int, InRange (allocateNode l).2 j ↔ InRange l j ∨ j = (allocateNode l).1) ∧
    (InRange l (allocateNode l).1 → (getNode l (allocateNode l).1).status = Status.Deleted) ∧
    ((∀ j : Int, InRange l j → (getNode l j).status ≠ Status.Deleted) →
      allocateNode l = ((l.length : Int), l ++ [default])) := by
  unfold allocateNode
  cases hf : l.findIdx? (fun n => decide (n.status = Status.Deleted)) with
  | some i =>
    obtain ⟨hlt, hp, _⟩ := List.findIdx?_eq_some_iff_getElem.mp hf
    have hin : InRange l (i : Int) := inRange_natCast l i hlt
    have hget : getNode l (i : Int) = l[i] :=
      getNode_natCast l i l[i] (List.getElem?_eq_getElem hlt)
    have hdel : (getNode l (i : Int)).status = Status.Deleted := by
      rw [hget]
      simpa using hp
    refine ⟨by simp, fun j => rfl, ?_, fun _ => hdel, ?_⟩
    · intro j
      constructor
      · intro h; exact Or.inl h
      · rintro (h | h)
        · exact h
        · simp only at h; rw [h]; exact hin
    · intro hno
      exact absurd hdel (hno _ hin)
  | none =>
    have hnone := List.findIdx?_eq_none_iff.mp hf
    refine ⟨by simp, fun j => getNode_append_default l j, ?_, ?_, fun _ => rfl⟩
    · intro j
      exact inRange_append_one l default j
    · intro hin
      exfalso
      change InRange l (l.length : Int) at hin
      rw [inRange_iff] at hin
      omega

/-! ## The split path of `allocate`, slot by slot -/

/-- A handle that is not negative is not the null handle. -/
theorem ne_null_of_nonneg (x : Int) (h : (0 : Int) ≤ x) : x ≠ AllocationId.null := by
  intro hc
  rw [hc] at h
  exact absurd h (by decide)

/-- An optional call of `allocateNode`, as made for the leftover and the split
node. -/
theorem optional_allocateNode_spec (b : Bool) (l : List AllocationNode)
    (r : AllocationId × List AllocationNode)
    (hr : r = if b = true then allocateNode l else (AllocationId.null, l)) :
    (r.1 ≠ AllocationId.null ↔ b = true) ∧
    (∀ j : Int, getNode r.2 j = getNode l j) ∧
    (∀ j : Int, InRange r.2 j ↔ InRange l j ∨ (r.1 ≠ AllocationId.null ∧ j = r.1)) ∧
    (r.1 ≠ AllocationId.null → InRange l r.1 → (getNode l r.1).status = Status.Deleted) := by
  obtain ⟨a0, a1, a2, a3, _⟩ := allocateNode_spec l
  cases b with
  | true =>
    rw [if_pos rfl] at hr
    subst hr
    have hne := ne_null_of_nonneg _ a0
    refine ⟨⟨fun _ => rfl, fun _ => hne⟩, a1, ?_, fun _ => a3⟩
    intro j
    rw [a2]
    constructor
    · rintro (h | h)
      · exact Or.inl h
      · exact Or.inr ⟨hne, h⟩
    · rintro (h | ⟨_, h⟩)
      · exact Or.inl h
      · exact Or.inr h
  | false =>
    rw [if_neg (by decide)] at hr
    subst hr
    refine ⟨⟨fun h => absurd rfl h, fun h => by cases h⟩, fun _ => rfl, ?_, fun h => absurd rfl h⟩
    intro j
    constructor
    · intro h; exact Or.inl h
    · rintro (h | ⟨h, _⟩)
      · exact h
      · exact absurd rfl h

/-- The three calls of `allocateNode` on the split path. -/
theorem allocateNode_three (l : List AllocationNode) (b1 b2 : Bool)
    (r1 r2 r3 : AllocationId × List AllocationNode)
    (h1 : r1 = allocateNode l)
    (h2 : r2 = if b1 = true then allocateNode r1.2 else (AllocationId.null, r1.2))
    (h3 : r3 = if b2 = true then allocateNode r2.2 else (AllocationId.null, r2.2)) :
    (0 : Int) ≤ r1.1 ∧
    (r2.1 ≠ AllocationId.null ↔ b1 = true) ∧
    (r3.1 ≠ AllocationId.null ↔ b2 = true) ∧
    (InRange l r1.1 → (getNode l r1.1).status = Status.Deleted) ∧
    (r2.1 ≠ AllocationId.null → InRange l r2.1 → (getNode l r2.1).status = Status.Deleted) ∧
    (r3.1 ≠ AllocationId.null → InRange l r3.1 → (getNode l r3.1).status = Status.Deleted) ∧
    (∀ j : Int, getNode r3.2 j = getNode l j) ∧
    (∀ j : Int, InRange r3.2 j ↔
      InRange l j ∨ j = r1.1 ∨ (r2.1 ≠ AllocationId.null ∧ j = r2.1) ∨
      (r3.1 ≠ AllocationId.null ∧ j = r3.1)) := by
  obtain ⟨a0, a1, a2, a3, _⟩ := allocateNode_spec l
  rw [← h1] at a0 a1 a2 a3
  obtain ⟨b0, b1', b2', b3⟩ := optional_allocateNode_spec b1 r1.2 r2 h2
  obtain ⟨c0, c1, c2, c3⟩ := optional_allocateNode_spec b2 r2.2 r3 h3
  refine ⟨a0, b0, c0, a3, ?_, ?_, ?_, ?_⟩
  · intro hne hin
    have := b3 hne ((a2 _).mpr (Or.inl hin))
    rw [a1] at this
    exact this
  · intro hne hin
    have := c3 hne ((b2' _).mpr (Or.inl ((a2 _).mpr (Or.inl hin))))
    rw [b1', a1] at this
    exact this
  · intro j
    rw [c1, b1', a1]
  · intro j
    rw [c2, b2', a2]
    constructor
    · rintro (((h | h) | h) | h)
      · exact Or.inl h
      · exact Or.inr (Or.inl h)
      · exact Or.inr (Or.inr (Or.inl h))
      · exact Or.inr (Or.inr (Or.inr h))
    · rintro (h | h | h | h)
      · exact Or.inl (Or.inl (Or.inl h))
      · exact Or.inl (Or.inl (Or.inr h))
      · exact Or.inl (Or.inr h)
      · exact Or.inr h

/-- The handles and the store after the three calls of `allocateNode`. -/
theorem allocateSplitIds_spec (d : AllocatorPrivate) (k : Int) (size : QSize) :
    (0 : Int) ≤ (allocateSplitIds d k size).1 ∧
    ((allocateSplitIds d k size).2.1 ≠ AllocationId.null ↔
      (guillotine (getNode d.nodes k).rect size (getNode d.nodes k).orientation).2.1.isEmpty
        = false) ∧
    ((allocateSplitIds d k size).2.2 ≠ AllocationId.null ↔
      (guillotine (getNode d.nodes k).rect size (getNode d.nodes k).orientation).2.2.isEmpty
        = false) ∧
    (InRange d.nodes (allocateSplitIds d k size).1 →
      (getNode d.nodes (allocateSplitIds d k size).1).status = Status.Deleted) ∧
    ((allocateSplitIds d k size).2.1 ≠ AllocationId.null →
      InRange d.nodes (allocateSplitIds d k size).2.1 →
      (getNode d.nodes (allocateSplitIds d k size).2.1).status = Status.Deleted) ∧
    ((allocateSplitIds d k size).2.2 ≠ AllocationId.null →
      InRange d.nodes (allocateSplitIds d k size).2.2 →
      (getNode d.nodes (allocateSplitIds d k size).2.2).status = Status.Deleted) ∧
    (∀ j : Int, getNode (allocateSplitStore d k size) j = getNode d.nodes j) ∧
    (∀ j : Int, InRange (allocateSplitStore d k size) j ↔
      InRange d.nodes j ∨ j = (allocateSplitIds d k size).1 ∨
      ((allocateSplitIds d k size).2.1 ≠ AllocationId.null ∧
        j = (allocateSplitIds d k size).2.1) ∨
      ((allocateSplitIds d k size).2.2 ≠ AllocationId.null ∧
        j = (allocateSplitIds d k size).2.2)) := by
  obtain ⟨h0, h1, h2, h3, h4, h5, h6, h7⟩ := allocateNode_three d.nodes
    (!(guillotine (getNode d.nodes k).rect size (getNode d.nodes k).orientation).2.1.isEmpty)
    (!(guillotine (getNode d.nodes k).rect size (getNode d.nodes k).orientation).2.2.isEmpty)
    _ _ _ rfl rfl rfl
  refine ⟨h0, ?_, ?_, h3, h4, h5, h6, h7⟩
  · rw [← Bool.not_eq_true']
    exact h1
  · rw [← Bool.not_eq_true']
    exact h2

/-- The node store after the split path, written with the handles and the store
obtained from the node store. -/
theorem allocateSplit_nodes (d : AllocatorPrivate) (k : Int) (size : QSize) :
    (allocateSplit d k size).2.nodes =
      (let st := allocateSplitStore d k size
       let a := (allocateSplitIds d k size).1
       let lf := (allocateSplitIds d k size).2.1
       let sp := (allocateSplitIds d k size).2.2
       let g := guillotine (getNode d.nodes k).rect size (getNode d.nodes k).orientation
       let nodes4 := setNode st k { getNode st k with kind := Kind.Fork }
       let nodes5 := setNode nodes4 a
         { prevSibling := AllocationId.null
           nextSibling := lf
           parent := k
           orientation := flipOrientation (getNode nodes4 k).orientation
           rect := g.1
           kind := Kind.Leaf
           status := Status.Occupied }
       let nodes6 :=
         if lf ≠ AllocationId.null then
           setNode nodes5 lf
             { prevSibling := a
               nextSibling := AllocationId.null
               parent := k
               orientation := flipOrientation (getNode nodes4 k).orientation
               rect := g.2.1
               kind := Kind.Leaf
               status := Status.Free }
         else nodes5
       if sp ≠ AllocationId.null then
         setNode
           (setNode nodes6 sp
             { prevSibling := k
               nextSibling := (getNode nodes6 k).nextSibling
               parent := (getNode nodes6 k).parent
               orientation := (getNode nodes6 k).orientation
               rect := g.2.2
               kind := Kind.Leaf
               status := Status.Free })
           k
           { getNode
               (setNode nodes6 sp
                 { prevSibling := k
                   nextSibling := (getNode nodes6 k).nextSibling
                   parent := (getNode nodes6 k).parent
                   orientation := (getNode nodes6 k).orientation
                   rect := g.2.2
                   kind := Kind.Leaf
                   status := Status.Free }) k with nextSibling := sp }
       else nodes6) := rfl

/-- The content of every slot after the split path of `allocate`: the selected
node becomes a Fork, the handles obtained from the node store hold the split,
leftover and allocated node (the last write wins when handles coincide), and
every other slot reads as before. -/
theorem getNode_allocateSplit (d : AllocatorPrivate) (k : Int) (size : QSize)
    (hk : InRange d.nodes k) (hst : (getNode d.nodes k).status ≠ Status.Deleted) (j : Int) :
    getNode (allocateSplit d k size).2.nodes j =
      if j = k then forkedNode d k size
      else if (allocateSplitIds d k size).2.2 ≠ AllocationId.null ∧
          j = (allocateSplitIds d k size).2.2 then splitNode d k size
      else if (allocateSplitIds d k size).2.1 ≠ AllocationId.null ∧
          j = (allocateSplitIds d k size).2.1 then leftoverNode d k size
      else if j = (allocateSplitIds d k size).1 then allocatedNode d k size
      else getNode d.nodes j := by
  obtain ⟨_, _, _, ha, hlf, hsp, hget, hin⟩ := allocateSplitIds_spec d k size
  have hka : (allocateSplitIds d k size).1 ≠ k := by
    intro hc
    rw [hc] at ha
    exact hst (ha hk)
  have hklf : (allocateSplitIds d k size).2.1 ≠ AllocationId.null →
      (allocateSplitIds d k size).2.1 ≠ k := by
    intro hne hc
    have := hlf hne
    rw [hc] at this
    exact hst (this hk)
  have hksp : (allocateSplitIds d k size).2.2 ≠ AllocationId.null →
      (allocateSplitIds d k size).2.2 ≠ k := by
    intro hne hc
    have := hsp hne
    rw [hc] at this
    exact hst (this hk)
  have hink : InRange (allocateSplitStore d k size) k := (hin k).mpr (Or.inl hk)
  have hina : InRange (allocateSplitStore d k size) (allocateSplitIds d k size).1 :=
    (hin _).mpr (Or.inr (Or.inl rfl))
  rw [allocateSplit_nodes]
  by_cases hl : (allocateSplitIds d k size).2.1 = AllocationId.null
  · by_cases hs : (allocateSplitIds d k size).2.2 = AllocationId.null
    · simp only [hl, hs, ne_eq, not_true_eq_false, not_false_eq_true, if_false, if_true,
        false_and, true_and, getNode_setNode, inRange_setNode, hget, hink, hina, and_true]
      by_cases hjk : j = k
      · subst hjk
        simp [forkedNode, hl, hs, hka, hka.symm]
      · by_cases hja : j = (allocateSplitIds d k size).1
        · subst hja
          simp [allocatedNode, hl, hs, hka, hka.symm, hjk]
        · simp [hjk, hjk, hja]
    · have hinsp : InRange (allocateSplitStore d k size) (allocateSplitIds d k size).2.2 :=
        (hin _).mpr (Or.inr (Or.inr (Or.inr ⟨hs, rfl⟩)))
      have hks := hksp hs
      simp only [hl, hs, ne_eq, not_true_eq_false, not_false_eq_true, if_false, if_true,
        false_and, true_and, getNode_setNode, inRange_setNode, hget, hink, hina, hinsp, and_true]
      by_cases hjk : j = k
      · subst hjk
        simp [forkedNode, hl, hs, hka, hka.symm, hks, hks.symm]
      · by_cases hjs : j = (allocateSplitIds d k size).2.2
        · subst hjs
          simp [splitNode, hl, hs, hka, hka.symm, hks, hks.symm, hjk]
        · by_cases hja : j = (allocateSplitIds d k size).1
          · subst hja
            simp [allocatedNode, hl, hs, hka, hka.symm, hks, hks.symm, hjk, hjs]
          · simp [hjk, hjk, hjs, hja]
  · have hinlf : InRange (allocateSplitStore d k size) (allocateSplitIds d k size).2.1 :=
      (hin _).mpr (Or.inr (Or.inr (Or.inl ⟨hl, rfl⟩)))
    have hkl := hklf hl
    by_cases hs : (allocateSplitIds d k size).2.2 = AllocationId.null
    · simp only [hl, hs, ne_eq, not_true_eq_false, not_false_eq_true, if_false, if_true,
        false_and, true_and, getNode_setNode, inRange_setNode, hget, hink, hina, hinlf, and_true]
      by_cases hjk : j = k
      · subst hjk
        simp [forkedNode, hl, hs, hka, hka.symm, hkl, hkl.symm]
      · by_cases hjl : j = (allocateSplitIds d k size).2.1
        · subst hjl
          simp [leftoverNode, hl, hs, hka, hka.symm, hkl, hkl.symm, hjk]
        · by_cases hja : j = (allocateSplitIds d k size).1
          · subst hja
            simp [allocatedNode, hl, hs, hka, hka.symm, hkl, hkl.symm, hjk, hjl]
          · simp [hjk, hjk, hjl, hja]
    · have hinsp : InRange (allocateSplitStore d k size) (allocateSplitIds d k size).2.2 :=
        (hin _).mpr (Or.inr (Or.inr (Or.inr ⟨hs, rfl⟩)))
      have hks := hksp hs
      simp only [hl, hs, ne_eq, not_true_eq_false, not_false_eq_true, if_false, if_true,
        false_and, true_and, getNode_setNode, inRange_setNode, hget, hink, hina, hinlf, hinsp, and_true]
      by_cases hjk : j = k
      · subst hjk
        simp [forkedNode, hl, hs, hka, hka.symm, hkl, hkl.symm, hks, hks.symm]
      · by_cases hjs : j = (allocateSplitIds d k size).2.2
        · subst hjs
          simp [splitNode, hl, hs, hka, hka.symm, hkl, hkl.symm, hks, hks.symm, hjk]
        · by_cases hjl : j = (allocateSplitIds d k size).2.1
          · subst hjl
            simp [leftoverNode, hl, hs, hka, hka.symm, hkl, hkl.symm, hks, hks.symm, hjk, hjs]
          · by_cases hja : j = (allocateSplitIds d k size).1
            · subst hja
              simp [allocatedNode, hl, hs, hka, hka.symm, hkl, hkl.symm, hks, hks.symm, hjk, hjs, hjl]
            · simp [hjk, hjk, hjs, hjl, hja]

/-! ## The loops of `deallocate`, one iteration at a time -/

/-- Unfolding the forward-merge loop. -/
theorem mergeNext_succ (fuel : Nat) (nodes : List AllocationNode) (c : Int) :
    mergeNext (fuel + 1) nodes c =
      if canMergeNext nodes c then mergeNext fuel (mergeNextStep nodes c) c else some nodes := by
  show (if (getNode nodes c).nextSibling = AllocationId.null then some nodes
    else if (getNode nodes (getNode nodes c).nextSibling).kind ≠ Kind.Leaf ∨
        (getNode nodes (getNode nodes c).nextSibling).status ≠ Status.Free then some nodes
    else mergeNext fuel (mergeNextStep nodes c) c) = _
  unfold canMergeNext
  by_cases h1 : (getNode nodes c).nextSibling = AllocationId.null
  · rw [if_pos h1, if_neg (fun h => h.1 h1)]
  · rw [if_neg h1]
    by_cases h2 : (getNode nodes (getNode nodes c).nextSibling).kind ≠ Kind.Leaf ∨
        (getNode nodes (getNode nodes c).nextSibling).status ≠ Status.Free
    · rw [if_pos h2, if_neg]
      rintro ⟨_, h3, h4⟩
      rcases h2 with h | h
      · exact h h3
      · exact h h4
    · rw [if_neg h2, if_pos]
      simp only [not_or, ne_eq, not_not] at h2
      exact ⟨h1, h2.1, h2.2⟩

/-- Unfolding the backward-merge loop. -/
theorem mergePrev_succ (fuel : Nat) (nodes : List AllocationNode) (c : Int) :
    mergePrev (fuel + 1) nodes c =
      if canMergePrev nodes c then mergePrev fuel (mergePrevStep nodes c) c else some nodes := by
  show (if (getNode nodes c).prevSibling = AllocationId.null then some nodes
    else if (getNode nodes (getNode nodes c).prevSibling).kind ≠ Kind.Leaf ∨
        (getNode nodes (getNode nodes c).prevSibling).status ≠ Status.Free then some nodes
    else mergePrev fuel (mergePrevStep nodes c) c) = _
  unfold canMergePrev
  by_cases h1 : (getNode nodes c).prevSibling = AllocationId.null
  · rw [if_pos h1, if_neg (fun h => h.1 h1)]
  · rw [if_neg h1]
    by_cases h2 : (getNode nodes (getNode nodes c).prevSibling).kind ≠ Kind.Leaf ∨
        (getNode nodes (getNode nodes c).prevSibling).status ≠ Status.Free
    · rw [if_pos h2, if_neg]
      rintro ⟨_, h3, h4⟩
      rcases h2 with h | h
      · exact h h3
      · exact h h4
    · rw [if_neg h2, if_pos]
      simp only [not_or, ne_eq, not_not] at h2
      exact ⟨h1, h2.1, h2.2⟩

/-- Unfolding the outer loop. -/
theorem deallocateLoop_succ (fuel : Nat) (nodes : List AllocationNode) (c : Int) :
    deallocateLoop (fuel + 1) nodes c =
      match mergeNext (fuel + 1) nodes c with
      | none => none
      | some nodesA =>
        match mergePrev (fuel + 1) nodesA c with
        | none => none
        | some nodesB =>
          if stopsAt nodesB c then some nodesB
          else deallocateLoop fuel (collapseStep nodesB c) (getNode nodesB c).parent := rfl

/-- A slot that reads as a leaf exists. -/
theorem inRange_of_kind_leaf (l : List AllocationNode) (j : Int)
    (h : (getNode l j).kind = Kind.Leaf) : InRange l j := by
  by_contra hc
  rw [getNode_of_not_inRange l j hc] at h
  cases h

/-- A slot with a next sibling exists. -/
theorem inRange_of_next_ne_null (l : List AllocationNode) (j : Int)
    (h : (getNode l j).nextSibling ≠ AllocationId.null) : InRange l j := by
  by_contra hc
  rw [getNode_of_not_inRange l j hc] at h
  exact h rfl

/-- A slot with a previous sibling exists. -/
theorem inRange_of_prev_ne_null (l : List AllocationNode) (j : Int)
    (h : (getNode l j).prevSibling ≠ AllocationId.null) : InRange l j := by
  by_contra hc
  rw [getNode_of_not_inRange l j hc] at h
  exact h rfl

/-- A slot with a parent exists. -/
theorem inRange_of_parent_ne_null (l : List AllocationNode) (j : Int)
    (h : (getNode l j).parent ≠ AllocationId.null) : InRange l j := by
  by_contra hc
  rw [getNode_of_not_inRange l j hc] at h
  exact h rfl

/-- Reading after an assignment to one slot. -/
theorem getNode_updNode (l : List AllocationNode) (id j : Int)
    (f : AllocationNode → AllocationNode) :
    getNode (updNode l id f) j = if j = id ∧ InRange l id then f (getNode l id) else getNode l j := by
  unfold updNode
  exact getNode_setNode _ _ _ _

/-- An assignment keeps the valid handles. -/
theorem inRange_updNode (l : List AllocationNode) (id j : Int)
    (f : AllocationNode → AllocationNode) : InRange (updNode l id f) j ↔ InRange l j := by
  unfold updNode
  exact inRange_setNode _ _ _ _

/-- An assignment that keeps the field `status` of a node keeps it in every slot. -/
theorem status_updNode (l : List AllocationNode) (id j : Int)
    (f : AllocationNode → AllocationNode) (hf : ∀ n, (f n).status = n.status) :
    (getNode (updNode l id f) j).status = (getNode l j).status := by
  rw [getNode_updNode]
  split
  · rename_i hc
    rw [hc.1]
    exact hf _
  · rfl

/-- An assignment that keeps the field `kind` of a node keeps it in every slot. -/
theorem kind_updNode (l : List AllocationNode) (id j : Int)
    (f : AllocationNode → AllocationNode) (hf : ∀ n, (f n).kind = n.kind) :
    (getNode (updNode l id f) j).kind = (getNode l j).kind := by
  rw [getNode_updNode]
  split
  · rename_i hc
    rw [hc.1]
    exact hf _
  · rfl

/-- An assignment that keeps the field `parent` of a node keeps it in every slot. -/
theorem parent_updNode (l : List AllocationNode) (id j : Int)
    (f : AllocationNode → AllocationNode) (hf : ∀ n, (f n).parent = n.parent) :
    (getNode (updNode l id f) j).parent = (getNode l j).parent := by
  rw [getNode_updNode]
  split
  · rename_i hc
    rw [hc.1]
    exact hf _
  · rfl

/-- An assignment that keeps the field `prevSibling` of a node keeps it in every slot. -/
theorem prev_updNode (l : List AllocationNode) (id j : Int)
    (f : AllocationNode → AllocationNode) (hf : ∀ n, (f n).prevSibling = n.prevSibling) :
    (getNode (updNode l id f) j).prevSibling = (getNode l j).prevSibling := by
  rw [getNode_updNode]
  split
  · rename_i hc
    rw [hc.1]
    exact hf _
  · rfl

/-- An assignment that keeps the field `nextSibling` of a node keeps it in every slot. -/
theorem next_updNode (l : List AllocationNode) (id j : Int)
    (f : AllocationNode → AllocationNode) (hf : ∀ n, (f n).nextSibling = n.nextSibling) :
    (getNode (updNode l id f) j).nextSibling = (getNode l j).nextSibling := by
  rw [getNode_updNode]
  split
  · rename_i hc
    rw [hc.1]
    exact hf _
  · rfl

/-- An assignment that keeps the field `rect` of a node keeps it in every slot. -/
theorem rect_updNode (l : List AllocationNode) (id j : Int)
    (f : AllocationNode → AllocationNode) (hf : ∀ n, (f n).rect = n.rect) :
    (getNode (updNode l id f) j).rect = (getNode l j).rect := by
  rw [getNode_updNode]
  split
  · rename_i hc
    rw [hc.1]
    exact hf _
  · rfl

/-- The assignment `withRect` keeps the field `status` of every slot. -/
theorem status_updNode_withRect (l : List AllocationNode) (id j : Int) (r : QRect) :
    (getNode (updNode l id (fun n => n.withRect r)) j).status = (getNode l j).status :=
  status_updNode l id j (fun n => n.withRect r) (fun _ => rfl)

/-- The assignment `withPrev` keeps the field `status` of every slot. -/
theorem status_updNode_withPrev (l : List AllocationNode) (id j : Int) (p : Int) :
    (getNode (updNode l id (fun n => n.withPrev p)) j).status = (getNode l j).status :=
  status_updNode l id j (fun n => n.withPrev p) (fun _ => rfl)

/-- The assignment `withNext` keeps the field `status` of every slot. -/
theorem status_updNode_withNext (l : List AllocationNode) (id j : Int) (p : Int) :
    (getNode (updNode l id (fun n => n.withNext p)) j).status = (getNode l j).status :=
  status_updNode l id j (fun n => n.withNext p) (fun _ => rfl)

/-- The assignment `withKind` keeps the field `status` of every slot. -/
theorem status_updNode_withKind (l : List AllocationNode) (id j : Int) (x : Kind) :
    (getNode (updNode l id (fun n => n.withKind x)) j).status = (getNode l j).status :=
  status_updNode l id j (fun n => n.withKind x) (fun _ => rfl)

/-- The assignment `withRect` keeps the field `kind` of every slot. -/
theorem kind_updNode_withRect (l : List AllocationNode) (id j : Int) (r : QRect) :
    (getNode (updNode l id (fun n => n.withRect r)) j).kind = (getNode l j).kind :=
  kind_updNode l id j (fun n => n.withRect r) (fun _ => rfl)

/-- The assignment `withPrev` keeps the field `kind` of every slot. -/
theorem kind_updNode_withPrev (l : List AllocationNode) (id j : Int) (p : Int) :
    (getNode (updNode l id (fun n => n.withPrev p)) j).kind = (getNode l j).kind :=
  kind_updNode l id j (fun n => n.withPrev p) (fun _ => rfl)

/-- The assignment `withNext` keeps the field `kind` of every slot. -/
theorem kind_updNode_withNext (l : List AllocationNode) (id j : Int) (p : Int) :
    (getNode (updNode l id (fun n => n.withNext p)) j).kind = (getNode l j).kind :=
  kind_updNode l id j (fun n => n.withNext p) (fun _ => rfl)

/-- The assignment `withStatus` keeps the field `kind` of every slot. -/
theorem kind_updNode_withStatus (l : List AllocationNode) (id j : Int) (x : Status) :
    (getNode (updNode l id (fun n => n.withStatus x)) j).kind = (getNode l j).kind :=
  kind_updNode l id j (fun n => n.withStatus x) (fun _ => rfl)

/-- The assignment `withRect` keeps the field `parent` of every slot. -/
theorem parent_updNode_withRect (l : List AllocationNode) (id j : Int) (r : QRect) :
    (getNode (updNode l id (fun n => n.withRect r)) j).parent = (getNode l j).parent :=
  parent_updNode l id j (fun n => n.withRect r) (fun _ => rfl)

/-- The assignment `withPrev` keeps the field `parent` of every slot. -/
theorem parent_updNode_withPrev (l : List AllocationNode) (id j : Int) (p : Int) :
    (getNode (updNode l id (fun n => n.withPrev p)) j).parent = (getNode l j).parent :=
  parent_updNode l id j (fun n => n.withPrev p) (fun _ => rfl)

/-- The assignment `withNext` keeps the field `parent` of every slot. -/
theorem parent_updNode_withNext (l : List AllocationNode) (id j : Int) (p : Int) :
    (getNode (updNode l id (fun n => n.withNext p)) j).parent = (getNode l j).parent :=
  parent_updNode l id j (fun n => n.withNext p) (fun _ => rfl)

/-- The assignment `withKind` keeps the field `parent` of every slot. -/
theorem parent_updNode_withKind (l : List AllocationNode) (id j : Int) (x : Kind) :
    (getNode (updNode l id (fun n => n.withKind x)) j).parent = (getNode l j).parent :=
  parent_updNode l id j (fun n => n.withKind x) (fun _ => rfl)

/-- The assignment `withStatus` keeps the field `parent` of every slot. -/
theorem parent_updNode_withStatus (l : List AllocationNode) (id j : Int) (x : Status) :
    (getNode (updNode l id (fun n => n.withStatus x)) j).parent = (getNode l j).parent :=
  parent_updNode l id j (fun n => n.withStatus x) (fun _ => rfl)

/-- The assignment `withRect` keeps the field `prevSibling` of every slot. -/
theorem prev_updNode_withRect (l : List AllocationNode) (id j : Int) (r : QRect) :
    (getNode (updNode l id (fun n => n.withRect r)) j).prevSibling = (getNode l j).prevSibling :=
  prev_updNode l id j (fun n => n.withRect r) (fun _ => rfl)

/-- The assignment `withNext` keeps the field `prevSibling` of every slot. -/
theorem prev_updNode_withNext (l : List AllocationNode) (id j : Int) (p : Int) :
    (getNode (updNode l id (fun n => n.withNext p)) j).prevSibling = (getNode l j).prevSibling :=
  prev_updNode l id j (fun n => n.withNext p) (fun _ => rfl)

/-- The assignment `withKind` keeps the field `prevSibling` of every slot. -/
theorem prev_updNode_withKind (l : List AllocationNode) (id j : Int) (x : Kind) :
    (getNode (updNode l id (fun n => n.withKind x)) j).prevSibling = (getNode l j).prevSibling :=
  prev_updNode l id j (fun n => n.withKind x) (fun _ => rfl)

/-- The assignment `withStatus` keeps the field `prevSibling` of every slot. -/
theorem prev_updNode_withStatus (l : List AllocationNode) (id j : Int) (x : Status) :
    (getNode (updNode l id (fun n => n.withStatus x)) j).prevSibling = (getNode l j).prevSibling :=
  prev_updNode l id j (fun n => n.withStatus x) (fun _ => rfl)

/-- The assignment `withRect` keeps the field `nextSibling` of every slot. -/
theorem next_updNode_withRect (l : List AllocationNode) (id j : Int) (r : QRect) :
    (getNode (updNode l id (fun n => n.withRect r)) j).nextSibling = (getNode l j).nextSibling :=
  next_updNode l id j (fun n => n.withRect r) (fun _ => rfl)

/-- The assignment `withPrev` keeps the field `nextSibling` of every slot. -/
theorem next_updNode_withPrev (l : List AllocationNode) (id j : Int) (p : Int) :
    (getNode (updNode l id (fun n => n.withPrev p)) j).nextSibling = (getNode l j).nextSibling :=
  next_updNode l id j (fun n => n.withPrev p) (fun _ => rfl)

/-- The assignment `withKind` keeps the field `nextSibling` of every slot. -/
theorem next_updNode_withKind (l : List AllocationNode) (id j : Int) (x : Kind) :
    (getNode (updNode l id (fun n => n.withKind x)) j).nextSibling = (getNode l j).nextSibling :=
  next_updNode l id j (fun n => n.withKind x) (fun _ => rfl)

/-- The assignment `withStatus` keeps the field `nextSibling` of every slot. -/
theorem next_updNode_withStatus (l : List AllocationNode) (id j : Int) (x : Status) :
    (getNode (updNode l id (fun n => n.withStatus x)) j).nextSibling = (getNode l j).nextSibling :=
  next_updNode l id j (fun n => n.withStatus x) (fun _ => rfl)

/-- The assignment `withPrev` keeps the field `rect` of every slot. -/
theorem rect_updNode_withPrev (l : List AllocationNode) (id j : Int) (p : Int) :
    (getNode (updNode l id (fun n => n.withPrev p)) j).rect = (getNode l j).rect :=
  rect_updNode l id j (fun n => n.withPrev p) (fun _ => rfl)

/-- The assignment `withNext` keeps the field `rect` of every slot. -/
theorem rect_updNode_withNext (l : List AllocationNode) (id j : Int) (p : Int) :
    (getNode (updNode l id (fun n => n.withNext p)) j).rect = (getNode l j).rect :=
  rect_updNode l id j (fun n => n.withNext p) (fun _ => rfl)

/-- The assignment `withKind` keeps the field `rect` of every slot. -/
theorem rect_updNode_withKind (l : List AllocationNode) (id j : Int) (x : Kind) :
    (getNode (updNode l id (fun n => n.withKind x)) j).rect = (getNode l j).rect :=
  rect_updNode l id j (fun n => n.withKind x) (fun _ => rfl)

/-- The assignment `withStatus` keeps the field `rect` of every slot. -/
theorem rect_updNode_withStatus (l : List AllocationNode) (id j : Int) (x : Status) :
    (getNode (updNode l id (fun n => n.withStatus x)) j).rect = (getNode l j).rect :=
  rect_updNode l id j (fun n => n.withStatus x) (fun _ => rfl)

/-- One forward merge as a sequence of assignments. -/
theorem mergeNextStep_eq (l : List AllocationNode) (c : Int) :
    mergeNextStep l c =
      updNode
        (if (getNode (updNode l c (fun n => n.withRect
              ((getNode l c).rect.united (getNode l (getNode l c).nextSibling).rect)))
            (getNode l c).nextSibling).nextSibling ≠ AllocationId.null then
          updNode
            (updNode
              (updNode l c (fun n => n.withRect
                ((getNode l c).rect.united (getNode l (getNode l c).nextSibling).rect)))
              (getNode (updNode l c (fun n => n.withRect
                  ((getNode l c).rect.united (getNode l (getNode l c).nextSibling).rect)))
                (getNode l c).nextSibling).nextSibling
              (fun n => n.withPrev c))
            c
            (fun n => n.withNext
              (getNode (updNode l c (fun n => n.withRect
                  ((getNode l c).rect.united (getNode l (getNode l c).nextSibling).rect)))
                (getNode l c).nextSibling).nextSibling)
        else
          updNode l c (fun n => n.withRect
            ((getNode l c).rect.united (getNode l (getNode l c).nextSibling).rect)))
        (getNode l c).nextSibling
        (fun n => n.withStatus Status.Deleted) := rfl

/-- The parent collapse as a sequence of assignments. -/
theorem collapseStep_eq (l : List AllocationNode) (c : Int) :
    collapseStep l c =
      updNode
        (updNode
          (updNode
            (updNode l (getNode l c).parent (fun n => n.withRect (getNode l c).rect))
            (getNode l c).parent (fun n => n.withKind Kind.Leaf))
          (getNode l c).parent (fun n => n.withStatus Status.Free))
        c (fun n => n.withStatus Status.Deleted) := rfl

/-- The status of every slot after one forward merge: the next sibling is
Deleted, every other slot keeps its status. -/
theorem status_mergeNextStep (l : List AllocationNode) (c j : Int)
    (hn : InRange l (getNode l c).nextSibling) :
    (getNode (mergeNextStep l c) j).status =
      if j = (getNode l c).nextSibling then Status.Deleted else (getNode l j).status := by
  rw [mergeNextStep_eq, getNode_updNode]
  by_cases hj : j = (getNode l c).nextSibling
  · rw [if_pos hj, if_pos]
    · rfl
    · refine ⟨hj, ?_⟩
      split <;> simp only [inRange_updNode, hn]
  · rw [if_neg hj, if_neg (fun h => hj h.1)]
    split <;>
      simp only [status_updNode, AllocationNode.withRect, AllocationNode.withPrev,
        AllocationNode.withNext, implies_true]

/-- One forward merge changes neither the kind nor the parent of any slot. -/
theorem kind_parent_mergeNextStep (l : List AllocationNode) (c j : Int) :
    (getNode (mergeNextStep l c) j).kind = (getNode l j).kind ∧
    (getNode (mergeNextStep l c) j).parent = (getNode l j).parent := by
  rw [mergeNextStep_eq]
  constructor
  · split <;>
      simp only [kind_updNode, AllocationNode.withRect, AllocationNode.withPrev,
        AllocationNode.withNext, AllocationNode.withStatus, implies_true]
  · split <;>
      simp only [parent_updNode, AllocationNode.withRect, AllocationNode.withPrev,
        AllocationNode.withNext, AllocationNode.withStatus, implies_true]

/-- The sibling links after one forward merge: a link is kept, or the previous
sibling becomes the current node, or the next sibling becomes a non-null
handle. -/
theorem links_mergeNextStep (l : List AllocationNode) (c j : Int) :
    ((getNode (mergeNextStep l c) j).prevSibling = (getNode l j).prevSibling ∨
      (getNode (mergeNextStep l c) j).prevSibling = c) ∧
    ((getNode (mergeNextStep l c) j).nextSibling = (getNode l j).nextSibling ∨
      (getNode (mergeNextStep l c) j).nextSibling ≠ AllocationId.null) := by
  rw [mergeNextStep_eq]
  constructor
  · rw [prev_updNode_withStatus]
    split
    · rw [prev_updNode_withNext, getNode_updNode]
      split
      · right; rfl
      · left
        simp only [prev_updNode, AllocationNode.withRect, implies_true]
    · left
      simp only [prev_updNode, AllocationNode.withRect, implies_true]
  · rw [next_updNode_withStatus]
    split
    · rename_i hg
      rw [getNode_updNode]
      split
      · right; exact hg
      · left
        simp only [next_updNode, AllocationNode.withRect, AllocationNode.withPrev, implies_true]
    · left
      simp only [next_updNode, AllocationNode.withRect, implies_true]

/-- The rectangles after one forward merge: kept, or the union of the current
node and its next sibling. -/
theorem rect_mergeNextStep (l : List AllocationNode) (c j : Int) :
    (getNode (mergeNextStep l c) j).rect = (getNode l j).rect ∨
    (getNode (mergeNextStep l c) j).rect =
      (getNode l c).rect.united (getNode l (getNode l c).nextSibling).rect := by
  rw [mergeNextStep_eq, rect_updNode_withStatus]
  have h1 : (getNode (updNode l c (fun n => n.withRect
        ((getNode l c).rect.united (getNode l (getNode l c).nextSibling).rect))) j).rect =
        (getNode l j).rect ∨
      (getNode (updNode l c (fun n => n.withRect
        ((getNode l c).rect.united (getNode l (getNode l c).nextSibling).rect))) j).rect =
        (getNode l c).rect.united (getNode l (getNode l c).nextSibling).rect := by
    rw [getNode_updNode]
    split
    · right; rfl
    · left; rfl
  split
  · simp only [rect_updNode, AllocationNode.withPrev, AllocationNode.withNext, implies_true]
    exact h1
  · exact h1

/-- One backward merge as a sequence of assignments. -/
theorem mergePrevStep_eq (l : List AllocationNode) (c : Int) :
    mergePrevStep l c =
      updNode
        (if (getNode (updNode l c (fun n => n.withRect
              ((getNode l c).rect.united (getNode l (getNode l c).prevSibling).rect)))
            (getNode l c).prevSibling).prevSibling ≠ AllocationId.null then
          updNode
            (updNode
              (updNode l c (fun n => n.withRect
                ((getNode l c).rect.united (getNode l (getNode l c).prevSibling).rect)))
              (getNode (updNode l c (fun n => n.withRect
                  ((getNode l c).rect.united (getNode l (getNode l c).prevSibling).rect)))
                (getNode l c).prevSibling).prevSibling
              (fun n => n.withNext c))
            c
            (fun n => n.withPrev
              (getNode (updNode l c (fun n => n.withRect
                  ((getNode l c).rect.united (getNode l (getNode l c).prevSibling).rect)))
                (getNode l c).prevSibling).prevSibling)
        else
          updNode l c (fun n => n.withRect
            ((getNode l c).rect.united (getNode l (getNode l c).prevSibling).rect)))
        (getNode l c).prevSibling
        (fun n => n.withStatus Status.Deleted) := rfl

/-- The status of every slot after one backward merge: the previous sibling is
Deleted, every other slot keeps its status. -/
theorem status_mergePrevStep (l : List AllocationNode) (c j : Int)
    (hn : InRange l (getNode l c).prevSibling) :
    (getNode (mergePrevStep l c) j).status =
      if j = (getNode l c).prevSibling then Status.Deleted else (getNode l j).status := by
  rw [mergePrevStep_eq, getNode_updNode]
  by_cases hj : j = (getNode l c).prevSibling
  · rw [if_pos hj, if_pos]
    · rfl
    · refine ⟨hj, ?_⟩
      split <;> simp only [inRange_updNode, hn]
  · rw [if_neg hj, if_neg (fun h => hj h.1)]
    split <;>
      simp only [status_updNode, AllocationNode.withRect, AllocationNode.withNext,
        AllocationNode.withPrev, implies_true]

/-- One backward merge changes neither the kind nor the parent of any slot. -/
theorem kind_parent_mergePrevStep (l : List AllocationNode) (c j : Int) :
    (getNode (mergePrevStep l c) j).kind = (getNode l j).kind ∧
    (getNode (mergePrevStep l c) j).parent = (getNode l j).parent := by
  rw [mergePrevStep_eq]
  constructor
  · split <;>
      simp only [kind_updNode, AllocationNode.withRect, AllocationNode.withNext,
        AllocationNode.withPrev, AllocationNode.withStatus, implies_true]
  · split <;>
      simp only [parent_updNode, AllocationNode.withRect, AllocationNode.withNext,
        AllocationNode.withPrev, AllocationNode.withStatus, implies_true]

/-- The sibling links after one backward merge: a link is kept, or the next
sibling becomes the current node, or the previous sibling becomes a non-null
handle. -/
theorem links_mergePrevStep (l : List AllocationNode) (c j : Int) :
    ((getNode (mergePrevStep l c) j).nextSibling = (getNode l j).nextSibling ∨
      (getNode (mergePrevStep l c) j).nextSibling = c) ∧
    ((getNode (mergePrevStep l c) j).prevSibling = (getNode l j).prevSibling ∨
      (getNode (mergePrevStep l c) j).prevSibling ≠ AllocationId.null) := by
  rw [mergePrevStep_eq]
  constructor
  · rw [next_updNode_withStatus]
    split
    · rw [next_updNode_withPrev, getNode_updNode]
      split
      · right; rfl
      · left
        simp only [next_updNode, AllocationNode.withRect, implies_true]
    · left
      simp only [next_updNode, AllocationNode.withRect, implies_true]
  · rw [prev_updNode_withStatus]
    split
    · rename_i hg
      rw [getNode_updNode]
      split
      · right; exact hg
      · left
        simp only [prev_updNode, AllocationNode.withRect, AllocationNode.withNext, implies_true]
    · left
      simp only [prev_updNode, AllocationNode.withRect, implies_true]

/-- The rectangles after one backward merge: kept, or the union of the current
node and its previous sibling. -/
theorem rect_mergePrevStep (l : List AllocationNode) (c j : Int) :
    (getNode (mergePrevStep l c) j).rect = (getNode l j).rect ∨
    (getNode (mergePrevStep l c) j).rect =
      (getNode l c).rect.united (getNode l (getNode l c).prevSibling).rect := by
  rw [mergePrevStep_eq, rect_updNode_withStatus]
  have h1 : (getNode (updNode l c (fun n => n.withRect
        ((getNode l c).rect.united (getNode l (getNode l c).prevSibling).rect))) j).rect =
        (getNode l j).rect ∨
      (getNode (updNode l c (fun n => n.withRect
        ((getNode l c).rect.united (getNode l (getNode l c).prevSibling).rect))) j).rect =
        (getNode l c).rect.united (getNode l (getNode l c).prevSibling).rect := by
    rw [getNode_updNode]
    split
    · right; rfl
    · left; rfl
  split
  · simp only [rect_updNode, AllocationNode.withNext, AllocationNode.withPrev, implies_true]
    exact h1
  · exact h1

/-- The slots after the parent collapse: links and parents are kept; away from
the parent the kind is kept; the status is kept or becomes Deleted away from the
parent, and the collapsed node is Deleted unless it is its own parent; a
rectangle is kept or is the rectangle of the collapsed node. -/
theorem getNode_collapseStep (l : List AllocationNode) (c j : Int) (hc : InRange l c) :
    (getNode (collapseStep l c) j).parent = (getNode l j).parent ∧
    (getNode (collapseStep l c) j).prevSibling = (getNode l j).prevSibling ∧
    (getNode (collapseStep l c) j).nextSibling = (getNode l j).nextSibling ∧
    (j ≠ (getNode l c).parent → (getNode (collapseStep l c) j).kind = (getNode l j).kind) ∧
    (j ≠ (getNode l c).parent → j ≠ c →
      (getNode (collapseStep l c) j).status = (getNode l j).status) ∧
    (j = c → (getNode (collapseStep l c) j).status = Status.Deleted) ∧
    ((getNode (collapseStep l c) j).rect = (getNode l j).rect ∨
      (getNode (collapseStep l c) j).rect = (getNode l c).rect) := by
  rw [collapseStep_eq]
  refine ⟨?_, ?_, ?_, ?_, ?_, ?_, ?_⟩
  · simp only [parent_updNode, AllocationNode.withRect, AllocationNode.withKind,
      AllocationNode.withStatus, implies_true]
  · simp only [prev_updNode, AllocationNode.withRect, AllocationNode.withKind,
      AllocationNode.withStatus, implies_true]
  · simp only [next_updNode, AllocationNode.withRect, AllocationNode.withKind,
      AllocationNode.withStatus, implies_true]
  · intro hj
    rw [kind_updNode_withStatus, kind_updNode_withStatus,
      getNode_updNode, if_neg (fun h => hj h.1), kind_updNode_withRect]
  · intro hj hjc
    rw [getNode_updNode, if_neg (fun h => hjc h.1), getNode_updNode, if_neg (fun h => hj h.1),
      status_updNode_withKind, status_updNode_withRect]
  · intro hj
    rw [getNode_updNode, if_pos]
    · rfl
    · exact ⟨hj, by simp only [inRange_updNode]; exact hc⟩
  · rw [rect_updNode_withStatus, rect_updNode_withStatus, rect_updNode_withKind,
      getNode_updNode]
    split
    · right; rfl
    · left; rfl

/-- Releasing a slot keeps the valid handles. -/
theorem inRange_releaseNode (l : List AllocationNode) (id j : Int) :
    InRange (releaseNode l id) j ↔ InRange l j := by
  unfold releaseNode
  exact inRange_setNode _ _ _ _

/-- One forward merge keeps the valid handles. -/
theorem inRange_mergeNextStep (l : List AllocationNode) (c j : Int) :
    InRange (mergeNextStep l c) j ↔ InRange l j := by
  rw [mergeNextStep_eq]
  split <;> simp only [inRange_updNode]

/-- One backward merge keeps the valid handles. -/
theorem inRange_mergePrevStep (l : List AllocationNode) (c j : Int) :
    InRange (mergePrevStep l c) j ↔ InRange l j := by
  rw [mergePrevStep_eq]
  split <;> simp only [inRange_updNode]

/-- The parent collapse keeps the valid handles. -/
theorem inRange_collapseStep (l : List AllocationNode) (c j : Int) :
    InRange (collapseStep l c) j ↔ InRange l j := by
  rw [collapseStep_eq]
  simp only [inRange_updNode]

/-! ## Induction over the loops of `deallocate` -/

/-- A property kept by every forward merge holds when the loop ends. -/
theorem mergeNext_induct (P : List AllocationNode → Prop) (c : Int)
    (hstep : ∀ l, P l → canMergeNext l c → P (mergeNextStep l c)) :
    ∀ (fuel : Nat) (l l1 : List AllocationNode), P l → mergeNext fuel l c = some l1 → P l1 := by
  intro fuel
  induction fuel with
  | zero =>
    intro l l1 _ h
    simp [mergeNext] at h
  | succ n ih =>
    intro l l1 hp h
    rw [mergeNext_succ] at h
    by_cases hm : canMergeNext l c
    · rw [if_pos hm] at h
      exact ih _ _ (hstep l hp hm) h
    · rw [if_neg hm] at h
      cases h
      exact hp

/-- A property kept by every backward merge holds when the loop ends. -/
theorem mergePrev_induct (P : List AllocationNode → Prop) (c : Int)
    (hstep : ∀ l, P l → canMergePrev l c → P (mergePrevStep l c)) :
    ∀ (fuel : Nat) (l l1 : List AllocationNode), P l → mergePrev fuel l c = some l1 → P l1 := by
  intro fuel
  induction fuel with
  | zero =>
    intro l l1 _ h
    simp [mergePrev] at h
  | succ n ih =>
    intro l l1 hp h
    rw [mergePrev_succ] at h
    by_cases hm : canMergePrev l c
    · rw [if_pos hm] at h
      exact ih _ _ (hstep l hp hm) h
    · rw [if_neg hm] at h
      cases h
      exact hp

/-- A property of the store and the current node that is kept by every merge
and by the parent collapse holds when the outer loop ends, for the node at
which it stops. -/
theorem deallocateLoop_induct (P : List AllocationNode → Int → Prop)
    (hnext : ∀ l c, P l c → canMergeNext l c → P (mergeNextStep l c) c)
    (hprev : ∀ l c, P l c → canMergePrev l c → P (mergePrevStep l c) c)
    (hcol : ∀ l c, P l c → ¬ stopsAt l c → P (collapseStep l c) (getNode l c).parent) :
    ∀ (fuel : Nat) (l : List AllocationNode) (c : Int) (l1 : List AllocationNode),
      P l c → deallocateLoop fuel l c = some l1 → ∃ c1 : Int, P l1 c1 ∧ stopsAt l1 c1 := by
  intro fuel
  induction fuel with
  | zero =>
    intro l c l1 _ h
    simp [deallocateLoop] at h
  | succ n ih =>
    intro l c l1 hp h
    rw [deallocateLoop_succ] at h
    cases hA : mergeNext (n + 1) l c with
    | none => rw [hA] at h; cases h
    | some lA =>
      rw [hA] at h
      simp only [] at h
      have hpA : P lA c :=
        mergeNext_induct (fun l => P l c) c (fun l hl hm => hnext l c hl hm) _ _ _ hp hA
      cases hB : mergePrev (n + 1) lA c with
      | none => rw [hB] at h; cases h
      | some lB =>
        rw [hB] at h
        simp only [] at h
        have hpB : P lB c :=
          mergePrev_induct (fun l => P l c) c (fun l hl hm => hprev l c hl hm) _ _ _ hpA hB
        by_cases hs : stopsAt lB c
        · rw [if_pos hs] at h
          cases h
          exact ⟨c, hpB, hs⟩
        · rw [if_neg hs] at h
          exact ih _ _ _ (hcol lB c hpB hs) h

/-! ## Valid rectangles in every reachable state -/

/-- The union of two valid rectangles is valid. -/
theorem validRect_united (canvas : QSize) (a b : QRect) (ha : validRect canvas a)
    (hb : validRect canvas b) : validRect canvas (a.united b) := by
  obtain ⟨a1, a2, a3, a4, a5, a6⟩ := ha
  obtain ⟨b1, b2, b3, b4, b5, b6⟩ := hb
  have hna : a.isNull = false := by
    unfold QRect.isNull
    simp only [Bool.and_eq_false_iff, decide_eq_false_iff_not]
    left; omega
  have hnb : b.isNull = false := by
    unfold QRect.isNull
    simp only [Bool.and_eq_false_iff, decide_eq_false_iff_not]
    left; omega
  unfold QRect.united
  rw [hna, hnb]
  simp only [Bool.false_eq_true, if_false]
  unfold validRect QRect.normLeft QRect.normRight QRect.normTop QRect.normBottom
  have hwa : ¬ a.width < 0 := by omega
  have hha : ¬ a.height < 0 := by omega
  have hwb : ¬ b.width < 0 := by omega
  have hhb : ¬ b.height < 0 := by omega
  simp only [hwa, hha, hwb, hhb, if_false, min_def, max_def]
  split_ifs <;> omega

/-- Marking a slot Occupied keeps its rectangle. -/
theorem status_updNode_withStatus_rect_aux (l : List AllocationNode) (k : Int) :
    (getNode (setNode l k { getNode l k with status := Status.Occupied }) k).rect =
      (getNode l k).rect :=
  rect_updNode_withStatus l k k Status.Occupied

/-- The node chosen by `selectFreeNode`, if any, exists and is eligible. -/
theorem selectFreeNode_cases (d : AllocatorPrivate) (size : QSize) :
    selectFreeNode d size = AllocationId.null ∨
    (InRange d.nodes (selectFreeNode d size) ∧
      eligible size (getNode d.nodes (selectFreeNode d size))) := by
  rcases selectLoop_spec size d.nodes 0 AllocationId.null intMax with
    ⟨hnull, _⟩ | ⟨k, n, hk, hsel, hel, _⟩
  · exact Or.inl hnull
  · right
    have hsel1 : selectFreeNode d size = (k : Int) := by
      show selectLoop size d.nodes 0 AllocationId.null intMax = (k : Int)
      rw [hsel]; simp
    have hlen : k < d.nodes.length := by
      rcases Nat.lt_or_ge k d.nodes.length with h | h
      · exact h
      · rw [List.getElem?_eq_none h] at hk; cases hk
    rw [hsel1, getNode_natCast d.nodes k n hk]
    exact ⟨inRange_natCast d.nodes k hlen, hel⟩

/-- The three ways `allocate` can go: it declines and leaves the state as it
is, or it marks the selected exact fit Occupied, or it takes the split path. -/
theorem allocate_cases (d : AllocatorPrivate) (size : QSize) :
    allocate d size = (default, d) ∨
    (size.isEmpty = false ∧ InRange d.nodes (selectFreeNode d size) ∧
      eligible size (getNode d.nodes (selectFreeNode d size)) ∧
      ((getNode d.nodes (selectFreeNode d size)).rect.size = size ∧
        allocate d size =
          ({ rect := (getNode d.nodes (selectFreeNode d size)).rect,
             id := selectFreeNode d size },
           { nodes := updNode d.nodes (selectFreeNode d size)
               (fun n => n.withStatus Status.Occupied),
             size := d.size }) ∨
       (getNode d.nodes (selectFreeNode d size)).rect.size ≠ size ∧
        allocate d size = allocateSplit d (selectFreeNode d size) size)) := by
  cases he : size.isEmpty with
  | true => exact Or.inl (allocate_of_isEmpty d size he)
  | false =>
    rcases selectFreeNode_cases d size with hnull | ⟨hin, hel⟩
    · exact Or.inl (allocate_of_select_null d size hnull)
    · right
      have hne : selectFreeNode d size ≠ AllocationId.null := by
        rw [inRange_iff] at hin
        exact ne_null_of_nonneg _ hin.1
      refine ⟨rfl, hin, hel, ?_⟩
      by_cases hsz : (getNode d.nodes (selectFreeNode d size)).rect.size = size
      · left
        refine ⟨hsz, ?_⟩
        unfold allocate
        rw [if_neg (by simp [he])]
        simp only [if_neg hne, if_pos hsz]
        have hr : (getNode (setNode d.nodes (selectFreeNode d size)
            { getNode d.nodes (selectFreeNode d size) with status := Status.Occupied })
            (selectFreeNode d size)).rect = (getNode d.nodes (selectFreeNode d size)).rect :=
          status_updNode_withStatus_rect_aux d.nodes (selectFreeNode d size)
        rw [hr]
        rfl
      · right
        refine ⟨hsz, ?_⟩
        unfold allocate
        rw [if_neg (by simp [he])]
        simp only [if_neg hne, if_neg hsz]

/-- The valid handles after the split path are those of the store after the
calls of `allocateNode`. -/
theorem inRange_allocateSplit (d : AllocatorPrivate) (k : Int) (size : QSize) (j : Int) :
    InRange (allocateSplit d k size).2.nodes j ↔ InRange (allocateSplitStore d k size) j := by
  rw [allocateSplit_nodes]
  simp only []
  split <;> split <;> simp only [inRange_setNode]

/-- The split path keeps the canvas size. -/
theorem allocateSplit_size (d : AllocatorPrivate) (k : Int) (size : QSize) :
    (allocateSplit d k size).2.size = d.size := rfl

/-- The allocation handed back by the split path. -/
theorem allocateSplit_allocation (d : AllocatorPrivate) (k : Int) (size : QSize) :
    (allocateSplit d k size).1 =
      { rect := (guillotine (getNode d.nodes k).rect size (getNode d.nodes k).orientation).1,
        id := (allocateSplitIds d k size).1 } := rfl

/-- The rectangles of the cut of a valid rectangle: the allocated one is valid,
and so are the leftover and the split rectangle unless they are empty. -/
theorem guillotine_valid (canvas : QSize) (bounds : QRect) (size : QSize) (axis : Orientation)
    (hb : validRect canvas bounds) (hw1 : 1 ≤ size.width) (hw2 : size.width ≤ bounds.width)
    (hh1 : 1 ≤ size.height) (hh2 : size.height ≤ bounds.height) :
    validRect canvas (guillotine bounds size axis).1 ∧
    ((guillotine bounds size axis).2.1.isEmpty = false →
      validRect canvas (guillotine bounds size axis).2.1) ∧
    ((guillotine bounds size axis).2.2.isEmpty = false →
      validRect canvas (guillotine bounds size axis).2.2) := by
  obtain ⟨b1, b2, b3, b4, b5, b6⟩ := hb
  cases axis
  · refine ⟨?_, ?_, ?_⟩
    · simp only [guillotine, validRect, QRect.ofTopLeft, if_false, reduceCtorEq]
      omega
    · simp only [guillotine, validRect, QRect.isEmpty, if_false, reduceCtorEq,
        Bool.or_eq_false_iff, decide_eq_false_iff_not]
      omega
    · simp only [guillotine, validRect, QRect.isEmpty, if_false, reduceCtorEq,
        Bool.or_eq_false_iff, decide_eq_false_iff_not]
      omega
  · refine ⟨?_, ?_, ?_⟩
    · simp only [guillotine, validRect, QRect.ofTopLeft, if_true]
      omega
    · simp only [guillotine, validRect, QRect.isEmpty, if_true,
        Bool.or_eq_false_iff, decide_eq_false_iff_not]
      omega
    · simp only [guillotine, validRect, QRect.isEmpty, if_true,
        Bool.or_eq_false_iff, decide_eq_false_iff_not]
      omega

/-- The state after `allocate` has the same canvas size. -/
theorem allocate_size (d : AllocatorPrivate) (size : QSize) :
    (allocate d size).2.size = d.size := by
  rcases allocate_cases d size with h | ⟨_, _, _, ⟨_, h⟩ | ⟨_, h⟩⟩
  · rw [h]
  · rw [h]
  · rw [h]
    rfl

/-- `allocate` keeps every rectangle of the store valid. -/
theorem rectsValid_allocate (canvas : QSize) (d : AllocatorPrivate) (size : QSize)
    (hv : rectsValid canvas d.nodes) : rectsValid canvas (allocate d size).2.nodes := by
  rcases allocate_cases d size with h | ⟨he, hin, hel, ⟨_, h⟩ | ⟨_, h⟩⟩
  · rw [h]
    exact hv
  · rw [h]
    intro j hj
    simp only [inRange_updNode] at hj
    simp only [rect_updNode_withStatus]
    exact hv j hj
  · rw [h]
    obtain ⟨hkind, hfree, hw, hh⟩ := hel
    have hpos := (isEmpty_false_iff size).mp he
    have hst : (getNode d.nodes (selectFreeNode d size)).status ≠ Status.Deleted := by
      rw [hfree]; decide
    obtain ⟨g1, g2, g3⟩ := guillotine_valid canvas (getNode d.nodes (selectFreeNode d size)).rect
      size (getNode d.nodes (selectFreeNode d size)).orientation (hv _ hin)
      hpos.1 hw hpos.2 hh
    obtain ⟨_, hlf, hsp, _, _, _, _, hrange⟩ := allocateSplitIds_spec d (selectFreeNode d size) size
    intro j hj
    rw [inRange_allocateSplit, hrange] at hj
    rw [getNode_allocateSplit d _ size hin hst j]
    by_cases h1 : j = selectFreeNode d size
    · rw [if_pos h1]
      exact hv _ hin
    · rw [if_neg h1]
      by_cases h2 : (allocateSplitIds d (selectFreeNode d size) size).2.2 ≠ AllocationId.null ∧
          j = (allocateSplitIds d (selectFreeNode d size) size).2.2
      · rw [if_pos h2]
        exact g3 (hsp.mp h2.1)
      · rw [if_neg h2]
        by_cases h3 : (allocateSplitIds d (selectFreeNode d size) size).2.1 ≠ AllocationId.null ∧
            j = (allocateSplitIds d (selectFreeNode d size) size).2.1
        · rw [if_pos h3]
          exact g2 (hlf.mp h3.1)
        · rw [if_neg h3]
          by_cases h4 : j = (allocateSplitIds d (selectFreeNode d size) size).1
          · rw [if_pos h4]
            exact g1
          · rw [if_neg h4]
            rcases hj with hj | hj | hj | hj
            · exact hv j hj
            · exact absurd hj h4
            · exact absurd hj h3
            · exact absurd hj h2

/-- One forward merge keeps every rectangle of the store valid. -/
theorem rectsValid_mergeNextStep (canvas : QSize) (l : List AllocationNode) (c : Int)
    (hv : rectsValid canvas l) (hm : canMergeNext l c) :
    rectsValid canvas (mergeNextStep l c) := by
  intro j hj
  rw [inRange_mergeNextStep] at hj
  rcases rect_mergeNextStep l c j with h | h
  · rw [h]; exact hv j hj
  · rw [h]
    exact validRect_united canvas _ _ (hv c (inRange_of_next_ne_null l c hm.1))
      (hv _ (inRange_of_kind_leaf l _ hm.2.1))

/-- One backward merge keeps every rectangle of the store valid. -/
theorem rectsValid_mergePrevStep (canvas : QSize) (l : List AllocationNode) (c : Int)
    (hv : rectsValid canvas l) (hm : canMergePrev l c) :
    rectsValid canvas (mergePrevStep l c) := by
  intro j hj
  rw [inRange_mergePrevStep] at hj
  rcases rect_mergePrevStep l c j with h | h
  · rw [h]; exact hv j hj
  · rw [h]
    exact validRect_united canvas _ _ (hv c (inRange_of_prev_ne_null l c hm.1))
      (hv _ (inRange_of_kind_leaf l _ hm.2.1))

/-- The parent collapse keeps every rectangle of the store valid. -/
theorem rectsValid_collapseStep (canvas : QSize) (l : List AllocationNode) (c : Int)
    (hv : rectsValid canvas l) (hs : ¬ stopsAt l c) :
    rectsValid canvas (collapseStep l c) := by
  have hp : (getNode l c).parent ≠ AllocationId.null := fun h => hs (Or.inl h)
  have hc : InRange l c := inRange_of_parent_ne_null l c hp
  intro j hj
  rw [inRange_collapseStep] at hj
  rcases (getNode_collapseStep l c j hc).2.2.2.2.2.2 with h | h
  · rw [h]; exact hv j hj
  · rw [h]; exact hv c hc

/-- The state after `deallocate`: the canvas size is kept and the store is the
result of the outer loop on the store with the node marked Free. -/
theorem deallocate_eq_some (fuel : Nat) (d d1 : AllocatorPrivate) (id : Int)
    (h : deallocate fuel d id = some d1) :
    d1.size = d.size ∧
    deallocateLoop fuel (updNode d.nodes id (fun n => n.withStatus Status.Free)) id =
      some d1.nodes := by
  unfold deallocate at h
  simp only [] at h
  have hl : deallocateLoop fuel (setNode d.nodes id
      { getNode d.nodes id with status := Status.Free }) id =
      deallocateLoop fuel (updNode d.nodes id (fun n => n.withStatus Status.Free)) id := rfl
  rw [hl] at h
  cases hloop : deallocateLoop fuel (updNode d.nodes id (fun n => n.withStatus Status.Free)) id with
  | none => rw [hloop] at h; cases h
  | some l1 =>
    rw [hloop] at h
    simp only [Option.map_some', Option.some.injEq] at h
    subst h
    exact ⟨rfl, rfl⟩

/-- `deallocate` keeps every rectangle of the store valid. -/
theorem rectsValid_deallocate (canvas : QSize) (fuel : Nat) (d d1 : AllocatorPrivate) (id : Int)
    (hv : rectsValid canvas d.nodes) (h : deallocate fuel d id = some d1) :
    rectsValid canvas d1.nodes := by
  obtain ⟨_, hloop⟩ := deallocate_eq_some fuel d d1 id h
  have h0 : rectsValid canvas (updNode d.nodes id (fun n => n.withStatus Status.Free)) := by
    intro j hj
    simp only [inRange_updNode] at hj
    simp only [rect_updNode_withStatus]
    exact hv j hj
  obtain ⟨_, hres, _⟩ := deallocateLoop_induct (fun l _ => rectsValid canvas l)
    (fun l c hl hm => rectsValid_mergeNextStep canvas l c hl hm)
    (fun l c hl hm => rectsValid_mergePrevStep canvas l c hl hm)
    (fun l c hl hs => rectsValid_collapseStep canvas l c hl hs)
    fuel _ id _ h0 hloop
  exact hres

/-- In every reachable state the canvas size is the one given at construction
and every slot of the store holds a rectangle of width and height at least one
inside the canvas. -/
theorem reachable_rectsValid (size : QSize) (hw : 0 < size.width) (hh : 0 < size.height)
    (c : Client) (hc : Reachable size c) : c.d.size = size ∧ rectsValid size c.d.nodes := by
  induction hc with
  | fresh =>
    refine ⟨rfl, ?_⟩
    intro j hj
    have hj0 : j = 0 := by
      rw [inRange_iff] at hj
      simp [Client.fresh, Allocator] at hj
      omega
    subst hj0
    show validRect size (QRect.ofTopLeft 0 0 size)
    simp only [validRect, QRect.ofTopLeft]
    omega
  | step fuel c c1 op _ hstep ih =>
    obtain ⟨ihs, ihv⟩ := ih
    cases op with
    | allocate sz =>
      simp only [Client.step, Option.some.injEq] at hstep
      subst hstep
      exact ⟨by rw [allocate_size]; exact ihs, rectsValid_allocate size c.d sz ihv⟩
    | deallocate id =>
      simp only [Client.step] at hstep
      split at hstep
      · cases hd : deallocate fuel c.d id with
        | none => rw [hd] at hstep; cases hstep
        | some d1 =>
          rw [hd] at hstep
          simp only [Option.map_some', Option.some.injEq] at hstep
          subst hstep
          exact ⟨by rw [(deallocate_eq_some fuel c.d d1 id hd).1]; exact ihs,
            rectsValid_deallocate size fuel c.d d1 id ihv hd⟩
      · cases hstep

/-- A non-empty request whose selected node is not an exact fit takes the
split path. -/
theorem allocate_eq_allocateSplit (d : AllocatorPrivate) (size : QSize)
    (he : size.isEmpty = false) (hne : selectFreeNode d size ≠ AllocationId.null)
    (hsz : (getNode d.nodes (selectFreeNode d size)).rect.size ≠ size) :
    allocate d size = allocateSplit d (selectFreeNode d size) size := by
  unfold allocate
  rw [if_neg (by simp [he])]
  simp only [if_neg hne, if_neg hsz]

/-- What holds of degenerate leaves in every reachable state of a canvas with
W, H > 0: every Leaf that is not Deleted has a rect of width and height at
least one; and when `allocate` splits the selected node, it obtains a handle
for the leftover node iff the leftover rectangle is non-empty and a handle for
the split node iff the split rectangle is non-empty, the split node is then
found in its slot after the call, and so is the leftover node unless the split
node was given the same slot. -/
theorem leaves_not_degenerate (size : QSize) (hw : 0 < size.width) (hh : 0 < size.height)
    (c : Client) (hc : Reachable size c) :
    (∀ n ∈ c.d.nodes, n.kind = Kind.Leaf → n.status ≠ Status.Deleted →
      1 ≤ n.rect.width ∧ 1 ≤ n.rect.height) ∧
    (∀ request : QSize, request.isEmpty = false →
      selectFreeNode c.d request ≠ AllocationId.null →
      (getNode c.d.nodes (selectFreeNode c.d request)).rect.size ≠ request →
      ((allocateSplitIds c.d (selectFreeNode c.d request) request).2.1 ≠ AllocationId.null ↔
        (guillotine (getNode c.d.nodes (selectFreeNode c.d request)).rect request
          (getNode c.d.nodes (selectFreeNode c.d request)).orientation).2.1.isEmpty = false) ∧
      ((allocateSplitIds c.d (selectFreeNode c.d request) request).2.2 ≠ AllocationId.null ↔
        (guillotine (getNode c.d.nodes (selectFreeNode c.d request)).rect request
          (getNode c.d.nodes (selectFreeNode c.d request)).orientation).2.2.isEmpty = false) ∧
      ((allocateSplitIds c.d (selectFreeNode c.d request) request).2.2 ≠ AllocationId.null →
        getNode (allocate c.d request).2.nodes
            (allocateSplitIds c.d (selectFreeNode c.d request) request).2.2 =
          splitNode c.d (selectFreeNode c.d request) request) ∧
      ((allocateSplitIds c.d (selectFreeNode c.d request) request).2.1 ≠ AllocationId.null →
        (allocateSplitIds c.d (selectFreeNode c.d request) request).2.1 ≠
          (allocateSplitIds c.d (selectFreeNode c.d request) request).2.2 →
        getNode (allocate c.d request).2.nodes
            (allocateSplitIds c.d (selectFreeNode c.d request) request).2.1 =
          leftoverNode c.d (selectFreeNode c.d request) request)) := by
  obtain ⟨_, hv⟩ := reachable_rectsValid size hw hh c hc
  refine ⟨?_, ?_⟩
  · intro n hn _ _
    obtain ⟨j, hj, hget⟩ := exists_inRange_of_mem c.d.nodes n hn
    have := hv j hj
    rw [hget] at this
    exact ⟨this.1, this.2.1⟩
  · intro request he hne hsz
    obtain ⟨_, hlf, hsp, _, hlfd, hspd, _, _⟩ :=
      allocateSplitIds_spec c.d (selectFreeNode c.d request) request
    rcases selectFreeNode_cases c.d request with hnull | ⟨hin, hel⟩
    · exact absurd hnull hne
    · have hst : (getNode c.d.nodes (selectFreeNode c.d request)).status ≠ Status.Deleted := by
        rw [hel.2.1]; decide
      refine ⟨hlf, hsp, ?_, ?_⟩
      · intro hs
        have hks : (allocateSplitIds c.d (selectFreeNode c.d request) request).2.2 ≠
            selectFreeNode c.d request := by
          intro hc2
          have := hspd hs
          rw [hc2] at this
          exact hst (this hin)
        rw [allocate_eq_allocateSplit c.d request he hne hsz,
          getNode_allocateSplit c.d _ request hin hst, if_neg hks, if_pos ⟨hs, rfl⟩]
      · intro hl hls
        have hkl : (allocateSplitIds c.d (selectFreeNode c.d request) request).2.1 ≠
            selectFreeNode c.d request := by
          intro hc2
          have := hlfd hl
          rw [hc2] at this
          exact hst (this hin)
        rw [allocate_eq_allocateSplit c.d request he hne hsz,
          getNode_allocateSplit c.d _ request hin hst, if_neg hkl,
          if_neg (fun h => hls h.2), if_pos ⟨hl, rfl⟩]

/-- C19. Returned rectangles have the requested size and stay inside the
canvas: for every canvas with W, H > 0, every reachable state and every
request, if `allocate` returns a non-null allocation then its rect has the
requested width and height and lies inside (0,0,W,H). -/
theorem allocation_inside_canvas (size : QSize) (hw : 0 < size.width) (hh : 0 < size.height)
    (c : Client) (hc : Reachable size c) (request : QSize)
    (hnn : (allocate c.d request).1.isNull = false) :
    (allocate c.d request).1.rect.width = request.width ∧
    (allocate c.d request).1.rect.height = request.height ∧
    0 ≤ (allocate c.d request).1.rect.x ∧ 0 ≤ (allocate c.d request).1.rect.y ∧
    (allocate c.d request).1.rect.x + request.width ≤ size.width ∧
    (allocate c.d request).1.rect.y + request.height ≤ size.height := by
  obtain ⟨_, hv⟩ := reachable_rectsValid size hw hh c hc
  rcases allocate_cases c.d request with h | ⟨he, hin, hel, ⟨hsz, h⟩ | ⟨_, h⟩⟩
  · rw [h] at hnn
    have hd : (default : Allocation).isNull = true := rfl
    rw [hd] at hnn
    cases hnn
  · rw [h]
    have hvk := hv _ hin
    have hwd : (getNode c.d.nodes (selectFreeNode c.d request)).rect.width = request.width :=
      congrArg QSize.width hsz
    have hht : (getNode c.d.nodes (selectFreeNode c.d request)).rect.height = request.height :=
      congrArg QSize.height hsz
    obtain ⟨_, _, v3, v4, v5, v6⟩ := hvk
    refine ⟨hwd, hht, v3, v4, ?_, ?_⟩
    · show (getNode c.d.nodes (selectFreeNode c.d request)).rect.x + request.width ≤ size.width
      omega
    · show (getNode c.d.nodes (selectFreeNode c.d request)).rect.y + request.height ≤ size.height
      omega
  · rw [h, allocateSplit_allocation, guillotine_allocatedRect]
    obtain ⟨_, _, hwle, hhle⟩ := hel
    obtain ⟨v1, v2, v3, v4, v5, v6⟩ := hv _ hin
    have hpos := (isEmpty_false_iff request).mp he
    refine ⟨rfl, rfl, v3, v4, ?_, ?_⟩
    · show (getNode c.d.nodes (selectFreeNode c.d request)).rect.x + request.width ≤ size.width
      omega
    · show (getNode c.d.nodes (selectFreeNode c.d request)).rect.y + request.height ≤ size.height
      omega

/-! ## Termination of `deallocate` -/

/-- The store as the list of what its handles read. -/
theorem eq_map_range (l : List AllocationNode) :
    l = (List.range l.length).map (fun i : Nat => getNode l (i : Int)) := by
  apply List.ext_getElem?
  intro i
  rw [List.getElem?_map]
  by_cases hi : i < l.length
  · rw [List.getElem?_range hi, List.getElem?_eq_getElem hi]
    simp only [Option.map_some']
    rw [getNode_natCast l i l[i] (List.getElem?_eq_getElem hi)]
  · rw [List.getElem?_eq_none (by omega), List.getElem?_eq_none (by simp; omega)]
    rfl

/-- Counting the slots with a property, through the handles. -/
theorem countP_eq_range (p : AllocationNode → Bool) (l : List AllocationNode) :
    l.countP p = (List.range l.length).countP (fun i : Nat => p (getNode l (i : Int))) := by
  conv_lhs => rw [eq_map_range l]
  rw [List.countP_map]
  rfl

/-- A count drops when the property is lost at one element and gained at none. -/
theorem countP_lt_of_imp (q1 q2 : Nat → Bool) (L : List Nat)
    (himp : ∀ x ∈ L, q1 x = true → q2 x = true) (k : Nat) (hk : k ∈ L)
    (hk2 : q2 k = true) (hk1 : q1 k = false) : L.countP q1 < L.countP q2 := by
  induction L with
  | nil => cases hk
  | cons a rest ih =>
    rw [List.countP_cons, List.countP_cons]
    have hmono : rest.countP q1 ≤ rest.countP q2 :=
      List.countP_mono_left (fun x hx h => himp x (List.mem_cons_of_mem a hx) h)
    rcases List.mem_cons.mp hk with h | h
    · subst h
      rw [hk1, hk2]
      simp only [Bool.false_eq_true, if_false, if_true]
      omega
    · have := ih (fun x hx h => himp x (List.mem_cons_of_mem a hx) h) h
      by_cases ha : q1 a = true
      · rw [ha, himp a (List.mem_cons_self a rest) ha]
        simp only [if_true]
        omega
      · have ha0 : q1 a = false := by simpa using ha
        rw [ha0]
        simp only [Bool.false_eq_true, if_false]
        split <;> omega

/-- The number of free slots drops when one free slot loses the status and no
slot gains it. -/
theorem freeCount_lt (l l1 : List AllocationNode) (hlen : l1.length = l.length)
    (himp : ∀ j : Int, (getNode l1 j).status = Status.Free → (getNode l j).status = Status.Free)
    (k : Int) (hk : InRange l k) (hk2 : (getNode l k).status = Status.Free)
    (hk1 : (getNode l1 k).status ≠ Status.Free) : freeCount l1 < freeCount l := by
  unfold freeCount
  rw [countP_eq_range _ l1, countP_eq_range _ l, hlen]
  rw [inRange_iff] at hk
  have hkn : ((k.toNat : Nat) : Int) = k := Int.toNat_of_nonneg hk.1
  apply countP_lt_of_imp _ _ _ _ k.toNat
  · rw [List.mem_range]
    omega
  · rw [hkn]
    simpa using hk2
  · rw [hkn]
    simpa using hk1
  · intro x _ hx
    simp only [decide_eq_true_eq] at hx ⊢
    exact himp _ hx

/-- An assignment keeps the number of slots. -/
theorem length_updNode (l : List AllocationNode) (id : Int)
    (f : AllocationNode → AllocationNode) : (updNode l id f).length = l.length := by
  unfold updNode
  exact length_setNode _ _ _

/-- One forward merge keeps the number of slots. -/
theorem length_mergeNextStep (l : List AllocationNode) (c : Int) :
    (mergeNextStep l c).length = l.length := by
  rw [mergeNextStep_eq]
  split <;> simp only [length_updNode]

/-- One backward merge keeps the number of slots. -/
theorem length_mergePrevStep (l : List AllocationNode) (c : Int) :
    (mergePrevStep l c).length = l.length := by
  rw [mergePrevStep_eq]
  split <;> simp only [length_updNode]

/-- The parent collapse keeps the number of slots. -/
theorem length_collapseStep (l : List AllocationNode) (c : Int) :
    (collapseStep l c).length = l.length := by
  rw [collapseStep_eq]
  simp only [length_updNode]

/-- Each forward merge strictly decreases the number of free slots. -/
theorem freeCount_mergeNextStep (l : List AllocationNode) (c : Int) (hm : canMergeNext l c) :
    freeCount (mergeNextStep l c) < freeCount l := by
  have hn : InRange l (getNode l c).nextSibling := inRange_of_kind_leaf l _ hm.2.1
  apply freeCount_lt l _ (length_mergeNextStep l c) _ (getNode l c).nextSibling hn hm.2.2
  · rw [status_mergeNextStep l c _ hn, if_pos rfl]
    decide
  · intro j hj
    rw [status_mergeNextStep l c j hn] at hj
    split at hj
    · cases hj
    · exact hj

/-- Each backward merge strictly decreases the number of free slots. -/
theorem freeCount_mergePrevStep (l : List AllocationNode) (c : Int) (hm : canMergePrev l c) :
    freeCount (mergePrevStep l c) < freeCount l := by
  have hn : InRange l (getNode l c).prevSibling := inRange_of_kind_leaf l _ hm.2.1
  apply freeCount_lt l _ (length_mergePrevStep l c) _ (getNode l c).prevSibling hn hm.2.2
  · rw [status_mergePrevStep l c _ hn, if_pos rfl]
    decide
  · intro j hj
    rw [status_mergePrevStep l c j hn] at hj
    split at hj
    · cases hj
    · exact hj

/-- The forward-merge loop ends within as many iterations as there are free
slots. -/
theorem mergeNext_terminates (c : Int) :
    ∀ (fuel : Nat) (l : List AllocationNode), freeCount l < fuel →
      ∃ l1, mergeNext fuel l c = some l1 := by
  intro fuel
  induction fuel with
  | zero => intro l h; omega
  | succ n ih =>
    intro l h
    rw [mergeNext_succ]
    by_cases hm : canMergeNext l c
    · rw [if_pos hm]
      have := freeCount_mergeNextStep l c hm
      exact ih _ (by omega)
    · rw [if_neg hm]
      exact ⟨l, rfl⟩

/-- The backward-merge loop ends within as many iterations as there are free
slots. -/
theorem mergePrev_terminates (c : Int) :
    ∀ (fuel : Nat) (l : List AllocationNode), freeCount l < fuel →
      ∃ l1, mergePrev fuel l c = some l1 := by
  intro fuel
  induction fuel with
  | zero => intro l h; omega
  | succ n ih =>
    intro l h
    rw [mergePrev_succ]
    by_cases hm : canMergePrev l c
    · rw [if_pos hm]
      have := freeCount_mergePrevStep l c hm
      exact ih _ (by omega)
    · rw [if_neg hm]
      exact ⟨l, rfl⟩

/-- There are at most as many free slots as slots. -/
theorem freeCount_le_length (l : List AllocationNode) : freeCount l ≤ l.length := by
  unfold freeCount
  exact List.countP_le_length _

/-- A store has evolved from itself. -/
theorem evolves_refl (l : List AllocationNode) : Evolves l l :=
  ⟨rfl, fun _ => ⟨rfl, fun h => h, fun h => h⟩⟩

/-- Where the outer loop does not stop in the evolved store, it did not stop in
the original store. -/
theorem not_stopsAt_of_evolves (l0 l : List AllocationNode) (h : Evolves l0 l) (j : Int)
    (hs : ¬ stopsAt l j) : ¬ stopsAt l0 j := by
  obtain ⟨hp, hprev, hnext⟩ := h.2 j
  unfold stopsAt at hs ⊢
  simp only [not_or, not_not, ne_eq] at hs ⊢
  refine ⟨by rw [← hp]; exact hs.1, ?_, ?_⟩
  · by_contra hc
    exact hprev hc hs.2.1
  · by_contra hc
    exact hnext hc hs.2.2

/-- One forward merge continues the evolution of the store. -/
theorem evolves_mergeNextStep (l0 l : List AllocationNode) (c : Int) (h : Evolves l0 l)
    (hm : canMergeNext l c) : Evolves l0 (mergeNextStep l c) := by
  have hc : InRange l c := inRange_of_next_ne_null l c hm.1
  have hcn : c ≠ AllocationId.null := by
    rw [inRange_iff] at hc
    exact ne_null_of_nonneg c hc.1
  refine ⟨by rw [length_mergeNextStep]; exact h.1, ?_⟩
  intro j
  obtain ⟨hp, hprev, hnext⟩ := h.2 j
  obtain ⟨hl1, hl2⟩ := links_mergeNextStep l c j
  refine ⟨by rw [(kind_parent_mergeNextStep l c j).2]; exact hp, ?_, ?_⟩
  · intro h0
    rcases hl1 with e | e
    · rw [e]; exact hprev h0
    · rw [e]; exact hcn
  · intro h0
    rcases hl2 with e | e
    · rw [e]; exact hnext h0
    · exact e

/-- One backward merge continues the evolution of the store. -/
theorem evolves_mergePrevStep (l0 l : List AllocationNode) (c : Int) (h : Evolves l0 l)
    (hm : canMergePrev l c) : Evolves l0 (mergePrevStep l c) := by
  have hc : InRange l c := inRange_of_prev_ne_null l c hm.1
  have hcn : c ≠ AllocationId.null := by
    rw [inRange_iff] at hc
    exact ne_null_of_nonneg c hc.1
  refine ⟨by rw [length_mergePrevStep]; exact h.1, ?_⟩
  intro j
  obtain ⟨hp, hprev, hnext⟩ := h.2 j
  obtain ⟨hl1, hl2⟩ := links_mergePrevStep l c j
  refine ⟨by rw [(kind_parent_mergePrevStep l c j).2]; exact hp, ?_, ?_⟩
  · intro h0
    rcases hl2 with e | e
    · rw [e]; exact hprev h0
    · exact e
  · intro h0
    rcases hl1 with e | e
    · rw [e]; exact hnext h0
    · rw [e]; exact hcn

/-- The parent collapse continues the evolution of the store. -/
theorem evolves_collapseStep (l0 l : List AllocationNode) (c : Int) (h : Evolves l0 l)
    (hs : ¬ stopsAt l c) : Evolves l0 (collapseStep l c) := by
  have hp : (getNode l c).parent ≠ AllocationId.null := fun h => hs (Or.inl h)
  have hc : InRange l c := inRange_of_parent_ne_null l c hp
  refine ⟨by rw [length_collapseStep]; exact h.1, ?_⟩
  intro j
  obtain ⟨hp, hprev, hnext⟩ := h.2 j
  obtain ⟨e1, e2, e3, _⟩ := getNode_collapseStep l c j hc
  rw [e1, e2, e3]
  exact ⟨hp, hprev, hnext⟩

/-- The whole outer loop continues the evolution of the store. -/
theorem evolves_deallocateLoop (l0 : List AllocationNode) (fuel : Nat)
    (l : List AllocationNode) (c : Int) (l1 : List AllocationNode) (h : Evolves l0 l)
    (hloop : deallocateLoop fuel l c = some l1) : Evolves l0 l1 := by
  obtain ⟨_, hres, _⟩ := deallocateLoop_induct (fun l _ => Evolves l0 l)
    (fun l c hl hm => evolves_mergeNextStep l0 l c hl hm)
    (fun l c hl hm => evolves_mergePrevStep l0 l c hl hm)
    (fun l c hl hs => evolves_collapseStep l0 l c hl hs)
    fuel l c l1 h hloop
  exact hres

/-- The outer loop ends: each parent collapse moves to a node of smaller rank,
and each merge loop ends within as many iterations as there are slots. -/
theorem deallocateLoop_terminates (rank : Int → Nat) (l0 : List AllocationNode)
    (hrank : rankDecreases rank l0) :
    ∀ (fuel : Nat) (l : List AllocationNode) (c : Int), Evolves l0 l →
      l0.length + (if stopsAt l0 c then 0 else rank c + 1) < fuel →
      ∃ l1, deallocateLoop fuel l c = some l1 := by
  intro fuel
  induction fuel with
  | zero => intro l c _ h; omega
  | succ n ih =>
    intro l c hev hfuel
    rw [deallocateLoop_succ]
    have hlenA : freeCount l < n + 1 := by
      have := freeCount_le_length l
      have := hev.1
      omega
    obtain ⟨lA, hA⟩ := mergeNext_terminates c (n + 1) l hlenA
    rw [hA]
    simp only []
    have hevA : Evolves l0 lA :=
      mergeNext_induct (fun l => Evolves l0 l) c
        (fun l hl hm => evolves_mergeNextStep l0 l c hl hm) _ _ _ hev hA
    have hlenB : freeCount lA < n + 1 := by
      have := freeCount_le_length lA
      have := hevA.1
      omega
    obtain ⟨lB, hB⟩ := mergePrev_terminates c (n + 1) lA hlenB
    rw [hB]
    simp only []
    have hevB : Evolves l0 lB :=
      mergePrev_induct (fun l => Evolves l0 l) c
        (fun l hl hm => evolves_mergePrevStep l0 l c hl hm) _ _ _ hevA hB
    by_cases hs : stopsAt lB c
    · rw [if_pos hs]
      exact ⟨lB, rfl⟩
    · rw [if_neg hs]
      have hs0 : ¬ stopsAt l0 c := not_stopsAt_of_evolves l0 lB hevB c hs
      rw [if_neg hs0] at hfuel
      have hpar : (getNode lB c).parent = (getNode l0 c).parent := (hevB.2 c).1
      apply ih _ _ (evolves_collapseStep l0 lB c hevB hs)
      rw [hpar]
      by_cases hsp : stopsAt l0 (getNode l0 c).parent
      · rw [if_pos hsp]
        omega
      · rw [if_neg hsp]
        have := hrank c hs0 hsp
        omega

/-- Whether the outer loop stops at a slot depends on the content of the slot
only. -/
theorem stopsAt_congr (l l1 : List AllocationNode) (j : Int)
    (h : getNode l1 j = getNode l j) : stopsAt l1 j ↔ stopsAt l j := by
  unfold stopsAt
  rw [h]

/-- After the split path the outer loop of `deallocate` would stop at the
selected node, if it stopped there before. -/
theorem stopsAt_allocateSplit_selected (d : AllocatorPrivate) (k : Int) (size : QSize)
    (hk : InRange d.nodes k) (hst : (getNode d.nodes k).status ≠ Status.Deleted)
    (hJ : stopsAt d.nodes k) : stopsAt (allocateSplit d k size).2.nodes k := by
  unfold stopsAt at hJ ⊢
  rw [getNode_allocateSplit d k size hk hst k, if_pos rfl]
  rcases hJ with h | h | h
  · exact Or.inl h
  · exact Or.inr (Or.inl h)
  · right; right
    show (if (allocateSplitIds d k size).2.2 ≠ AllocationId.null then
      (allocateSplitIds d k size).2.2 else (getNode d.nodes k).nextSibling) ≠ AllocationId.null
    split
    · assumption
    · exact h

/-- The slots after the split path: the outer loop of `deallocate` would stop
at the slot, or the slot holds the allocated node, or it is as before. -/
theorem allocateSplit_slot (d : AllocatorPrivate) (k : Int) (size : QSize)
    (hk : InRange d.nodes k) (hst : (getNode d.nodes k).status ≠ Status.Deleted)
    (hJ : stopsAt d.nodes k) (j : Int) :
    stopsAt (allocateSplit d k size).2.nodes j ∨
    (j = (allocateSplitIds d k size).1 ∧
      getNode (allocateSplit d k size).2.nodes j = allocatedNode d k size) ∨
    (j ≠ (allocateSplitIds d k size).1 ∧
      getNode (allocateSplit d k size).2.nodes j = getNode d.nodes j) := by
  obtain ⟨ha0, _, _, _, _, _, _, _⟩ := allocateSplitIds_spec d k size
  have hkn : k ≠ AllocationId.null := by
    rw [inRange_iff] at hk
    exact ne_null_of_nonneg k hk.1
  by_cases h1 : j = k
  · left
    rw [h1]
    exact stopsAt_allocateSplit_selected d k size hk hst hJ
  · by_cases h2 : (allocateSplitIds d k size).2.2 ≠ AllocationId.null ∧
        j = (allocateSplitIds d k size).2.2
    · left
      unfold stopsAt
      rw [getNode_allocateSplit d k size hk hst j, if_neg h1, if_pos h2]
      exact Or.inr (Or.inl hkn)
    · by_cases h3 : (allocateSplitIds d k size).2.1 ≠ AllocationId.null ∧
          j = (allocateSplitIds d k size).2.1
      · left
        unfold stopsAt
        rw [getNode_allocateSplit d k size hk hst j, if_neg h1, if_neg h2, if_pos h3]
        exact Or.inr (Or.inl (ne_null_of_nonneg _ ha0))
      · by_cases h4 : j = (allocateSplitIds d k size).1
        · right; left
          refine ⟨h4, ?_⟩
          rw [getNode_allocateSplit d k size hk hst j, if_neg h1, if_neg h2, if_neg h3, if_pos h4]
        · right; right
          refine ⟨h4, ?_⟩
          rw [getNode_allocateSplit d k size hk hst j, if_neg h1, if_neg h2, if_neg h3, if_neg h4]

/-- The split path keeps the property that the outer loop of `deallocate`
would stop at every free leaf. -/
theorem freeLeavesStop_allocateSplit (d : AllocatorPrivate) (k : Int) (size : QSize)
    (hk : InRange d.nodes k) (hkind : (getNode d.nodes k).kind = Kind.Leaf)
    (hfree : (getNode d.nodes k).status = Status.Free) (hJ : freeLeavesStop d.nodes) :
    freeLeavesStop (allocateSplit d k size).2.nodes := by
  have hst : (getNode d.nodes k).status ≠ Status.Deleted := by rw [hfree]; decide
  intro j hjk hjs
  rcases allocateSplit_slot d k size hk hst (hJ k hkind hfree) j with h | ⟨_, h⟩ | ⟨_, h⟩
  · exact h
  · rw [h] at hjs
    cases hjs
  · rw [h] at hjk hjs
    exact (stopsAt_congr _ _ j h).mpr (hJ j hjk hjs)

/-- The split path keeps the existence of a rank that decreases along the
parent links. -/
theorem rankDecreases_allocateSplit (d : AllocatorPrivate) (k : Int) (size : QSize)
    (hk : InRange d.nodes k) (hkind : (getNode d.nodes k).kind = Kind.Leaf)
    (hfree : (getNode d.nodes k).status = Status.Free) (hJ : freeLeavesStop d.nodes)
    (rank : Int → Nat) (hr : rankDecreases rank d.nodes) :
    rankDecreases (fun j => if j = (allocateSplitIds d k size).1 then 0 else rank j + 1)
      (allocateSplit d k size).2.nodes := by
  have hst : (getNode d.nodes k).status ≠ Status.Deleted := by rw [hfree]; decide
  have hJk := hJ k hkind hfree
  have hSk := stopsAt_allocateSplit_selected d k size hk hst hJk
  intro j hns hnsp
  rcases allocateSplit_slot d k size hk hst hJk j with h | ⟨_, h⟩ | ⟨hja, h⟩
  · exact absurd h hns
  · rw [h] at hnsp
    exact absurd hSk hnsp
  · rw [h] at hnsp ⊢
    have hns0 : ¬ stopsAt d.nodes j := fun hc => hns ((stopsAt_congr _ _ j h).mpr hc)
    rcases allocateSplit_slot d k size hk hst hJk (getNode d.nodes j).parent with
      hp | ⟨hpa, _⟩ | ⟨hpa, hp⟩
    · exact absurd hp hnsp
    · simp only [if_pos hpa, if_neg hja]
      omega
    · have hnsp0 : ¬ stopsAt d.nodes (getNode d.nodes j).parent :=
        fun hc => hnsp ((stopsAt_congr _ _ _ hp).mpr hc)
      have := hr j hns0 hnsp0
      simp only [if_neg hpa, if_neg hja]
      omega

/-- Marking the selected node Occupied changes no link and no parent. -/
theorem stopsAt_updNode_withStatus (l : List AllocationNode) (k j : Int) (s : Status) :
    stopsAt (updNode l k (fun n => n.withStatus s)) j ↔ stopsAt l j := by
  unfold stopsAt
  rw [parent_updNode_withStatus, prev_updNode_withStatus, next_updNode_withStatus]

/-- `allocate` keeps the property that the outer loop of `deallocate` would
stop at every free leaf, and the existence of a rank that decreases along the
parent links. -/
theorem terminationInv_allocate (d : AllocatorPrivate) (size : QSize)
    (hJ : freeLeavesStop d.nodes) (hr : ∃ rank : Int → Nat, rankDecreases rank d.nodes) :
    freeLeavesStop (allocate d size).2.nodes ∧
    ∃ rank : Int → Nat, rankDecreases rank (allocate d size).2.nodes := by
  obtain ⟨rank, hr⟩ := hr
  rcases allocate_cases d size with h | ⟨_, hin, hel, ⟨_, h⟩ | ⟨_, h⟩⟩
  · rw [h]
    exact ⟨hJ, rank, hr⟩
  · rw [h]
    refine ⟨?_, rank, ?_⟩
    · intro j hjk hjs
      rw [stopsAt_updNode_withStatus]
      rw [kind_updNode_withStatus] at hjk
      rw [getNode_updNode] at hjs
      split at hjs
      · cases hjs
      · exact hJ j hjk hjs
    · intro j hns hnsp
      simp only [stopsAt_updNode_withStatus, parent_updNode_withStatus] at hns hnsp ⊢
      exact hr j hns hnsp
  · rw [h]
    exact ⟨freeLeavesStop_allocateSplit d _ size hin hel.1 hel.2.1 hJ,
      _, rankDecreases_allocateSplit d _ size hin hel.1 hel.2.1 hJ rank hr⟩

/-- One forward merge keeps the property that the outer loop would stop at
every free leaf other than the current node. -/
theorem freeLeavesStopBut_mergeNextStep (l : List AllocationNode) (c : Int)
    (hJ : ∀ j : Int, j ≠ c → (getNode l j).kind = Kind.Leaf →
      (getNode l j).status = Status.Free → stopsAt l j)
    (hm : canMergeNext l c) :
    ∀ j : Int, j ≠ c → (getNode (mergeNextStep l c) j).kind = Kind.Leaf →
      (getNode (mergeNextStep l c) j).status = Status.Free → stopsAt (mergeNextStep l c) j := by
  have hc : InRange l c := inRange_of_next_ne_null l c hm.1
  have hcn : c ≠ AllocationId.null := by
    rw [inRange_iff] at hc
    exact ne_null_of_nonneg c hc.1
  have hn : InRange l (getNode l c).nextSibling := inRange_of_kind_leaf l _ hm.2.1
  intro j hjc hjk hjs
  rw [(kind_parent_mergeNextStep l c j).1] at hjk
  rw [status_mergeNextStep l c j hn] at hjs
  split at hjs
  · cases hjs
  · have hold := hJ j hjc hjk hjs
    obtain ⟨hl1, hl2⟩ := links_mergeNextStep l c j
    unfold stopsAt at hold ⊢
    rw [(kind_parent_mergeNextStep l c j).2]
    rcases hl1 with e1 | e1
    · rcases hl2 with e2 | e2
      · rw [e1, e2]; exact hold
      · exact Or.inr (Or.inr e2)
    · right; left
      rw [e1]; exact hcn

/-- One backward merge keeps the property that the outer loop would stop at
every free leaf other than the current node. -/
theorem freeLeavesStopBut_mergePrevStep (l : List AllocationNode) (c : Int)
    (hJ : ∀ j : Int, j ≠ c → (getNode l j).kind = Kind.Leaf →
      (getNode l j).status = Status.Free → stopsAt l j)
    (hm : canMergePrev l c) :
    ∀ j : Int, j ≠ c → (getNode (mergePrevStep l c) j).kind = Kind.Leaf →
      (getNode (mergePrevStep l c) j).status = Status.Free → stopsAt (mergePrevStep l c) j := by
  have hc : InRange l c := inRange_of_prev_ne_null l c hm.1
  have hcn : c ≠ AllocationId.null := by
    rw [inRange_iff] at hc
    exact ne_null_of_nonneg c hc.1
  have hn : InRange l (getNode l c).prevSibling := inRange_of_kind_leaf l _ hm.2.1
  intro j hjc hjk hjs
  rw [(kind_parent_mergePrevStep l c j).1] at hjk
  rw [status_mergePrevStep l c j hn] at hjs
  split at hjs
  · cases hjs
  · have hold := hJ j hjc hjk hjs
    obtain ⟨hl1, hl2⟩ := links_mergePrevStep l c j
    unfold stopsAt at hold ⊢
    rw [(kind_parent_mergePrevStep l c j).2]
    rcases hl1 with e1 | e1
    · rcases hl2 with e2 | e2
      · rw [e1, e2]; exact hold
      · exact Or.inr (Or.inl e2)
    · right; right
      rw [e1]; exact hcn

/-- The parent collapse keeps the property that the outer loop would stop at
every free leaf other than the current node, which is then the parent. -/
theorem freeLeavesStopBut_collapseStep (l : List AllocationNode) (c : Int)
    (hJ : ∀ j : Int, j ≠ c → (getNode l j).kind = Kind.Leaf →
      (getNode l j).status = Status.Free → stopsAt l j)
    (hs : ¬ stopsAt l c) :
    ∀ j : Int, j ≠ (getNode l c).parent → (getNode (collapseStep l c) j).kind = Kind.Leaf →
      (getNode (collapseStep l c) j).status = Status.Free → stopsAt (collapseStep l c) j := by
  have hp : (getNode l c).parent ≠ AllocationId.null := fun h => hs (Or.inl h)
  have hc : InRange l c := inRange_of_parent_ne_null l c hp
  intro j hjp hjk hjs
  obtain ⟨e1, e2, e3, e4, e5, e6, _⟩ := getNode_collapseStep l c j hc
  by_cases hjc : j = c
  · rw [e6 hjc] at hjs
    cases hjs
  · rw [e4 hjp] at hjk
    rw [e5 hjp hjc] at hjs
    have hold := hJ j hjc hjk hjs
    unfold stopsAt at hold ⊢
    rw [e1, e2, e3]
    exact hold

/-- `deallocate` keeps the property that the outer loop would stop at every
free leaf. -/
theorem freeLeavesStop_deallocate (fuel : Nat) (d d1 : AllocatorPrivate) (id : Int)
    (hJ : freeLeavesStop d.nodes) (h : deallocate fuel d id = some d1) :
    freeLeavesStop d1.nodes := by
  obtain ⟨_, hloop⟩ := deallocate_eq_some fuel d d1 id h
  have h0 : ∀ j : Int, j ≠ id →
      (getNode (updNode d.nodes id (fun n => n.withStatus Status.Free)) j).kind = Kind.Leaf →
      (getNode (updNode d.nodes id (fun n => n.withStatus Status.Free)) j).status = Status.Free →
      stopsAt (updNode d.nodes id (fun n => n.withStatus Status.Free)) j := by
    intro j hj hjk hjs
    rw [stopsAt_updNode_withStatus]
    rw [kind_updNode_withStatus] at hjk
    rw [getNode_updNode, if_neg (fun hc => hj hc.1)] at hjs
    exact hJ j hjk hjs
  obtain ⟨c1, hres, hstop⟩ := deallocateLoop_induct
    (fun l c => ∀ j : Int, j ≠ c → (getNode l j).kind = Kind.Leaf →
      (getNode l j).status = Status.Free → stopsAt l j)
    (fun l c hl hm => freeLeavesStopBut_mergeNextStep l c hl hm)
    (fun l c hl hm => freeLeavesStopBut_mergePrevStep l c hl hm)
    (fun l c hl hs => freeLeavesStopBut_collapseStep l c hl hs)
    fuel _ id _ h0 hloop
  intro j hjk hjs
  by_cases hj : j = c1
  · rw [hj]; exact hstop
  · exact hres j hj hjk hjs

/-- Marking a node Free starts the evolution of the store. -/
theorem evolves_updNode_withStatus (l : List AllocationNode) (id : Int) (s : Status) :
    Evolves l (updNode l id (fun n => n.withStatus s)) := by
  refine ⟨length_updNode _ _ _, ?_⟩
  intro j
  rw [parent_updNode_withStatus, prev_updNode_withStatus, next_updNode_withStatus]
  exact ⟨rfl, fun h => h, fun h => h⟩

/-- A rank that decreases along the parent links of a store does so in every
store evolved from it. -/
theorem rankDecreases_of_evolves (rank : Int → Nat) (l0 l : List AllocationNode)
    (hev : Evolves l0 l) (hr : rankDecreases rank l0) : rankDecreases rank l := by
  intro j hns hnsp
  have hp : (getNode l j).parent = (getNode l0 j).parent := (hev.2 j).1
  rw [hp] at hnsp ⊢
  exact hr j (not_stopsAt_of_evolves l0 l hev j hns)
    (not_stopsAt_of_evolves l0 l hev _ hnsp)

/-- `deallocate` keeps a rank that decreases along the parent links. -/
theorem rankDecreases_deallocate (fuel : Nat) (d d1 : AllocatorPrivate) (id : Int)
    (rank : Int → Nat) (hr : rankDecreases rank d.nodes)
    (h : deallocate fuel d id = some d1) : rankDecreases rank d1.nodes := by
  obtain ⟨_, hloop⟩ := deallocate_eq_some fuel d d1 id h
  exact rankDecreases_of_evolves rank d.nodes d1.nodes
    (evolves_deallocateLoop d.nodes fuel _ id _ (evolves_updNode_withStatus d.nodes id _) hloop) hr

/-- In every reachable state the outer loop of `deallocate` would stop at every
free leaf, and some rank decreases along the parent links between the slots at
which it would not stop. -/
theorem reachable_terminationInv (size : QSize) (c : Client) (hc : Reachable size c) :
    freeLeavesStop c.d.nodes ∧ ∃ rank : Int → Nat, rankDecreases rank c.d.nodes := by
  induction hc with
  | fresh =>
    have hroot : ∀ j : Int, stopsAt (Client.fresh size).d.nodes j := by
      intro j
      left
      by_cases hj : InRange (Client.fresh size).d.nodes j
      · have hj0 : j = 0 := by
          rw [inRange_iff] at hj
          simp [Client.fresh, Allocator] at hj
          omega
        subst hj0
        rfl
      · rw [getNode_of_not_inRange _ j hj]
        rfl
    exact ⟨fun j _ _ => hroot j, fun _ => 0, fun j hns _ => absurd (hroot j) hns⟩
  | step fuel c c1 op _ hstep ih =>
    obtain ⟨ihJ, ihr⟩ := ih
    cases op with
    | allocate sz =>
      simp only [Client.step, Option.some.injEq] at hstep
      subst hstep
      exact terminationInv_allocate c.d sz ihJ ihr
    | deallocate id =>
      simp only [Client.step] at hstep
      split at hstep
      · cases hd : deallocate fuel c.d id with
        | none => rw [hd] at hstep; cases hstep
        | some d1 =>
          rw [hd] at hstep
          simp only [Option.map_some', Option.some.injEq] at hstep
          subst hstep
          obtain ⟨rank, hr⟩ := ihr
          exact ⟨freeLeavesStop_deallocate fuel c.d d1 id ihJ hd,
            rank, rankDecreases_deallocate fuel c.d d1 id rank hr hd⟩
      · cases hstep

/-- C20. `deallocate` terminates: for every reachable state and every id (in
particular every id returned by an earlier `allocate` and not yet deallocated)
there is a number of iterations within which the merge-and-collapse loop of
`deallocate(id)` finishes: with that much fuel or more the call returns a
state. -/
theorem deallocate_terminates (size : QSize) (c : Client) (hc : Reachable size c) (id : Int) :
    ∃ bound : Nat, ∀ fuel : Nat, bound ≤ fuel → ∃ d1, deallocate fuel c.d id = some d1 := by
  obtain ⟨_, rank, hr⟩ := reachable_terminationInv size c hc
  have hev := evolves_updNode_withStatus c.d.nodes id Status.Free
  have hr0 : rankDecreases rank (updNode c.d.nodes id (fun n => n.withStatus Status.Free)) :=
    rankDecreases_of_evolves rank _ _ hev hr
  refine ⟨c.d.nodes.length + rank id + 2, ?_⟩
  intro fuel hfuel
  obtain ⟨l1, hl1⟩ := deallocateLoop_terminates rank _ hr0 fuel _ id (evolves_refl _) (by
    rw [length_updNode]
    split <;> omega)
  refine ⟨⟨l1, c.d.size⟩, ?_⟩
  have hl : deallocateLoop fuel (setNode c.d.nodes id
      { getNode c.d.nodes id with status := Status.Free }) id = some l1 := hl1
  unfold deallocate
  simp only [hl, Option.map_some']

/-! ## The theorems on reachable states at a concrete state -/

/-- The example state is reachable. -/
theorem exampleClient_reachable : Reachable ⟨3, 3⟩ exampleClient :=
  Reachable.step 0 (Client.fresh ⟨3, 3⟩) exampleClient (Op.allocate ⟨1, 1⟩) Reachable.fresh
    (by decide)

/-- The 3x3 allocator after allocate(1,1) as an instance of `leaves_not_degenerate`. -/
theorem leaves_not_degenerate_witness :
    (0 : Int) < 3 ∧ Reachable ⟨3, 3⟩ exampleClient ∧
    ((∀ n ∈ exampleClient.d.nodes, n.kind = Kind.Leaf → n.status ≠ Status.Deleted →
      1 ≤ n.rect.width ∧ 1 ≤ n.rect.height) ∧
    (∀ request : QSize, request.isEmpty = false →
      selectFreeNode exampleClient.d request ≠ AllocationId.null →
      (getNode exampleClient.d.nodes (selectFreeNode exampleClient.d request)).rect.size ≠
        request →
      ((allocateSplitIds exampleClient.d (selectFreeNode exampleClient.d request) request).2.1 ≠
          AllocationId.null ↔
        (guillotine (getNode exampleClient.d.nodes
            (selectFreeNode exampleClient.d request)).rect request
          (getNode exampleClient.d.nodes
            (selectFreeNode exampleClient.d request)).orientation).2.1.isEmpty = false) ∧
      ((allocateSplitIds exampleClient.d (selectFreeNode exampleClient.d request) request).2.2 ≠
          AllocationId.null ↔
        (guillotine (getNode exampleClient.d.nodes
            (selectFreeNode exampleClient.d request)).rect request
          (getNode exampleClient.d.nodes
            (selectFreeNode exampleClient.d request)).orientation).2.2.isEmpty = false) ∧
      ((allocateSplitIds exampleClient.d (selectFreeNode exampleClient.d request) request).2.2 ≠
          AllocationId.null →
        getNode (allocate exampleClient.d request).2.nodes
            (allocateSplitIds exampleClient.d (selectFreeNode exampleClient.d request)
              request).2.2 =
          splitNode exampleClient.d (selectFreeNode exampleClient.d request) request) ∧
      ((allocateSplitIds exampleClient.d (selectFreeNode exampleClient.d request) request).2.1 ≠
          AllocationId.null →
        (allocateSplitIds exampleClient.d (selectFreeNode exampleClient.d request) request).2.1 ≠
          (allocateSplitIds exampleClient.d (selectFreeNode exampleClient.d request)
            request).2.2 →
        getNode (allocate exampleClient.d request).2.nodes
            (allocateSplitIds exampleClient.d (selectFreeNode exampleClient.d request)
              request).2.1 =
          leftoverNode exampleClient.d (selectFreeNode exampleClient.d request) request))) :=
  ⟨by decide, exampleClient_reachable,
   leaves_not_degenerate ⟨3, 3⟩ (by decide) (by decide) exampleClient exampleClient_reachable⟩

/-- C19 on the 3x3 allocator after allocate(1,1), for the request (2,1). -/
theorem allocation_inside_canvas_witness :
    (0 : Int) < 3 ∧ Reachable ⟨3, 3⟩ exampleClient ∧
    (allocate exampleClient.d ⟨2, 1⟩).1.isNull = false ∧
    ((allocate exampleClient.d ⟨2, 1⟩).1.rect.width = 2 ∧
      (allocate exampleClient.d ⟨2, 1⟩).1.rect.height = 1 ∧
      0 ≤ (allocate exampleClient.d ⟨2, 1⟩).1.rect.x ∧
      0 ≤ (allocate exampleClient.d ⟨2, 1⟩).1.rect.y ∧
      (allocate exampleClient.d ⟨2, 1⟩).1.rect.x + 2 ≤ 3 ∧
      (allocate exampleClient.d ⟨2, 1⟩).1.rect.y + 1 ≤ 3) :=
  ⟨by decide, exampleClient_reachable, by decide,
   allocation_inside_canvas ⟨3, 3⟩ (by decide) (by decide) exampleClient
     exampleClient_reachable ⟨2, 1⟩ (by decide)⟩

/-- C20 on the 3x3 allocator after allocate(1,1), for the live id 1. -/
theorem deallocate_terminates_witness :
    Reachable ⟨3, 3⟩ exampleClient ∧
    ∃ bound : Nat, ∀ fuel : Nat, bound ≤ fuel →
      ∃ d1, deallocate fuel exampleClient.d 1 = some d1 :=
  ⟨exampleClient_reachable, deallocate_terminates ⟨3, 3⟩ exampleClient exampleClient_reachable 1⟩

/-! ## The root in allocation-only use -/

/-- After construction the root is kept. -/
theorem rootKept_Allocator (size : QSize) : rootKept size (Allocator size).nodes := by
  have hlen0 : ((Allocator size).nodes.length : Int) = 1 := rfl
  refine ⟨(inRange_iff _ _).mpr ⟨le_refl _, by omega⟩, ?_, rfl, rfl, rfl, ?_⟩
  · show Status.Free ≠ Status.Deleted
    decide
  intro j hj _ _
  rw [inRange_iff] at hj
  have hlen : ((Allocator size).nodes.length : Int) = 1 := rfl
  omega

/-- The status written by `withStatus`. -/
theorem status_updNode_occupied_ne_deleted (l : List AllocationNode) (k j : Int)
    (h : (getNode l j).status ≠ Status.Deleted) :
    (getNode (updNode l k (fun n => n.withStatus Status.Occupied)) j).status ≠ Status.Deleted := by
  rw [getNode_updNode]
  by_cases hc : j = k ∧ InRange l k
  · rw [if_pos hc]
    simp [AllocationNode.withStatus]
  · rw [if_neg hc]
    exact h

/-- `allocate` keeps the root. -/
theorem rootKept_allocate (canvas : QSize) (d : AllocatorPrivate) (size : QSize)
    (hv : rootKept canvas d.nodes) : rootKept canvas (allocate d size).2.nodes := by
  obtain ⟨h0, hs0, hp0, hq0, hr0, huniq⟩ := hv
  rcases allocate_cases d size with h | ⟨he, hin, hel, ⟨_, h⟩ | ⟨_, h⟩⟩
  · rw [h]
    exact ⟨h0, hs0, hp0, hq0, hr0, huniq⟩
  · rw [h]
    unfold rootKept
    simp only [inRange_updNode, rect_updNode_withStatus, parent_updNode_withStatus,
      prev_updNode_withStatus]
    exact ⟨h0, status_updNode_occupied_ne_deleted _ _ _ hs0, hp0, hq0, hr0, huniq⟩
  · rw [h]
    unfold rootKept
    obtain ⟨hkind, hfree, hw, hh⟩ := hel
    have hst : (getNode d.nodes (selectFreeNode d size)).status ≠ Status.Deleted := by
      rw [hfree]; decide
    have hk0 : (0 : Int) ≤ selectFreeNode d size := ((inRange_iff _ _).mp hin).1
    have hknull : selectFreeNode d size ≠ AllocationId.null := ne_null_of_nonneg _ hk0
    obtain ⟨_, _, _, ha, hlf, hsp, _, hrange⟩ :=
      allocateSplitIds_spec d (selectFreeNode d size) size
    have hslot : ∀ j : Int, InRange d.nodes j → (getNode d.nodes j).status ≠ Status.Deleted →
        (getNode (allocateSplit d (selectFreeNode d size) size).2.nodes j).status
            ≠ Status.Deleted ∧
        (getNode (allocateSplit d (selectFreeNode d size) size).2.nodes j).parent
            = (getNode d.nodes j).parent ∧
        (getNode (allocateSplit d (selectFreeNode d size) size).2.nodes j).prevSibling
            = (getNode d.nodes j).prevSibling ∧
        (getNode (allocateSplit d (selectFreeNode d size) size).2.nodes j).rect
            = (getNode d.nodes j).rect := by
      intro j hj hjs
      rw [getNode_allocateSplit d _ size hin hst j]
      by_cases h1 : j = selectFreeNode d size
      · rw [if_pos h1, h1]
        exact ⟨hst, rfl, rfl, rfl⟩
      · rw [if_neg h1]
        by_cases h2 : (allocateSplitIds d (selectFreeNode d size) size).2.2 ≠ AllocationId.null ∧
            j = (allocateSplitIds d (selectFreeNode d size) size).2.2
        · exact absurd (hsp h2.1 (h2.2 ▸ hj)) (h2.2 ▸ hjs)
        · rw [if_neg h2]
          by_cases h3 : (allocateSplitIds d (selectFreeNode d size) size).2.1 ≠ AllocationId.null ∧
              j = (allocateSplitIds d (selectFreeNode d size) size).2.1
          · exact absurd (hlf h3.1 (h3.2 ▸ hj)) (h3.2 ▸ hjs)
          · rw [if_neg h3]
            by_cases h4 : j = (allocateSplitIds d (selectFreeNode d size) size).1
            · exact absurd (ha (h4 ▸ hj)) (h4 ▸ hjs)
            · rw [if_neg h4]
              exact ⟨hjs, rfl, rfl, rfl⟩
    obtain ⟨n1, n2, n3, n4⟩ := hslot 0 h0 hs0
    refine ⟨?_, n1, n2.trans hp0, n3.trans hq0, n4.trans hr0, ?_⟩
    · rw [inRange_allocateSplit, hrange]
      exact Or.inl h0
    · intro j hj hpar hprev
      rw [getNode_allocateSplit d _ size hin hst j] at hpar hprev
      rw [inRange_allocateSplit, hrange] at hj
      by_cases h1 : j = selectFreeNode d size
      · rw [if_pos h1] at hpar hprev
        exact huniq j (h1 ▸ hin) (h1 ▸ hpar) (h1 ▸ hprev)
      · rw [if_neg h1] at hpar hprev
        by_cases h2 : (allocateSplitIds d (selectFreeNode d size) size).2.2 ≠ AllocationId.null ∧
            j = (allocateSplitIds d (selectFreeNode d size) size).2.2
        · rw [if_pos h2] at hprev
          exact absurd hprev hknull
        · rw [if_neg h2] at hpar hprev
          by_cases h3 : (allocateSplitIds d (selectFreeNode d size) size).2.1 ≠ AllocationId.null ∧
              j = (allocateSplitIds d (selectFreeNode d size) size).2.1
          · rw [if_pos h3] at hpar
            exact absurd hpar hknull
          · rw [if_neg h3] at hpar hprev
            by_cases h4 : j = (allocateSplitIds d (selectFreeNode d size) size).1
            · rw [if_pos h4] at hpar
              exact absurd hpar hknull
            · rw [if_neg h4] at hpar hprev
              rcases hj with hj | hj | hj | hj
              · exact huniq j hj hpar hprev
              · exact absurd hj h4
              · exact absurd hj h3
              · exact absurd hj h2

/-- The canvas size after a sequence of `allocate` calls. -/
theorem allocateAll_size (sizes : List QSize) (d : AllocatorPrivate) :
    (allocateAll d sizes).1.size = d.size := by
  induction sizes generalizing d with
  | nil => rfl
  | cons s rest ih =>
    show (allocateAll (allocate d s).2 rest).1.size = d.size
    rw [ih, allocate_size]

/-- A sequence of `allocate` calls keeps the root. -/
theorem rootKept_allocateAll (canvas : QSize) (sizes : List QSize) (d : AllocatorPrivate)
    (hv : rootKept canvas d.nodes) : rootKept canvas (allocateAll d sizes).1.nodes := by
  induction sizes generalizing d with
  | nil => exact hv
  | cons s rest ih => exact ih (allocate d s).2 (rootKept_allocate canvas d s hv)

/-- C12, amended. In allocation-only use the root is kept: after any sequence
of `allocate` calls on a freshly constructed allocator, node 0 exists, is not
Deleted, has parent = null and prevSibling = null and its rect is the canvas
(0,0,W,H); and every node with parent = null is node 0 or has prevSibling
different from null, so node 0 is the only node with parent = null and
prevSibling = null. -/
theorem root_kept_by_allocate (size : QSize) (sizes : List QSize) :
    InRange (allocateAll (Allocator size) sizes).1.nodes 0 ∧
    (getNode (allocateAll (Allocator size) sizes).1.nodes 0).status ≠ Status.Deleted ∧
    (getNode (allocateAll (Allocator size) sizes).1.nodes 0).parent = AllocationId.null ∧
    (getNode (allocateAll (Allocator size) sizes).1.nodes 0).prevSibling = AllocationId.null ∧
    (getNode (allocateAll (Allocator size) sizes).1.nodes 0).rect = QRect.ofTopLeft 0 0 size ∧
    ∀ j : Int, InRange (allocateAll (Allocator size) sizes).1.nodes j →
      (getNode (allocateAll (Allocator size) sizes).1.nodes j).parent = AllocationId.null →
      j = 0 ∨ (getNode (allocateAll (Allocator size) sizes).1.nodes j).prevSibling
        ≠ AllocationId.null := by
  obtain ⟨h0, hs0, hp0, hq0, hr0, huniq⟩ :=
    rootKept_allocateAll size sizes (Allocator size) (rootKept_Allocator size)
  refine ⟨h0, hs0, hp0, hq0, hr0, ?_⟩
  intro j hj hpar
  by_cases hq : (getNode (allocateAll (Allocator size) sizes).1.nodes j).prevSibling
      = AllocationId.null
  · exact Or.inl (huniq j hj hpar hq)
  · exact Or.inr hq

/-! ## Allocation-only use: the leaves partition the canvas -/

/-- Without a Deleted slot `allocateNode` appends a slot. -/
theorem allocateNode_fresh (l : List AllocationNode)
    (hnd : ∀ j : Int, InRange l j → (getNode l j).status ≠ Status.Deleted) :
    allocateNode l = ((l.length : Int), l ++ [default]) :=
  (allocateNode_spec l).2.2.2.2 hnd

/-- Appending a default slot adds no Deleted slot. -/
theorem noDeleted_append_default (l : List AllocationNode)
    (hnd : ∀ j : Int, InRange l j → (getNode l j).status ≠ Status.Deleted) :
    ∀ j : Int, InRange (l ++ [default]) j →
      (getNode (l ++ [default]) j).status ≠ Status.Deleted := by
  intro j hj
  rw [getNode_append_default]
  rw [inRange_append_one] at hj
  rcases hj with hj | hj
  · exact hnd j hj
  · have hout : ¬ InRange l j := by
      rw [inRange_iff]
      omega
    rw [getNode_of_not_inRange l j hout]
    show Status.Free ≠ Status.Deleted
    decide

/-- The three calls of `allocateNode` on the split path when no slot is
Deleted: the handles are the next free indices, in the order allocated,
leftover, split. -/
theorem allocateNode_three_fresh (l : List AllocationNode) (b1 b2 : Bool)
    (r1 r2 r3 : AllocationId × List AllocationNode)
    (h1 : r1 = allocateNode l)
    (h2 : r2 = if b1 = true then allocateNode r1.2 else (AllocationId.null, r1.2))
    (h3 : r3 = if b2 = true then allocateNode r2.2 else (AllocationId.null, r2.2))
    (hnd : ∀ j : Int, InRange l j → (getNode l j).status ≠ Status.Deleted) :
    r1.1 = (l.length : Int) ∧
    r2.1 = (if b1 = true then (l.length : Int) + 1 else -1) ∧
    r3.1 = (if b2 = true then (if b1 = true then (l.length : Int) + 2 else (l.length : Int) + 1)
      else -1) := by
  have e1 := allocateNode_fresh l hnd
  have hnd1 := noDeleted_append_default l hnd
  have e2 := allocateNode_fresh (l ++ [default]) hnd1
  have hnd2 := noDeleted_append_default (l ++ [default]) hnd1
  have e3 := allocateNode_fresh (l ++ [default] ++ [default]) hnd2
  rw [e1] at h1
  subst h1
  cases b1 <;> cases b2
  · subst h2; subst h3
    simp [AllocationId.null]
  · subst h2; subst h3
    simp [e2, AllocationId.null]
  · subst h2; subst h3
    simp [e2, AllocationId.null]
  · subst h2; subst h3
    simp only [eq_self_iff_true, if_true, e2, e3, List.length_append, List.length_singleton,
      Nat.cast_add, Nat.cast_one, true_and]
    ring

/-- The handles of the split path when no slot is Deleted. -/
theorem allocateSplitIds_fresh (d : AllocatorPrivate) (k : Int) (size : QSize)
    (hnd : ∀ j : Int, InRange d.nodes j → (getNode d.nodes j).status ≠ Status.Deleted) :
    (allocateSplitIds d k size).1 = (d.nodes.length : Int) ∧
    (allocateSplitIds d k size).2.1 =
      (if (!(guillotine (getNode d.nodes k).rect size
          (getNode d.nodes k).orientation).2.1.isEmpty) = true
        then (d.nodes.length : Int) + 1 else -1) ∧
    (allocateSplitIds d k size).2.2 =
      (if (!(guillotine (getNode d.nodes k).rect size
          (getNode d.nodes k).orientation).2.2.isEmpty) = true
        then (if (!(guillotine (getNode d.nodes k).rect size
            (getNode d.nodes k).orientation).2.1.isEmpty) = true
          then (d.nodes.length : Int) + 2 else (d.nodes.length : Int) + 1)
        else -1) :=
  allocateNode_three_fresh d.nodes _ _ _ _ _ rfl rfl rfl hnd

/-- A rectangle that contains a pixel is not empty. -/
theorem isEmpty_of_containsPoint (r : QRect) (px py : Int)
    (h : r.containsPoint px py = true) : r.isEmpty = false := by
  simp only [QRect.containsPoint, Bool.and_eq_true, decide_eq_true_eq] at h
  simp only [QRect.isEmpty, Bool.or_eq_false_iff, decide_eq_false_iff_not]
  omega

/-- The cut pixel by pixel: a pixel of `bounds` lies in one of the three
rectangles, the three rectangles lie in `bounds`, and no pixel lies in two of
them. -/
theorem guillotine_containsPoint (bounds : QRect) (size : QSize) (axis : Orientation)
    (hw1 : 1 ≤ size.width) (hw2 : size.width ≤ bounds.width)
    (hh1 : 1 ≤ size.height) (hh2 : size.height ≤ bounds.height) (px py : Int) :
    (bounds.containsPoint px py = true ↔
      ((guillotine bounds size axis).1.containsPoint px py = true ∨
        (guillotine bounds size axis).2.1.containsPoint px py = true ∨
        (guillotine bounds size axis).2.2.containsPoint px py = true)) ∧
    ¬ ((guillotine bounds size axis).1.containsPoint px py = true ∧
        (guillotine bounds size axis).2.1.containsPoint px py = true) ∧
    ¬ ((guillotine bounds size axis).1.containsPoint px py = true ∧
        (guillotine bounds size axis).2.2.containsPoint px py = true) ∧
    ¬ ((guillotine bounds size axis).2.1.containsPoint px py = true ∧
        (guillotine bounds size axis).2.2.containsPoint px py = true) := by
  cases axis
  · simp only [guillotine, QRect.containsPoint, QRect.ofTopLeft, Bool.and_eq_true,
      decide_eq_true_eq, if_false, reduceCtorEq]
    omega
  · simp only [guillotine, QRect.containsPoint, QRect.ofTopLeft, Bool.and_eq_true,
      decide_eq_true_eq, if_true]
    omega

/-- The split path when no slot is Deleted, with `a`, `lf`, `sp` the handles
of the allocated, leftover and split node: the handles are new and differ
from one another, and every slot holds the node written to it. -/
theorem allocateSplit_fresh (d : AllocatorPrivate) (k : Int) (size : QSize) (a lf sp : Int)
    (ha : a = (allocateSplitIds d k size).1) (hlf : lf = (allocateSplitIds d k size).2.1)
    (hsp : sp = (allocateSplitIds d k size).2.2)
    (hin : InRange d.nodes k) (hst : (getNode d.nodes k).status ≠ Status.Deleted)
    (hnd : ∀ j : Int, InRange d.nodes j → (getNode d.nodes j).status ≠ Status.Deleted) :
    (¬ InRange d.nodes a) ∧
    (lf ≠ AllocationId.null → ¬ InRange d.nodes lf ∧ lf ≠ a) ∧
    (sp ≠ AllocationId.null → ¬ InRange d.nodes sp ∧ sp ≠ a ∧ sp ≠ lf) ∧
    (lf ≠ AllocationId.null ↔
      (guillotine (getNode d.nodes k).rect size (getNode d.nodes k).orientation).2.1.isEmpty
        = false) ∧
    (sp ≠ AllocationId.null ↔
      (guillotine (getNode d.nodes k).rect size (getNode d.nodes k).orientation).2.2.isEmpty
        = false) ∧
    (∀ j : Int, InRange (allocateSplit d k size).2.nodes j ↔
      InRange d.nodes j ∨ j = a ∨ (lf ≠ AllocationId.null ∧ j = lf) ∨
      (sp ≠ AllocationId.null ∧ j = sp)) ∧
    getNode (allocateSplit d k size).2.nodes k = forkedNode d k size ∧
    getNode (allocateSplit d k size).2.nodes a = allocatedNode d k size ∧
    (lf ≠ AllocationId.null →
      getNode (allocateSplit d k size).2.nodes lf = leftoverNode d k size) ∧
    (sp ≠ AllocationId.null →
      getNode (allocateSplit d k size).2.nodes sp = splitNode d k size) ∧
    (∀ j : Int, InRange d.nodes j → j ≠ k →
      getNode (allocateSplit d k size).2.nodes j = getNode d.nodes j) := by
  obtain ⟨e1, e2, e3⟩ := allocateSplitIds_fresh d k size hnd
  obtain ⟨_, s1, s2, _, _, _, _, hrange⟩ := allocateSplitIds_spec d k size
  rw [← ha] at e1
  rw [← hlf] at e2 s1
  rw [← hsp] at e3 s2
  have e1 : a = (d.nodes.length : Int) := e1
  have e2 : lf = (if (!(guillotine (getNode d.nodes k).rect size
      (getNode d.nodes k).orientation).2.1.isEmpty) = true
      then (d.nodes.length : Int) + 1 else -1) := e2
  have e3 : sp = (if (!(guillotine (getNode d.nodes k).rect size
      (getNode d.nodes k).orientation).2.2.isEmpty) = true
      then (if (!(guillotine (getNode d.nodes k).rect size
        (getNode d.nodes k).orientation).2.1.isEmpty) = true
        then (d.nodes.length : Int) + 2 else (d.nodes.length : Int) + 1)
      else -1) := e3
  have hk := (inRange_iff _ _).mp hin
  have f1 : ¬ InRange d.nodes a := by
    rw [inRange_iff]; omega
  have f2 : lf ≠ AllocationId.null → ¬ InRange d.nodes lf ∧ lf ≠ a := by
    intro hne
    rw [inRange_iff]
    unfold AllocationId.null at hne
    split_ifs at e2 <;> omega
  have f3 : sp ≠ AllocationId.null → ¬ InRange d.nodes sp ∧ sp ≠ a ∧ sp ≠ lf := by
    intro hne
    rw [inRange_iff]
    unfold AllocationId.null at hne
    split_ifs at e2 e3 <;> omega
  have hg := getNode_allocateSplit d k size hin hst
  rw [← ha, ← hlf, ← hsp] at hg
  have hak : a ≠ k := fun h => f1 (h ▸ hin)
  refine ⟨f1, f2, f3, s1, s2, ?_, ?_, ?_, ?_, ?_, ?_⟩
  · intro j
    rw [inRange_allocateSplit, hrange, ← ha, ← hlf, ← hsp]
  · rw [hg k, if_pos rfl]
  · have n1 : ¬ (sp ≠ AllocationId.null ∧ a = sp) := fun h => (f3 h.1).2.1 h.2.symm
    have n2 : ¬ (lf ≠ AllocationId.null ∧ a = lf) := fun h => (f2 h.1).2 h.2.symm
    rw [hg a, if_neg hak, if_neg n1, if_neg n2, if_pos rfl]
  · intro hne
    have n0 : lf ≠ k := fun h => (f2 hne).1 (h ▸ hin)
    have n1 : ¬ (sp ≠ AllocationId.null ∧ lf = sp) := fun h => (f3 h.1).2.2 h.2.symm
    rw [hg lf, if_neg n0, if_neg n1, if_pos ⟨hne, rfl⟩]
  · intro hne
    have n0 : sp ≠ k := fun h => (f3 hne).1 (h ▸ hin)
    rw [hg sp, if_neg n0, if_pos ⟨hne, rfl⟩]
  · intro j hj hjk
    have n1 : ¬ (sp ≠ AllocationId.null ∧ j = sp) := fun h => (f3 h.1).1 (h.2 ▸ hj)
    have n2 : ¬ (lf ≠ AllocationId.null ∧ j = lf) := fun h => (f2 h.1).1 (h.2 ▸ hj)
    have n3 : j ≠ a := fun h => f1 (h ▸ hj)
    rw [hg j, if_neg hjk, if_neg n1, if_neg n2, if_neg n3]

/-- Every slot after the split path without Deleted slots is the selected
node, now a Fork, or one of the nodes written, or a slot that was not
touched. -/
theorem allocateSplit_fresh_cases (d : AllocatorPrivate) (k : Int) (size : QSize)
    (a lf sp : Int)
    (ha : a = (allocateSplitIds d k size).1) (hlf : lf = (allocateSplitIds d k size).2.1)
    (hsp : sp = (allocateSplitIds d k size).2.2)
    (hin : InRange d.nodes k) (hst : (getNode d.nodes k).status ≠ Status.Deleted)
    (hnd : ∀ j : Int, InRange d.nodes j → (getNode d.nodes j).status ≠ Status.Deleted)
    (j : Int) (hj : InRange (allocateSplit d k size).2.nodes j) :
    (j = k ∧ getNode (allocateSplit d k size).2.nodes j = forkedNode d k size) ∨
    (j = a ∧ getNode (allocateSplit d k size).2.nodes j = allocatedNode d k size) ∨
    (lf ≠ AllocationId.null ∧ j = lf ∧
      getNode (allocateSplit d k size).2.nodes j = leftoverNode d k size) ∨
    (sp ≠ AllocationId.null ∧ j = sp ∧
      getNode (allocateSplit d k size).2.nodes j = splitNode d k size) ∨
    (InRange d.nodes j ∧ j ≠ k ∧
      getNode (allocateSplit d k size).2.nodes j = getNode d.nodes j) := by
  obtain ⟨_, _, _, _, _, hrange, g0, g1, g2, g3, g4⟩ :=
    allocateSplit_fresh d k size a lf sp ha hlf hsp hin hst hnd
  rcases (hrange j).mp hj with h | h | ⟨hne, h⟩ | ⟨hne, h⟩
  · by_cases hjk : j = k
    · exact Or.inl ⟨hjk, hjk ▸ g0⟩
    · exact Or.inr (Or.inr (Or.inr (Or.inr ⟨h, hjk, g4 j h hjk⟩)))
  · exact Or.inr (Or.inl ⟨h, h ▸ g1⟩)
  · exact Or.inr (Or.inr (Or.inl ⟨hne, h, h ▸ g2 hne⟩))
  · exact Or.inr (Or.inr (Or.inr (Or.inl ⟨hne, h, h ▸ g3 hne⟩)))

/-- The status of every slot after a slot has been marked Occupied. -/
theorem status_updNode_occupied (l : List AllocationNode) (k j : Int) :
    (getNode (updNode l k (fun n => n.withStatus Status.Occupied)) j).status =
      if j = k ∧ InRange l k then Status.Occupied else (getNode l j).status := by
  rw [getNode_updNode]
  by_cases hc : j = k ∧ InRange l k
  · rw [if_pos hc, if_pos hc]
    rfl
  · rw [if_neg hc, if_neg hc]

/-- Marking a free slot Occupied changes no leaf and no rectangle. -/
theorem leafCovers_occupied (l : List AllocationNode) (k j : Int) (px py : Int)
    (hfree : (getNode l k).status = Status.Free) :
    leafCovers (updNode l k (fun n => n.withStatus Status.Occupied)) j px py ↔
      leafCovers l j px py := by
  unfold leafCovers
  rw [inRange_updNode, kind_updNode_withStatus, rect_updNode_withStatus,
    status_updNode_occupied]
  by_cases hc : j = k ∧ InRange l k
  · rw [if_pos hc, hc.1, hfree]
    simp
  · rw [if_neg hc]

/-- A list without duplicates extended by a new element. -/
theorem nodup_append_singleton (l : List Int) (x : Int) (h : l.Nodup) (hx : x ∉ l) :
    (l ++ [x]).Nodup := by
  rw [List.nodup_append]
  refine ⟨h, List.nodup_singleton x, ?_⟩
  intro y hy hy1
  rw [List.mem_singleton] at hy1
  exact hx (hy1 ▸ hy)

/-- The exact-fit path of `allocate` keeps the partition. -/
theorem partitioned_occupied (d : AllocatorPrivate) (live : List Allocation) (k : Int)
    (hin : InRange d.nodes k) (hkind : (getNode d.nodes k).kind = Kind.Leaf)
    (hfree : (getNode d.nodes k).status = Status.Free) (hp : partitioned d live)
    (d1 : AllocatorPrivate)
    (hn : d1.nodes = updNode d.nodes k (fun n => n.withStatus Status.Occupied))
    (hs : d1.size = d.size) :
    partitioned d1 (live ++ [{ rect := (getNode d.nodes k).rect, id := k }]) := by
  obtain ⟨p1, p2, p3, p4, p5, p6, p7⟩ := hp
  unfold partitioned
  rw [hn, hs]
  have hnew : ∀ a ∈ live, a.id ≠ k := by
    intro a ha hak
    have h := (p5 a ha).2.2.1
    rw [hak, hfree] at h
    cases h
  refine ⟨?_, ?_, ?_, ?_, ?_, ?_, ?_⟩
  · intro j hj
    rw [inRange_updNode] at hj
    exact status_updNode_occupied_ne_deleted _ _ _ (p1 j hj)
  · intro j hj
    rw [inRange_updNode] at hj
    rw [rect_updNode_withStatus]
    exact p2 j hj
  · intro px py hc
    obtain ⟨j, hj⟩ := p3 px py hc
    exact ⟨j, (leafCovers_occupied d.nodes k j px py hfree).mpr hj⟩
  · intro px py i j hi hj
    exact p4 px py i j ((leafCovers_occupied d.nodes k i px py hfree).mp hi)
      ((leafCovers_occupied d.nodes k j px py hfree).mp hj)
  · intro a ha
    rw [inRange_updNode, kind_updNode_withStatus, rect_updNode_withStatus,
      status_updNode_occupied]
    rcases List.mem_append.mp ha with h | h
    · have hne : ¬ (a.id = k ∧ InRange d.nodes k) := fun hc => hnew a h hc.1
      rw [if_neg hne]
      exact p5 a h
    · rw [List.mem_singleton] at h
      subst h
      exact ⟨hin, hkind, if_pos ⟨rfl, hin⟩, rfl⟩
  · intro j hj hjk hjs
    rw [inRange_updNode] at hj
    rw [kind_updNode_withStatus] at hjk
    rw [status_updNode_occupied] at hjs
    by_cases hc : j = k ∧ InRange d.nodes k
    · exact ⟨_, List.mem_append.mpr (Or.inr (List.mem_singleton.mpr rfl)), hc.1.symm⟩
    · rw [if_neg hc] at hjs
      obtain ⟨a, ha, hid⟩ := p6 j hj hjk hjs
      exact ⟨a, List.mem_append.mpr (Or.inl ha), hid⟩
  · rw [List.map_append]
    apply nodup_append_singleton _ _ p7
    intro hmem
    obtain ⟨a, ha, hid⟩ := List.mem_map.mp hmem
    exact hnew a ha hid

/-- The leaves after the split path without Deleted slots: the old leaves
other than the selected node, and the allocated, leftover and split node. -/
theorem leafCovers_allocateSplit (d : AllocatorPrivate) (k : Int) (size : QSize)
    (a lf sp : Int)
    (ha : a = (allocateSplitIds d k size).1) (hlf : lf = (allocateSplitIds d k size).2.1)
    (hsp : sp = (allocateSplitIds d k size).2.2)
    (hin : InRange d.nodes k) (hst : (getNode d.nodes k).status ≠ Status.Deleted)
    (hnd : ∀ j : Int, InRange d.nodes j → (getNode d.nodes j).status ≠ Status.Deleted)
    (j px py : Int) :
    leafCovers (allocateSplit d k size).2.nodes j px py ↔
      ((j ≠ k ∧ leafCovers d.nodes j px py) ∨
       (j = a ∧ (guillotine (getNode d.nodes k).rect size
          (getNode d.nodes k).orientation).1.containsPoint px py = true) ∨
       (lf ≠ AllocationId.null ∧ j = lf ∧ (guillotine (getNode d.nodes k).rect size
          (getNode d.nodes k).orientation).2.1.containsPoint px py = true) ∨
       (sp ≠ AllocationId.null ∧ j = sp ∧ (guillotine (getNode d.nodes k).rect size
          (getNode d.nodes k).orientation).2.2.containsPoint px py = true)) := by
  obtain ⟨f1, f2, f3, _, _, hrange, g0, g1, g2, g3, g4⟩ :=
    allocateSplit_fresh d k size a lf sp ha hlf hsp hin hst hnd
  constructor
  · rintro ⟨hj, hkd, hsd, hcont⟩
    rcases allocateSplit_fresh_cases d k size a lf sp ha hlf hsp hin hst hnd j hj with
      ⟨_, hn⟩ | ⟨h, hn⟩ | ⟨hne, h, hn⟩ | ⟨hne, h, hn⟩ | ⟨hjin, hjk, hn⟩
    · rw [hn] at hkd
      exact Kind.noConfusion hkd
    · rw [hn] at hcont
      exact Or.inr (Or.inl ⟨h, hcont⟩)
    · rw [hn] at hcont
      exact Or.inr (Or.inr (Or.inl ⟨hne, h, hcont⟩))
    · rw [hn] at hcont
      exact Or.inr (Or.inr (Or.inr ⟨hne, h, hcont⟩))
    · rw [hn] at hkd hsd hcont
      exact Or.inl ⟨hjk, hjin, hkd, hsd, hcont⟩
  · rintro (⟨hjk, hjin, hkd, hsd, hcont⟩ | ⟨h, hcont⟩ | ⟨hne, h, hcont⟩ | ⟨hne, h, hcont⟩)
    · refine ⟨(hrange j).mpr (Or.inl hjin), ?_, ?_, ?_⟩
      · rw [g4 j hjin hjk]; exact hkd
      · rw [g4 j hjin hjk]; exact hsd
      · rw [g4 j hjin hjk]; exact hcont
    · refine ⟨(hrange j).mpr (Or.inr (Or.inl h)), ?_, ?_, ?_⟩
      · rw [h, g1]; rfl
      · rw [h, g1]; show Status.Occupied ≠ Status.Deleted; decide
      · rw [h, g1]; exact hcont
    · refine ⟨(hrange j).mpr (Or.inr (Or.inr (Or.inl ⟨hne, h⟩))), ?_, ?_, ?_⟩
      · rw [h, g2 hne]; rfl
      · rw [h, g2 hne]; show Status.Free ≠ Status.Deleted; decide
      · rw [h, g2 hne]; exact hcont
    · refine ⟨(hrange j).mpr (Or.inr (Or.inr (Or.inr ⟨hne, h⟩))), ?_, ?_, ?_⟩
      · rw [h, g3 hne]; rfl
      · rw [h, g3 hne]; show Status.Free ≠ Status.Deleted; decide
      · rw [h, g3 hne]; exact hcont

/-- After the split path a pixel of a leaf was a pixel of the same leaf
before, or it is a pixel of the selected rectangle and the leaf is one of the
nodes written. -/
theorem leafCovers_allocateSplit_origin (d : AllocatorPrivate) (k : Int) (size : QSize)
    (hin : InRange d.nodes k) (hkind : (getNode d.nodes k).kind = Kind.Leaf)
    (hfree : (getNode d.nodes k).status = Status.Free)
    (hnd : ∀ j : Int, InRange d.nodes j → (getNode d.nodes j).status ≠ Status.Deleted)
    (hw1 : 1 ≤ size.width) (hw2 : size.width ≤ (getNode d.nodes k).rect.width)
    (hh1 : 1 ≤ size.height) (hh2 : size.height ≤ (getNode d.nodes k).rect.height)
    (j px py : Int) (hj : leafCovers (allocateSplit d k size).2.nodes j px py) :
    (j ≠ k ∧ leafCovers d.nodes j px py) ∨
    (¬ InRange d.nodes j ∧ leafCovers d.nodes k px py) := by
  have hst : (getNode d.nodes k).status ≠ Status.Deleted := by
    rw [hfree]; decide
  obtain ⟨f1, f2, f3, _, _, _, _, _, _, _, _⟩ :=
    allocateSplit_fresh d k size _ _ _ rfl rfl rfl hin hst hnd
  obtain ⟨hiff, _, _, _⟩ := guillotine_containsPoint (getNode d.nodes k).rect size
    (getNode d.nodes k).orientation hw1 hw2 hh1 hh2 px py
  rcases (leafCovers_allocateSplit d k size _ _ _ rfl rfl rfl hin hst hnd j px py).mp hj with
    h | ⟨h, hc⟩ | ⟨hne, h, hc⟩ | ⟨hne, h, hc⟩
  · exact Or.inl h
  · exact Or.inr ⟨h ▸ f1, hin, hkind, hst, hiff.mpr (Or.inl hc)⟩
  · exact Or.inr ⟨h ▸ (f2 hne).1, hin, hkind, hst, hiff.mpr (Or.inr (Or.inl hc))⟩
  · exact Or.inr ⟨h ▸ (f3 hne).1, hin, hkind, hst, hiff.mpr (Or.inr (Or.inr hc))⟩

/-- After the split path no pixel lies in two of the nodes written. -/
theorem leafCovers_allocateSplit_new (d : AllocatorPrivate) (k : Int) (size : QSize)
    (hin : InRange d.nodes k)
    (hfree : (getNode d.nodes k).status = Status.Free)
    (hnd : ∀ j : Int, InRange d.nodes j → (getNode d.nodes j).status ≠ Status.Deleted)
    (hw1 : 1 ≤ size.width) (hw2 : size.width ≤ (getNode d.nodes k).rect.width)
    (hh1 : 1 ≤ size.height) (hh2 : size.height ≤ (getNode d.nodes k).rect.height)
    (i j px py : Int) (hi : leafCovers (allocateSplit d k size).2.nodes i px py)
    (hj : leafCovers (allocateSplit d k size).2.nodes j px py)
    (hni : ¬ InRange d.nodes i) (hnj : ¬ InRange d.nodes j) : i = j := by
  have hst : (getNode d.nodes k).status ≠ Status.Deleted := by
    rw [hfree]; decide
  obtain ⟨_, x1, x2, x3⟩ := guillotine_containsPoint (getNode d.nodes k).rect size
    (getNode d.nodes k).orientation hw1 hw2 hh1 hh2 px py
  rcases (leafCovers_allocateSplit d k size _ _ _ rfl rfl rfl hin hst hnd i px py).mp hi with
    h | ⟨h, hc⟩ | ⟨_, h, hc⟩ | ⟨_, h, hc⟩
  · exact absurd h.2.1 hni
  · rcases (leafCovers_allocateSplit d k size _ _ _ rfl rfl rfl hin hst hnd j px py).mp hj with
      h' | ⟨h', hc'⟩ | ⟨_, h', hc'⟩ | ⟨_, h', hc'⟩
    · exact absurd h'.2.1 hnj
    · exact h.trans h'.symm
    · exact absurd ⟨hc, hc'⟩ x1
    · exact absurd ⟨hc, hc'⟩ x2
  · rcases (leafCovers_allocateSplit d k size _ _ _ rfl rfl rfl hin hst hnd j px py).mp hj with
      h' | ⟨h', hc'⟩ | ⟨_, h', hc'⟩ | ⟨_, h', hc'⟩
    · exact absurd h'.2.1 hnj
    · exact absurd ⟨hc', hc⟩ x1
    · exact h.trans h'.symm
    · exact absurd ⟨hc, hc'⟩ x3
  · rcases (leafCovers_allocateSplit d k size _ _ _ rfl rfl rfl hin hst hnd j px py).mp hj with
      h' | ⟨h', hc'⟩ | ⟨_, h', hc'⟩ | ⟨_, h', hc'⟩
    · exact absurd h'.2.1 hnj
    · exact absurd ⟨hc', hc⟩ x2
    · exact absurd ⟨hc', hc⟩ x3
    · exact h.trans h'.symm

/-- The split path of `allocate` keeps the partition. -/
theorem partitioned_allocateSplit (d : AllocatorPrivate) (live : List Allocation) (k : Int)
    (size : QSize) (hin : InRange d.nodes k) (hkind : (getNode d.nodes k).kind = Kind.Leaf)
    (hfree : (getNode d.nodes k).status = Status.Free)
    (hw1 : 1 ≤ size.width) (hw2 : size.width ≤ (getNode d.nodes k).rect.width)
    (hh1 : 1 ≤ size.height) (hh2 : size.height ≤ (getNode d.nodes k).rect.height)
    (hp : partitioned d live) (d1 : AllocatorPrivate)
    (hn : d1.nodes = (allocateSplit d k size).2.nodes) (hs : d1.size = d.size) :
    partitioned d1 (live ++ [(allocateSplit d k size).1]) := by
  obtain ⟨p1, p2, p3, p4, p5, p6, p7⟩ := hp
  unfold partitioned
  rw [hn, hs]
  have hst : (getNode d.nodes k).status ≠ Status.Deleted := by
    rw [hfree]; decide
  obtain ⟨f1, f2, f3, s1, s2, hrange, g0, g1, g2, g3, g4⟩ :=
    allocateSplit_fresh d k size _ _ _ rfl rfl rfl hin hst p1
  have hcases := allocateSplit_fresh_cases d k size _ _ _ rfl rfl rfl hin hst p1
  have hlc := leafCovers_allocateSplit d k size _ _ _ rfl rfl rfl hin hst p1
  have horigin := leafCovers_allocateSplit_origin d k size hin hkind hfree p1 hw1 hw2 hh1 hh2
  obtain ⟨v1, v2, v3⟩ := guillotine_valid d.size (getNode d.nodes k).rect size
    (getNode d.nodes k).orientation (p2 k hin) hw1 hw2 hh1 hh2
  have hold : ∀ a ∈ live, InRange d.nodes a.id ∧ a.id ≠ k := by
    intro a ha
    refine ⟨(p5 a ha).1, ?_⟩
    intro hak
    have h := (p5 a ha).2.2.1
    rw [hak, hfree] at h
    cases h
  refine ⟨?_, ?_, ?_, ?_, ?_, ?_, ?_⟩
  · intro j hj
    rcases hcases j hj with ⟨_, hn⟩ | ⟨_, hn⟩ | ⟨_, _, hn⟩ | ⟨_, _, hn⟩ | ⟨hjin, _, hn⟩
    · rw [hn]; exact hst
    · rw [hn]; show Status.Occupied ≠ Status.Deleted; decide
    · rw [hn]; show Status.Free ≠ Status.Deleted; decide
    · rw [hn]; show Status.Free ≠ Status.Deleted; decide
    · rw [hn]; exact p1 j hjin
  · intro j hj
    rcases hcases j hj with ⟨_, hn⟩ | ⟨_, hn⟩ | ⟨hne, _, hn⟩ | ⟨hne, _, hn⟩ | ⟨hjin, _, hn⟩
    · rw [hn]; exact p2 k hin
    · rw [hn]; exact v1
    · rw [hn]; exact v2 (s1.mp hne)
    · rw [hn]; exact v3 (s2.mp hne)
    · rw [hn]; exact p2 j hjin
  · intro px py hc
    obtain ⟨j, hj⟩ := p3 px py hc
    by_cases hjk : j = k
    · obtain ⟨hiff, _, _, _⟩ := guillotine_containsPoint (getNode d.nodes k).rect size
        (getNode d.nodes k).orientation hw1 hw2 hh1 hh2 px py
      have hb : (getNode d.nodes k).rect.containsPoint px py = true := hjk ▸ hj.2.2.2
      rcases hiff.mp hb with h | h | h
      · exact ⟨_, (hlc _ px py).mpr (Or.inr (Or.inl ⟨rfl, h⟩))⟩
      · exact ⟨_, (hlc _ px py).mpr (Or.inr (Or.inr (Or.inl
          ⟨s1.mpr (isEmpty_of_containsPoint _ px py h), rfl, h⟩)))⟩
      · exact ⟨_, (hlc _ px py).mpr (Or.inr (Or.inr (Or.inr
          ⟨s2.mpr (isEmpty_of_containsPoint _ px py h), rfl, h⟩)))⟩
    · exact ⟨j, (hlc j px py).mpr (Or.inl ⟨hjk, hj⟩)⟩
  · intro px py i j hi hj
    rcases horigin i px py hi with ⟨hik, hio⟩ | ⟨hni, hik⟩
    · rcases horigin j px py hj with ⟨_, hjo⟩ | ⟨_, hjk⟩
      · exact p4 px py i j hio hjo
      · exact absurd (p4 px py i k hio hjk) hik
    · rcases horigin j px py hj with ⟨hjk, hjo⟩ | ⟨hnj, _⟩
      · exact absurd (p4 px py j k hjo hik) hjk
      · exact leafCovers_allocateSplit_new d k size hin hfree p1 hw1 hw2 hh1 hh2 i j px py
          hi hj hni hnj
  · intro a ha
    rcases List.mem_append.mp ha with h | h
    · obtain ⟨hain, hak⟩ := hold a h
      rw [g4 a.id hain hak]
      exact ⟨(hrange a.id).mpr (Or.inl hain), (p5 a h).2⟩
    · rw [List.mem_singleton] at h
      subst h
      rw [allocateSplit_allocation]
      refine ⟨(hrange _).mpr (Or.inr (Or.inl rfl)), ?_, ?_, ?_⟩
      · show (getNode (allocateSplit d k size).2.nodes (allocateSplitIds d k size).1).kind = _
        rw [g1]; rfl
      · show (getNode (allocateSplit d k size).2.nodes (allocateSplitIds d k size).1).status = _
        rw [g1]; rfl
      · show (getNode (allocateSplit d k size).2.nodes (allocateSplitIds d k size).1).rect = _
        rw [g1]; rfl
  · intro j hj hjk hjs
    rcases hcases j hj with ⟨_, hn⟩ | ⟨h, _⟩ | ⟨_, _, hn⟩ | ⟨_, _, hn⟩ | ⟨hjin, _, hn⟩
    · rw [hn] at hjk
      exact Kind.noConfusion hjk
    · exact ⟨_, List.mem_append.mpr (Or.inr (List.mem_singleton.mpr rfl)), h.symm⟩
    · rw [hn] at hjs
      exact Status.noConfusion hjs
    · rw [hn] at hjs
      exact Status.noConfusion hjs
    · rw [hn] at hjk hjs
      obtain ⟨a, ha, hid⟩ := p6 j hjin hjk hjs
      exact ⟨a, List.mem_append.mpr (Or.inl ha), hid⟩
  · rw [List.map_append]
    apply nodup_append_singleton _ _ p7
    intro hmem
    obtain ⟨a, ha, hid⟩ := List.mem_map.mp hmem
    have hain := (hold a ha).1
    rw [hid] at hain
    exact f1 hain

/-- One call of `allocate` keeps the partition; a returned allocation that is
not null is added to the allocations returned so far. -/
theorem partitioned_allocate (d : AllocatorPrivate) (live : List Allocation) (size : QSize)
    (hp : partitioned d live) :
    partitioned (allocate d size).2
      (if (allocate d size).1.isNull = true then live else live ++ [(allocate d size).1]) := by
  rcases allocate_cases d size with h | ⟨he, hin, hel, ⟨hsz, h⟩ | ⟨_, h⟩⟩
  · rw [h]
    have hd : (default : Allocation).isNull = true := rfl
    rw [if_pos hd]
    exact hp
  · obtain ⟨hkind, hfree, _, _⟩ := hel
    have hk0 : (0 : Int) ≤ selectFreeNode d size := ((inRange_iff _ _).mp hin).1
    have hnn : ¬ ((allocate d size).1.isNull = true) := by
      rw [h]
      simp only [Allocation.isNull, decide_eq_true_eq]
      exact ne_null_of_nonneg _ hk0
    rw [if_neg hnn]
    have h1 : (allocate d size).1 =
        (⟨(getNode d.nodes (selectFreeNode d size)).rect, selectFreeNode d size⟩ : Allocation) := by
      rw [h]
    rw [h1]
    exact partitioned_occupied d live _ hin hkind hfree hp _ (by rw [h]) (by rw [h])
  · obtain ⟨hkind, hfree, hw, hh⟩ := hel
    have hpos := (isEmpty_false_iff size).mp he
    have hnn : ¬ ((allocate d size).1.isNull = true) := by
      rw [h, allocateSplit_allocation]
      simp only [Allocation.isNull, decide_eq_true_eq]
      exact ne_null_of_nonneg _ (allocateSplitIds_spec d _ size).1
    rw [if_neg hnn]
    have h1 : (allocate d size).1 = (allocateSplit d (selectFreeNode d size) size).1 := by
      rw [h]
    rw [h1]
    exact partitioned_allocateSplit d live _ size hin hkind hfree hpos.1 hw hpos.2 hh hp _
      (by rw [h]) (by rw [h, allocateSplit_size])

/-- A freshly constructed allocator on a canvas that is not empty is
partitioned by its root. -/
theorem partitioned_Allocator (size : QSize) (hw : 0 < size.width) (hh : 0 < size.height) :
    partitioned (Allocator size) [] := by
  have hlen0 : ((Allocator size).nodes.length : Int) = 1 := rfl
  have h0 : InRange (Allocator size).nodes 0 := (inRange_iff _ _).mpr ⟨le_refl _, by omega⟩
  have hzero : ∀ j : Int, InRange (Allocator size).nodes j → j = 0 := by
    intro j hj
    rw [inRange_iff] at hj
    omega
  refine ⟨?_, ?_, ?_, ?_, ?_, ?_, List.nodup_nil⟩
  · intro j hj
    rw [hzero j hj]
    show Status.Free ≠ Status.Deleted
    decide
  · intro j hj
    rw [hzero j hj]
    show validRect size (QRect.ofTopLeft 0 0 size)
    unfold validRect QRect.ofTopLeft
    simp only []
    omega
  · intro px py hc
    refine ⟨0, h0, rfl, ?_, hc⟩
    show Status.Free ≠ Status.Deleted
    decide
  · intro px py i j hi hj
    rw [hzero i hi.1, hzero j hj.1]
  · intro a ha
    cases ha
  · intro j hj _ hs
    rw [hzero j hj] at hs
    exact Status.noConfusion hs

/-- A sequence of `allocate` calls keeps the partition; the allocations that
are not null are added, in the order of the calls. -/
theorem partitioned_allocateAll (sizes : List QSize) (d : AllocatorPrivate)
    (live : List Allocation) (hp : partitioned d live) :
    partitioned (allocateAll d sizes).1 (live ++ (allocateAll d sizes).2) := by
  induction sizes generalizing d live with
  | nil =>
    show partitioned d (live ++ [])
    rw [List.append_nil]
    exact hp
  | cons s rest ih =>
    have hstep := partitioned_allocate d live s hp
    have h := ih (allocate d s).2 _ hstep
    show partitioned (allocateAll (allocate d s).2 rest).1
      (live ++ (if (allocate d s).1.isNull = true then (allocateAll (allocate d s).2 rest).2
        else (allocate d s).1 :: (allocateAll (allocate d s).2 rest).2))
    by_cases hnull : (allocate d s).1.isNull = true
    · rw [if_pos hnull] at h ⊢
      exact h
    · rw [if_neg hnull] at h ⊢
      rw [List.append_assoc] at h
      exact h

/-- The check `pairwiseDisjoint` as a property of all pairs of the list. -/
theorem pairwiseDisjoint_eq_true (rects : List QRect) :
    pairwiseDisjoint rects = true ↔ rects.Pairwise (fun r q => r.overlaps q = false) := by
  induction rects with
  | nil => simp [pairwiseDisjoint]
  | cons r rest ih =>
    simp only [pairwiseDisjoint, Bool.and_eq_true, List.all_eq_true, Bool.not_eq_true',
      List.pairwise_cons, ih]

/-- Two rectangles that are not empty and overlap share a pixel. -/
theorem exists_common_pixel (a b : QRect) (ha : 1 ≤ a.width ∧ 1 ≤ a.height)
    (hb : 1 ≤ b.width ∧ 1 ≤ b.height) (h : a.overlaps b = true) :
    ∃ px py : Int, a.containsPoint px py = true ∧ b.containsPoint px py = true := by
  simp only [QRect.overlaps, Bool.and_eq_true, decide_eq_true_eq] at h
  refine ⟨max a.x b.x, max a.y b.y, ?_, ?_⟩
  · simp only [QRect.containsPoint, Bool.and_eq_true, decide_eq_true_eq]
    omega
  · simp only [QRect.containsPoint, Bool.and_eq_true, decide_eq_true_eq]
    omega

/-- In a partitioned store the rectangles of two different leaves do not
overlap. -/
theorem leaves_disjoint (d : AllocatorPrivate) (live : List Allocation)
    (hp : partitioned d live) (i j : Int) (hi : InRange d.nodes i) (hj : InRange d.nodes j)
    (hij : i ≠ j) (hki : (getNode d.nodes i).kind = Kind.Leaf)
    (hkj : (getNode d.nodes j).kind = Kind.Leaf) :
    (getNode d.nodes i).rect.overlaps (getNode d.nodes j).rect = false := by
  obtain ⟨p1, p2, _, p4, _, _, _⟩ := hp
  cases hov : (getNode d.nodes i).rect.overlaps (getNode d.nodes j).rect with
  | false => rfl
  | true =>
    obtain ⟨a1, a2, _⟩ := p2 i hi
    obtain ⟨b1, b2, _⟩ := p2 j hj
    obtain ⟨px, py, c1, c2⟩ := exists_common_pixel _ _ ⟨a1, a2⟩ ⟨b1, b2⟩ hov
    exact absurd (p4 px py i j ⟨hi, hki, p1 i hi, c1⟩ ⟨hj, hkj, p1 j hj, c2⟩) hij

/-- A relation that holds between the rectangles of any two different leaves
holds between any two entries of `leafRects`. -/
theorem pairwise_leafRects (l : List AllocationNode) (R : QRect → QRect → Prop)
    (h : ∀ i j : Int, InRange l i → InRange l j → i ≠ j →
      (getNode l i).kind = Kind.Leaf → (getNode l j).kind = Kind.Leaf →
      R (getNode l i).rect (getNode l j).rect) :
    (leafRects l).Pairwise R := by
  unfold leafRects
  rw [List.pairwise_map]
  have hP : l.Pairwise (fun a b => a.kind = Kind.Leaf → b.kind = Kind.Leaf →
      R a.rect b.rect) := by
    rw [List.pairwise_iff_getElem]
    intro i j hi hj hij hpi hpj
    have gi := getNode_natCast l i l[i] (List.getElem?_eq_getElem hi)
    have gj := getNode_natCast l j l[j] (List.getElem?_eq_getElem hj)
    have hne : (i : Int) ≠ (j : Int) := by omega
    have hr := h (i : Int) (j : Int) (inRange_natCast l i hi) (inRange_natCast l j hj) hne
      (by rw [gi]; exact hpi) (by rw [gj]; exact hpj)
    rw [gi, gj] at hr
    exact hr
  refine (List.Pairwise.sublist (List.filter_sublist l) hP).imp_of_mem ?_
  intro a b ha hb hr
  rw [List.mem_filter] at ha hb
  simp only [Bool.and_eq_true, decide_eq_true_eq] at ha hb
  exact hr ha.2.1 hb.2.1

/-- A pixel is covered by `leafRects` iff some slot holds a leaf that covers
it. -/
theorem coversPoint_leafRects (l : List AllocationNode) (px py : Int) :
    coversPoint (leafRects l) px py = true ↔ ∃ j : Int, leafCovers l j px py := by
  unfold coversPoint leafRects
  simp only [List.any_eq_true, List.mem_map, List.mem_filter, Bool.and_eq_true,
    decide_eq_true_eq]
  constructor
  · rintro ⟨r, ⟨n, ⟨hn, hk, hs⟩, rfl⟩, hc⟩
    obtain ⟨j, hj, hg⟩ := exists_inRange_of_mem l n hn
    exact ⟨j, hj, hg ▸ hk, hg ▸ hs, hg ▸ hc⟩
  · rintro ⟨j, hj, hk, hs, hc⟩
    exact ⟨_, ⟨getNode l j, ⟨getNode_mem l j hj, hk, hs⟩, rfl⟩, hc⟩

/-- A rectangle that is not empty overlaps itself. -/
theorem overlaps_self (r : QRect) (hw : 1 ≤ r.width) (hh : 1 ≤ r.height) :
    r.overlaps r = true := by
  simp only [QRect.overlaps, Bool.and_eq_true, decide_eq_true_eq]
  omega

/-- In a partitioned store no two of the returned allocations overlap. -/
theorem live_disjoint (d : AllocatorPrivate) (live : List Allocation)
    (hp : partitioned d live) :
    live.Pairwise (fun a b => a.rect.overlaps b.rect = false) := by
  have p5 := hp.2.2.2.2.1
  have p7 : live.Pairwise (fun a b => a.id ≠ b.id) := List.pairwise_map.mp hp.2.2.2.2.2.2
  refine p7.imp_of_mem ?_
  intro a b ha hb hab
  obtain ⟨a1, a2, _, a4⟩ := p5 a ha
  obtain ⟨b1, b2, _, b4⟩ := p5 b hb
  rw [← a4, ← b4]
  exact leaves_disjoint d live hp a.id b.id a1 b1 hab a2 b2

/-- C18. Allocation-only use keeps a partition of the canvas: for every canvas
(W,H) with W,H > 0 and every list of sizes requested one after the other from
a freshly constructed allocator (so also after each call of a longer list),
the rectangles of the leaves that are not Deleted are pairwise non-overlapping
and cover exactly the pixels of the canvas, every Occupied Leaf is a returned
allocation with the same id and its rect is the rect of exactly one returned
allocation, every returned allocation is an Occupied Leaf with its rect, the
returned ids are distinct and the returned rects are pairwise
non-overlapping. -/
theorem allocate_only_partition (size : QSize) (hw : 0 < size.width) (hh : 0 < size.height)
    (sizes : List QSize) :
    pairwiseDisjoint (leafRects (allocateAll (Allocator size) sizes).1.nodes) = true ∧
    (∀ px py : Int,
      coversPoint (leafRects (allocateAll (Allocator size) sizes).1.nodes) px py =
        (QRect.ofTopLeft 0 0 size).containsPoint px py) ∧
    (∀ j : Int, InRange (allocateAll (Allocator size) sizes).1.nodes j →
      (getNode (allocateAll (Allocator size) sizes).1.nodes j).kind = Kind.Leaf →
      (getNode (allocateAll (Allocator size) sizes).1.nodes j).status = Status.Occupied →
      (⟨(getNode (allocateAll (Allocator size) sizes).1.nodes j).rect, j⟩ : Allocation) ∈
        (allocateAll (Allocator size) sizes).2 ∧
      ((allocateAll (Allocator size) sizes).2.map (fun a => a.rect)).count
        (getNode (allocateAll (Allocator size) sizes).1.nodes j).rect = 1) ∧
    (∀ a ∈ (allocateAll (Allocator size) sizes).2,
      InRange (allocateAll (Allocator size) sizes).1.nodes a.id ∧
      (getNode (allocateAll (Allocator size) sizes).1.nodes a.id).kind = Kind.Leaf ∧
      (getNode (allocateAll (Allocator size) sizes).1.nodes a.id).status = Status.Occupied ∧
      (getNode (allocateAll (Allocator size) sizes).1.nodes a.id).rect = a.rect) ∧
    ((allocateAll (Allocator size) sizes).2.map (fun a => a.id)).Nodup ∧
    pairwiseDisjoint ((allocateAll (Allocator size) sizes).2.map (fun a => a.rect)) = true := by
  have hp := partitioned_allocateAll sizes (Allocator size) [] (partitioned_Allocator size hw hh)
  rw [List.nil_append] at hp
  have hsize : (allocateAll (Allocator size) sizes).1.size = size := allocateAll_size sizes _
  have hlive := live_disjoint _ _ hp
  obtain ⟨p1, p2, p3, p4, p5, p6, p7⟩ := hp
  rw [hsize] at p2 p3
  have hrects : ((allocateAll (Allocator size) sizes).2.map (fun a => a.rect)).Nodup := by
    apply List.pairwise_map.mpr
    refine hlive.imp_of_mem ?_
    intro a b ha _ hab hEq
    obtain ⟨a1, _, _, a4⟩ := p5 a ha
    obtain ⟨v1, v2, _⟩ := p2 a.id a1
    rw [a4] at v1 v2
    rw [← hEq, overlaps_self a.rect v1 v2] at hab
    cases hab
  refine ⟨?_, ?_, ?_, p5, p7, ?_⟩
  · rw [pairwiseDisjoint_eq_true]
    apply pairwise_leafRects
    intro i j hi hj hij hki hkj
    exact leaves_disjoint _ _ ⟨p1, hsize.symm ▸ p2, hsize.symm ▸ p3, p4, p5, p6, p7⟩
      i j hi hj hij hki hkj
  · intro px py
    rw [Bool.eq_iff_iff, coversPoint_leafRects]
    constructor
    · rintro ⟨j, hj, _, _, hc⟩
      obtain ⟨v1, v2, v3, v4, v5, v6⟩ := p2 j hj
      simp only [QRect.containsPoint, Bool.and_eq_true, decide_eq_true_eq] at hc
      simp only [QRect.containsPoint, QRect.ofTopLeft, Bool.and_eq_true, decide_eq_true_eq]
      omega
    · intro hc
      exact p3 px py hc
  · intro j hj hk hs
    obtain ⟨a, ha, hid⟩ := p6 j hj hk hs
    have hr := (p5 a ha).2.2.2
    rw [hid] at hr
    have hmem : (⟨(getNode (allocateAll (Allocator size) sizes).1.nodes j).rect, j⟩ :
        Allocation) ∈ (allocateAll (Allocator size) sizes).2 := by
      rw [hr, ← hid]
      exact ha
    refine ⟨hmem, List.count_eq_one_of_mem hrects ?_⟩
    exact List.mem_map.mpr ⟨_, hmem, rfl⟩
  · rw [pairwiseDisjoint_eq_true]
    exact List.pairwise_map.mpr hlive

/-- C18 on the demo: the 800x800 canvas and the sizes of `Window::reload`. -/
theorem allocate_only_partition_witness :
    (0 : Int) < 800 ∧
    (pairwiseDisjoint (leafRects (allocateAll (Allocator ⟨800, 800⟩) demoSizes).1.nodes) = true ∧
    (∀ px py : Int,
      coversPoint (leafRects (allocateAll (Allocator ⟨800, 800⟩) demoSizes).1.nodes) px py =
        (QRect.ofTopLeft 0 0 ⟨800, 800⟩).containsPoint px py) ∧
    (∀ j : Int, InRange (allocateAll (Allocator ⟨800, 800⟩) demoSizes).1.nodes j →
      (getNode (allocateAll (Allocator ⟨800, 800⟩) demoSizes).1.nodes j).kind = Kind.Leaf →
      (getNode (allocateAll (Allocator ⟨800, 800⟩) demoSizes).1.nodes j).status
        = Status.Occupied →
      (⟨(getNode (allocateAll (Allocator ⟨800, 800⟩) demoSizes).1.nodes j).rect, j⟩ :
        Allocation) ∈ (allocateAll (Allocator ⟨800, 800⟩) demoSizes).2 ∧
      ((allocateAll (Allocator ⟨800, 800⟩) demoSizes).2.map (fun a => a.rect)).count
        (getNode (allocateAll (Allocator ⟨800, 800⟩) demoSizes).1.nodes j).rect = 1) ∧
    (∀ a ∈ (allocateAll (Allocator ⟨800, 800⟩) demoSizes).2,
      InRange (allocateAll (Allocator ⟨800, 800⟩) demoSizes).1.nodes a.id ∧
      (getNode (allocateAll (Allocator ⟨800, 800⟩) demoSizes).1.nodes a.id).kind = Kind.Leaf ∧
      (getNode (allocateAll (Allocator ⟨800, 800⟩) demoSizes).1.nodes a.id).status
        = Status.Occupied ∧
      (getNode (allocateAll (Allocator ⟨800, 800⟩) demoSizes).1.nodes a.id).rect = a.rect) ∧
    ((allocateAll (Allocator ⟨800, 800⟩) demoSizes).2.map (fun a => a.id)).Nodup ∧
    pairwiseDisjoint ((allocateAll (Allocator ⟨800, 800⟩) demoSizes).2.map (fun a => a.rect))
      = true) :=
  ⟨by decide, allocate_only_partition ⟨800, 800⟩ (by decide) (by decide) demoSizes⟩

end KGuillotineAllocator
